import Mathlib

/-!
# APEv2 tag codec of `src/libaudtag/ape/ape.c`

A shallow embedding of the APE tag reader and writer of Audacious
(`ape_read_header`, `ape_find_header`, `ape_read_item`, `ape_read_tag`,
`ape_fill_tuple`, `ape_write_item`, `write_string_item`, `write_integer_item`,
`write_header`, `ape_write_tag`) together with theorems about them.

Conventions of the embedding:

* a byte is a `Fin 256`; a C string is the list of its bytes before the
  terminating NUL;
* `gint` is a 32-bit two's-complement integer: values are `Int`s and every
  conversion to `gint` goes through `toGint`; `guint32` values are `Nat`s
  below `2 ^ 32`;
* the host is little-endian and `glong`/`size_t` are 64 bits wide, so the
  offsets handed to the file layer never wrap;
* stateful code passes the file handle explicitly and returns it next to
  its C return value;
* memory is not modelled: lists stand for the `GList` and for the buffers and
  `free_tag_list` has no counterpart; the functions describe the runs in which
  `g_malloc` returns, and `read_tag_aborts` tells the handles on which it
  cannot, the count being a negative `gint`, so that GLib ends the process;
* the file layer (`vfs_*`) and the `Tuple` record belong to `libaudcore`; they
  are modelled from the specification, the file layer with a schedule of I/O
  faults so that failing seeks, short reads and short writes can be stated.
-/

namespace Ape

/-- One octet of a file or of a memory buffer. -/
abbrev Byte := Fin 256

/-- Conversion of an integer to `gint` (two's complement, 32 bits). -/
def toGint (x : Int) : Int := (x + 2147483648) % 4294967296 - 2147483648

/-- Conversion of an integer to `size_t` (64 bits, unsigned). -/
def toSize (x : Int) : Nat := (x % 18446744073709551616).toNat

/-- Value of four little-endian bytes (`GUINT32_FROM_LE`); bytes that are
missing count as zero. -/
def le32 (b : List Byte) : Nat :=
  (b.getD 0 0).val + 256 * (b.getD 1 0).val + 65536 * (b.getD 2 0).val
    + 16777216 * (b.getD 3 0).val

/-- Four little-endian bytes of a `guint32` (`GUINT32_TO_LE`). -/
def le32bytes (n : Nat) : List Byte :=
  [Fin.ofNat n, Fin.ofNat (n / 256), Fin.ofNat (n / 65536), Fin.ofNat (n / 16777216)]

/-! ## The seekable file -/

/-- Modelled from the spec: the origin of a seek, `origin ∈ {Start, Current,
End}`. -/
inductive Whence where
  | SEEK_SET
  | SEEK_CUR
  | SEEK_END
  deriving DecidableEq, Repr

/-- Modelled from the spec: the seekable-file collaborator (`VFSFile` of
`libaudcore/vfs.h`, absent from the sources at hand).  A file is its byte
content and a current position.  `faults` schedules I/O faults: every seek,
read, write and truncate consumes the head of the list; `none` (or an empty
list) lets the operation run normally, `some k` makes it fail: a seek or a
truncate then does nothing, a read or a write transfers fewer bytes than
requested (`k` of them at most). -/
structure VFSFile where
  bytes : List Byte
  pos : Nat
  faults : List (Option Nat)
  deriving DecidableEq, Repr

/-- Modelled from the spec: `size()`. -/
def vfs_fsize (h : VFSFile) : Int := h.bytes.length

/-- Modelled from the spec: `currentPosition()`. -/
def vfs_ftell (h : VFSFile) : Int := h.pos

/-- Modelled from the spec: the fault scheduled for the next operation on the
file, if any. -/
def next_fault (h : VFSFile) : Option Nat := h.faults.headD none

/-- Modelled from the spec: the offset a seek is relative to. -/
def seek_base (h : VFSFile) (whence : Whence) : Int :=
  match whence with
  | Whence.SEEK_SET => 0
  | Whence.SEEK_CUR => h.pos
  | Whence.SEEK_END => h.bytes.length

/-- Modelled from the spec: `seek(offset, origin)`, returning 0 on success and
-1 on failure.  A seek to a negative position fails; a seek past the end of
the file is allowed. -/
def vfs_fseek (h : VFSFile) (offset : Int) (whence : Whence) : Int × VFSFile :=
  if (next_fault h).isSome || decide (seek_base h whence + offset < 0) then
    (-1, { h with faults := h.faults.tail })
  else (0, { h with pos := (seek_base h whence + offset).toNat, faults := h.faults.tail })

/-- Modelled from the spec: the number of bytes a read or write of `len` bytes
really transfers, all of them, or fewer when a fault is scheduled. -/
def transfer_count (h : VFSFile) (len : Nat) : Nat :=
  match next_fault h with
  | some k => min k (len - 1)
  | none => len

/-- Modelled from the spec: `read(buffer, len)`, returning the bytes actually
read: the `len` bytes at the current position, fewer at the end of the file or
on a fault. -/
def vfs_fread (h : VFSFile) (len : Nat) : List Byte × VFSFile :=
  let got := (h.bytes.drop h.pos).take (transfer_count h len)
  (got, { h with pos := h.pos + got.length, faults := h.faults.tail })

/-- Modelled from the spec: the content of a file after `data` has been stored
at offset `pos`; a gap between the old end of the file and `pos` reads as
zeros. -/
def storeAt (bytes : List Byte) (pos : Nat) (data : List Byte) : List Byte :=
  (bytes ++ List.replicate (pos - bytes.length) 0).take pos ++ data
    ++ bytes.drop (pos + data.length)

/-- Modelled from the spec: `write(buffer, len)`, returning the number of bytes
actually written; a fault writes only a proper initial part of a non-empty
buffer. -/
def vfs_fwrite (h : VFSFile) (data : List Byte) : Nat × VFSFile :=
  let put := data.take (transfer_count h data.length)
  (put.length,
    { bytes := storeAt h.bytes h.pos put, pos := h.pos + put.length,
      faults := h.faults.tail })

/-- Modelled from the spec: the content of a file after it has been cut at `n`
bytes, or extended with zeros up to `n` bytes. -/
def truncated (bytes : List Byte) (n : Nat) : List Byte :=
  (bytes ++ List.replicate (n - bytes.length) 0).take n

/-- Modelled from the spec: `truncate(offset)`, returning 0 on success and -1
on failure.  The file is cut at `offset`, or extended with zeros up to it; a
negative `offset` fails. -/
def vfs_truncate (h : VFSFile) (length : Int) : Int × VFSFile :=
  if (next_fault h).isSome || decide (length < 0) then
    (-1, { h with faults := h.faults.tail })
  else
    (0, { h with bytes := truncated h.bytes length.toNat, faults := h.faults.tail })

/-! ## Header and footer records -/

/-- The `APEHeader` record, fields in host byte order.  The magic is not
stored: a parsed record always carries `APETAGEX`. -/
structure APEHeader where
  version : Nat
  length : Nat
  items : Nat
  flags : Nat
  deriving DecidableEq, Repr

/-- The eight bytes `APETAGEX`. -/
def magic : List Byte := [65, 80, 69, 84, 65, 71, 69, 88]

/-- Flag `1 << 31`. -/
def APE_FLAG_HAS_HEADER : Nat := 2147483648

/-- Flag `1 << 30`. -/
def APE_FLAG_HAS_NO_FOOTER : Nat := 1073741824

/-- Flag `1 << 29`. -/
def APE_FLAG_IS_HEADER : Nat := 536870912

/-- Test `flags & bit` for a single-bit mask `bit`. -/
def hasFlag (flags bit : Nat) : Bool := flags / bit % 2 == 1

/-- Size of an `APEHeader` in the file. -/
def sizeofAPEHeader : Nat := 32

/-- The checks `ape_read_header` makes on the 32 bytes it has read: the magic,
then the little-endian fields, then `length >= sizeof (APEHeader)`. -/
def parse_header (buf : List Byte) : Option APEHeader :=
  if buf.take 8 ≠ magic then none
  else
    let header : APEHeader :=
      { version := le32 (buf.drop 8), length := le32 (buf.drop 12),
        items := le32 (buf.drop 16), flags := le32 (buf.drop 20) }
    if header.length < sizeofAPEHeader then none else some header

/-- The function `ape_read_header`: read 32 bytes at the current position and
validate them. -/
def ape_read_header (handle : VFSFile) : Option APEHeader × VFSFile :=
  let r := vfs_fread handle sizeofAPEHeader
  if r.1.length ≠ sizeofAPEHeader then (none, r.2)
  else (parse_header r.1, r.2)

/-- The results `ape_find_header` passes back on success. -/
structure Found where
  header : APEHeader
  start : Int
  length : Int
  data_start : Int
  data_length : Int
  deriving DecidableEq, Repr

/-- The function `ape_find_header`: a record at offset 0 is tried first, then
one in the last 32 bytes of the file. -/
def ape_find_header (handle : VFSFile) : Option Found × VFSFile :=
  let s0 := vfs_fseek handle 0 Whence.SEEK_SET
  if s0.1 ≠ 0 then (none, s0.2)
  else
    let r0 := ape_read_header s0.2
    match r0.1 with
    | some header =>
      let start : Int := 0
      let length : Int := toGint header.length
      let data_start : Int := sizeofAPEHeader
      let data_length : Int := toGint ((header.length : Int) - sizeofAPEHeader)
      if !hasFlag header.flags APE_FLAG_HAS_HEADER || !hasFlag header.flags APE_FLAG_IS_HEADER
      then (none, r0.2)
      else if !hasFlag header.flags APE_FLAG_HAS_NO_FOOTER then
        let s1 := vfs_fseek r0.2 header.length Whence.SEEK_CUR
        if s1.1 ≠ 0 then (none, s1.2)
        else
          let r1 := ape_read_header s1.2
          match r1.1 with
          | none => (none, r1.2)
          | some _ =>
            (some { header := header, start := start,
                    length := toGint (length + sizeofAPEHeader),
                    data_start := data_start, data_length := data_length }, r1.2)
      else
        (some { header := header, start := start, length := length,
                data_start := data_start, data_length := data_length }, r0.2)
    | none =>
      let s1 := vfs_fseek r0.2 (-(sizeofAPEHeader : Int)) Whence.SEEK_END
      if s1.1 ≠ 0 then (none, s1.2)
      else
        let r1 := ape_read_header s1.2
        match r1.1 with
        | some header =>
          let start : Int := toGint (vfs_ftell r1.2 - header.length)
          let length : Int := toGint header.length
          let data_start : Int := toGint (vfs_ftell r1.2 - header.length)
          let data_length : Int := toGint ((header.length : Int) - sizeofAPEHeader)
          if hasFlag header.flags APE_FLAG_HAS_NO_FOOTER || hasFlag header.flags APE_FLAG_IS_HEADER
          then (none, r1.2)
          else if hasFlag header.flags APE_FLAG_HAS_HEADER then
            let s2 := vfs_fseek r1.2 (-(toGint header.length) - sizeofAPEHeader) Whence.SEEK_CUR
            if s2.1 ≠ 0 then (none, s2.2)
            else
              let r2 := ape_read_header s2.2
              match r2.1 with
              | none => (none, r2.2)
              | some _ =>
                (some { header := header, start := toGint (start - sizeofAPEHeader),
                        length := toGint (length + sizeofAPEHeader),
                        data_start := data_start, data_length := data_length }, r2.2)
          else
            (some { header := header, start := start, length := length,
                    data_start := data_start, data_length := data_length }, r1.2)
        | none => (none, r1.2)

/-- The function `ape_is_our_file`. -/
def ape_is_our_file (handle : VFSFile) : Bool × VFSFile :=
  ((ape_find_header handle).1.isSome, (ape_find_header handle).2)

/-! ## Items -/

/-- The `ValuePair` record: key and value are C strings. -/
structure ValuePair where
  key : List Byte
  value : List Byte
  deriving DecidableEq, Repr

/-- The C string that starts at the front of a buffer: its bytes up to the
first NUL (`g_strdup`, `strlen`). -/
def cstr (buf : List Byte) : List Byte := buf.takeWhile (fun b => b ≠ 0)

/-- The function `ape_read_item`.  `data` is the buffer from the cursor to the
end of the tag data, so that the C parameter `length` is `data.length`; the
result is the pair and the buffer from the new cursor on.  `memchr` looks for
the key terminator from offset 8; the value is `g_strndup (value, header[0])`,
the C string held by the `header[0]` bytes after the terminator. -/
def ape_read_item (data : List Byte) : Option (ValuePair × List Byte) :=
  if data.length < 8 then none
  else if (0 : Byte) ∉ data.drop 8 then none
  else
    let value := ((data.drop 8).dropWhile (fun b => b ≠ 0)).drop 1
    if le32 data > value.length then none
    else
      some ({ key := cstr (data.drop 8), value := cstr (value.take (le32 data)) },
        value.drop (le32 data))

/-- The loop `while (header.items --)` of `ape_read_tag`: at most `items`
calls of `ape_read_item`, every pair prepended to `list`, which is returned as
it stands when an item cannot be read or the count is used up. -/
def read_items : Nat → List Byte → List ValuePair → List ValuePair
  | 0, _, list => list
  | items + 1, item, list =>
    match ape_read_item item with
    | none => list
    | some (pair, rest) => read_items items rest (pair :: list)

/-- The decoding `ape_read_tag` performs on the data it has fetched: the loop
over the items, then `g_list_reverse`. -/
def decode (buffer : List Byte) (item_count : Nat) : List ValuePair :=
  (read_items item_count buffer []).reverse

/-- The function `ape_read_tag`, in the runs in which `g_malloc` returns.  The
count handed to `vfs_fread`, and compared with what it returns, is
`data_length` as a `size_t`: a negative `data_length` (from a length field of
`2 ^ 31 + 32` or more) is a count of almost `2 ^ 64` bytes.  With such a count
`g_malloc` does not return: see `read_tag_aborts`, which tells when the value
given here is one the C function never delivers. -/
def ape_read_tag (handle : VFSFile) : List ValuePair × VFSFile :=
  let f := ape_find_header handle
  match f.1 with
  | none => ([], f.2)
  | some found =>
    let s := vfs_fseek f.2 found.data_start Whence.SEEK_SET
    if s.1 ≠ 0 then ([], s.2)
    else
      let r := vfs_fread s.2 (toSize found.data_length)
      if r.1.length ≠ toSize found.data_length then ([], r.2)
      else (decode r.1 found.header.items, r.2)

/-- Whether `ape_read_tag` reaches `g_malloc (data_length)` with a negative
`data_length`: the tag is found and the seek to `data_start` succeeds.  As a
`gsize` the count is then `2 ^ 64 - 2 ^ 31` bytes or more, which no allocation
satisfies, and `g_malloc` of GLib ends the process instead of returning: the
call of `ape_read_tag`, and with it the `ape_fill_tuple` or `ape_write_tag`
that begins with it, delivers nothing and touches the file no further. -/
def read_tag_aborts (handle : VFSFile) : Bool :=
  let f := ape_find_header handle
  match f.1 with
  | none => false
  | some found =>
    let s := vfs_fseek f.2 found.data_start Whence.SEEK_SET
    if s.1 ≠ 0 then false else decide (found.data_length < 0)

/-! ## The metadata record -/

/-- Modelled from the spec: the structured metadata record (`Tuple` of
`libaudcore`, absent from the sources at hand) over the fields Artist, Title,
Album, Comment, Genre, TrackNumber and Year; `none` is an absent field. -/
structure Tuple where
  artist : Option (List Byte)
  title : Option (List Byte)
  album : Option (List Byte)
  comment : Option (List Byte)
  genre : Option (List Byte)
  track_number : Option Int
  year : Option Int
  deriving DecidableEq, Repr

/-- Modelled from the spec: `getString(field) -> value|absent` is the field
itself; `getInt(field)` as the C code uses it (`tuple_get_int`) is a `gint`,
0 for an absent field. -/
def tuple_get_int (field : Option Int) : Int := toGint (field.getD 0)

/-- The text `Artist`. -/
def keyArtist : List Byte := [65, 114, 116, 105, 115, 116]

/-- The text `Title`. -/
def keyTitle : List Byte := [84, 105, 116, 108, 101]

/-- The text `Album`. -/
def keyAlbum : List Byte := [65, 108, 98, 117, 109]

/-- The text `Comment`. -/
def keyComment : List Byte := [67, 111, 109, 109, 101, 110, 116]

/-- The text `Genre`. -/
def keyGenre : List Byte := [71, 101, 110, 114, 101]

/-- The text `Track`. -/
def keyTrack : List Byte := [84, 114, 97, 99, 107]

/-- The text `Date`. -/
def keyDate : List Byte := [68, 97, 116, 101]

/-- White space as `isspace` sees it in the C locale. -/
def isspace (c : Byte) : Bool := c.val == 32 || (9 ≤ c.val && c.val ≤ 13)

/-- Decimal digits. -/
def isdigit (c : Byte) : Bool := 48 ≤ c.val && c.val ≤ 57

/-- Value of the leading decimal digits of a string, continuing from `acc`. -/
def leadingDigits (acc : Nat) : List Byte → Nat
  | [] => acc
  | c :: cs => if isdigit c then leadingDigits (acc * 10 + (c.val - 48)) cs else acc

/-- The clamping `strtol` applies to a value outside the range of `long`. -/
def clampLong (x : Int) : Int :=
  if x < -9223372036854775808 then -9223372036854775808
  else if x > 9223372036854775807 then 9223372036854775807
  else x

/-- The C library function `atoi`, that is `(int) strtol (s, NULL, 10)`: white
space is skipped, one sign is accepted, the leading digits are converted; a
string without leading digits gives 0. -/
def atoi (s : List Byte) : Int :=
  match s.dropWhile isspace with
  | [] => 0
  | c :: cs =>
    if c.val = 45 then toGint (clampLong (-(leadingDigits 0 cs : Int)))
    else if c.val = 43 then toGint (clampLong (leadingDigits 0 cs))
    else toGint (clampLong (leadingDigits 0 (c :: cs)))

/-- Body of the loop of `ape_fill_tuple`: the chain of `strcmp` tests on the
key of one pair. -/
def fill_pair (tuple : Tuple) (pair : ValuePair) : Tuple :=
  if pair.key = keyArtist then { tuple with artist := some pair.value }
  else if pair.key = keyTitle then { tuple with title := some pair.value }
  else if pair.key = keyAlbum then { tuple with album := some pair.value }
  else if pair.key = keyComment then { tuple with comment := some pair.value }
  else if pair.key = keyGenre then { tuple with genre := some pair.value }
  else if pair.key = keyTrack then { tuple with track_number := some (atoi pair.value) }
  else if pair.key = keyDate then { tuple with year := some (atoi pair.value) }
  else tuple

/-- The function `ape_fill_tuple`. -/
def ape_fill_tuple (tuple : Tuple) (handle : VFSFile) : Tuple × VFSFile :=
  let r := ape_read_tag handle
  (r.1.foldl fill_pair tuple, r.2)

/-! ## Writing -/

/-- The function `ape_write_item`: the 8-byte item header (value length, then
flags 0), the key with its terminator, the value.  The result is the C return
value, the handle and the updated `* written_length`.  Strings are shorter than
`2 ^ 31` bytes, so `key_len` and `value_len` are their exact lengths. -/
def ape_write_item (handle : VFSFile) (key value : List Byte) (written_length : Int) :
    Bool × VFSFile × Int :=
  let key_len : Nat := key.length + 1
  let value_len : Nat := value.length
  let w0 := vfs_fwrite handle (le32bytes value_len ++ le32bytes 0)
  if w0.1 ≠ 8 then (false, w0.2, written_length)
  else
    let w1 := vfs_fwrite w0.2 (key ++ [0])
    if w1.1 ≠ key_len then (false, w1.2, written_length)
    else
      let w2 := vfs_fwrite w1.2 value
      if w2.1 ≠ value_len then (false, w2.2, written_length)
      else (true, w2.2, written_length + (8 + key_len + value_len))

/-- The variables a write threads through its steps: the handle and the
counters `length` (as `* written_length`) and `items` (as `* written_items`).
Overflow of the two `gint` counters is undefined in C; the model keeps them
exact. -/
structure WState where
  handle : VFSFile
  length : Int
  items : Int
  deriving DecidableEq, Repr

/-- The function `write_string_item`; `value` is what `tuple_get_string`
returned for the field, `none` for `NULL`. -/
def write_string_item (value : Option (List Byte)) (key : List Byte) (s : WState) :
    Bool × WState :=
  match value with
  | none => (true, s)
  | some v =>
    let w := ape_write_item s.handle key v s.length
    if !w.1 then (false, { s with handle := w.2.1, length := w.2.2 })
    else (true, { handle := w.2.1, length := w.2.2, items := s.items + 1 })

/-- Decimal digits of a natural number, most significant first; `fuel` bounds
the number of digits. -/
def natDigits : Nat → Nat → List Byte
  | 0, _ => []
  | fuel + 1, n =>
    if n < 10 then [Fin.ofNat (48 + n)]
    else natDigits fuel (n / 10) ++ [Fin.ofNat (48 + n % 10)]

/-- What `snprintf (scratch, sizeof scratch, "%d", value)` leaves in `scratch`
for a `gint`. -/
def formatInt (value : Int) : List Byte :=
  if value < 0 then (45 : Byte) :: natDigits (value.natAbs + 1) value.natAbs
  else natDigits (value.natAbs + 1) value.natAbs

/-- The function `write_integer_item`; `value` is what `tuple_get_int`
returned for the field. -/
def write_integer_item (value : Int) (key : List Byte) (s : WState) : Bool × WState :=
  if value = 0 then (true, s)
  else
    let w := ape_write_item s.handle key (formatInt value) s.length
    if !w.1 then (false, { s with handle := w.2.1, length := w.2.2 })
    else (true, { handle := w.2.1, length := w.2.2, items := s.items + 1 })

/-- The 32 bytes `write_header` composes. -/
def header_bytes (data_length items : Int) (is_header : Bool) : List Byte :=
  magic ++ le32bytes 2000
    ++ le32bytes ((data_length + sizeofAPEHeader) % 4294967296).toNat
    ++ le32bytes (items % 4294967296).toNat
    ++ le32bytes (if is_header then APE_FLAG_HAS_HEADER + APE_FLAG_IS_HEADER
        else APE_FLAG_HAS_HEADER)
    ++ List.replicate 8 0

/-- The function `write_header`. -/
def write_header (data_length items : Int) (is_header : Bool) (handle : VFSFile) :
    Bool × VFSFile :=
  let w := vfs_fwrite handle (header_bytes data_length items is_header)
  (w.1 == sizeofAPEHeader, w.2)

/-- The chain of seven `write_string_item` / `write_integer_item` calls of
`ape_write_tag`, joined by `||`: the first call that fails ends the chain. -/
def write_known_items (tuple : Tuple) (s : WState) : Bool × WState :=
  let a := write_string_item tuple.artist keyArtist s
  if !a.1 then a
  else
    let b := write_string_item tuple.title keyTitle a.2
    if !b.1 then b
    else
      let c := write_string_item tuple.album keyAlbum b.2
      if !c.1 then c
      else
        let d := write_string_item tuple.comment keyComment c.2
        if !d.1 then d
        else
          let e := write_string_item tuple.genre keyGenre d.2
          if !e.1 then e
          else
            let f := write_integer_item (tuple_get_int tuple.track_number) keyTrack e.2
            if !f.1 then f
            else write_integer_item (tuple_get_int tuple.year) keyDate f.2

/-- The `strcmp` chain that makes the loop of `ape_write_tag` skip a pair. -/
def is_known_key (key : List Byte) : Bool :=
  key = keyArtist || key = keyTitle || key = keyAlbum || key = keyComment
    || key = keyGenre || key = keyTrack || key = keyDate

/-- The loop of `ape_write_tag` over the pairs read from the old tag. -/
def write_old_items : List ValuePair → WState → Bool × WState
  | [], s => (true, s)
  | pair :: rest, s =>
    if is_known_key pair.key then write_old_items rest s
    else
      let w := ape_write_item s.handle pair.key pair.value s.length
      if !w.1 then (false, { s with handle := w.2.1, length := w.2.2 })
      else write_old_items rest { handle := w.2.1, length := w.2.2, items := s.items + 1 }

/-- The function `ape_write_tag`.  The sum `start + length` that is compared
with the file size is taken exactly.  After the items the source tests
`write_header (length, items, FALSE, handle)` without negation, so it is a
footer that was written in full which sends control to `ERROR`. -/
def ape_write_tag (tuple : Tuple) (handle : VFSFile) : Bool × VFSFile :=
  let rd := ape_read_tag handle
  let list := rd.1
  let f := ape_find_header rd.2
  match f.1 with
  | none => (false, f.2)
  | some found =>
    if found.start + found.length ≠ vfs_fsize f.2 then (false, f.2)
    else
      let t := vfs_truncate f.2 found.start
      if t.1 ≠ 0 then (false, t.2)
      else
        let s := vfs_fseek t.2 found.start Whence.SEEK_SET
        if s.1 ≠ 0 then (false, s.2)
        else
          let w := write_header 0 0 true s.2
          if !w.1 then (false, w.2)
          else
            let k := write_known_items tuple { handle := w.2, length := 0, items := 0 }
            if !k.1 then (false, k.2.handle)
            else
              let o := write_old_items list k.2
              if !o.1 then (false, o.2.handle)
              else
                let ft := write_header o.2.length o.2.items false o.2.handle
                if ft.1 then (false, ft.2)
                else
                  let s1 := vfs_fseek ft.2 found.start Whence.SEEK_SET
                  if s1.1 ≠ 0 then (false, s1.2)
                  else
                    let hd := write_header o.2.length o.2.items true s1.2
                    if !hd.1 then (false, hd.2)
                    else (true, hd.2)

/-- The tag `ape_write_tag` works on: what its own call of `ape_find_header`
finds, which runs on the handle as `ape_read_tag` has left it. -/
def located_for_write (handle : VFSFile) : Option Found :=
  (ape_find_header (ape_read_tag handle).2).1

/-- The bytes `p` at the front of the file are out of reach of a write: they
are there, and the position of the handle lies behind them. -/
def Keeps (p : List Byte) (h : VFSFile) : Prop := p <+: h.bytes ∧ p.length ≤ h.pos

/-! ## Items as they lie in a tag -/

/-- An item of a tag body as the format lays it out: four flag bytes, a key
and the raw bytes of a value.  The value length is not a field: it is the
length of `value`. -/
structure RawItem where
  flags : List Byte
  key : List Byte
  value : List Byte
  deriving DecidableEq, Repr

/-- Serialization of an item: value length (uint32 LE), item flags, key, NUL,
value.  With flags 0 these are the bytes `ape_write_item` writes. -/
def RawItem.bytes (i : RawItem) : List Byte :=
  le32bytes i.value.length ++ i.flags ++ i.key ++ [0] ++ i.value

/-- An item is well formed when it has four flag bytes, its key holds no NUL
and the length of its value fits the 32-bit length field. -/
def RawItem.wf (i : RawItem) : Prop :=
  i.flags.length = 4 ∧ (0 : Byte) ∉ i.key ∧ i.value.length < 4294967296

instance (i : RawItem) : Decidable i.wf := by unfold RawItem.wf; infer_instance

/-- The pair `ape_read_item` makes of a well-formed item: the key, and the
value as a C string. -/
def RawItem.decoded (i : RawItem) : ValuePair := { key := i.key, value := cstr i.value }

/-- A tag body: the serializations of its items, one after the other. -/
def items_data : List RawItem → List Byte
  | [] => []
  | i :: rest => i.bytes ++ items_data rest

/-- The three ways in which the bytes at the cursor fail to be an item: fewer
than 8 bytes remain, the key has no terminator, or the declared value length
(the first four bytes) exceeds what remains after the terminator of the key. -/
def Malformed (bad : List Byte) : Prop :=
  bad.length < 8 ∨ (0 : Byte) ∉ bad.drop 8 ∨
    ∃ key rest, bad.drop 8 = key ++ 0 :: rest ∧ (0 : Byte) ∉ key ∧ rest.length < le32 bad

/-! ## Sample inputs -/

/-- An item `K` whose three value bytes are `A`, NUL, `B`. -/
def nulItem : RawItem := { flags := [0, 0, 0, 0], key := [75], value := [65, 0, 66] }

/-- An item `K` = `AB`. -/
def plainItem : RawItem := { flags := [0, 0, 0, 0], key := [75], value := [65, 66] }

/-- A handle at the start of a file, no fault scheduled. -/
def open_file (bytes : List Byte) : VFSFile := { bytes := bytes, pos := 0, faults := [] }

/-- A 32-byte record with the given length, item count and flags. -/
def record_bytes (length items flags : Nat) : List Byte :=
  magic ++ le32bytes 2000 ++ le32bytes length ++ le32bytes items ++ le32bytes flags
    ++ List.replicate 8 0

/-- A file of forty bytes 7: it holds no tag. -/
def tagless_file : VFSFile := open_file (List.replicate 40 7)

/-- The record with no field set. -/
def empty_tuple : Tuple :=
  { artist := none, title := none, album := none, comment := none, genre := none,
    track_number := none, year := none }

/-- The record Artist = `A`, Title = `B`, Track = 3. -/
def sample_tuple : Tuple :=
  { artist := some [65], title := some [66], album := none, comment := none, genre := none,
    track_number := some 3, year := none }

/-- One byte of content followed by an empty tag: a lone footer record. -/
def trailing_tag_file : VFSFile := open_file ((0 : Byte) :: record_bytes 32 0 0)

/-- What `ape_find_header` finds in `trailing_tag_file`. -/
def trailing_found : Found :=
  { header := { version := 2000, length := 32, items := 0, flags := 0 },
    start := 1, length := 32, data_start := 1, data_length := 0 }

/-- The file `trailing_tag_file` on a handle whose fourteenth operation, the
first write of an item, is cut short after two bytes. -/
def faulty_tag_file : VFSFile :=
  { trailing_tag_file with faults := List.replicate 13 none ++ [some 2] }

/-- A tag at the start of the file (a lone header record that declares no
footer) followed by one more byte. -/
def tag_then_junk_file : VFSFile :=
  open_file (record_bytes 32 0
    (APE_FLAG_HAS_HEADER + APE_FLAG_HAS_NO_FOOTER + APE_FLAG_IS_HEADER) ++ [7])

/-- What `ape_find_header` finds in `tag_then_junk_file`. -/
def junk_found : Found :=
  { header := { version := 2000, length := 32, items := 0, flags := 3758096384 },
    start := 0, length := 32, data_start := 32, data_length := 0 }

/-- Bytes that are not an item: they declare a value of nine bytes for the key
`K`, and one byte follows the terminator of the key. -/
def short_item : List Byte := le32bytes 9 ++ le32bytes 0 ++ [75, 0, 65]

/-- One byte of content followed by a record that has the magic and the flag
`IS_HEADER`. -/
def header_flag_at_end_file : VFSFile :=
  open_file ((0 : Byte) :: record_bytes 32 0 APE_FLAG_IS_HEADER)

/-- A record at offset 0 with the magic and `HAS_HEADER` but not `IS_HEADER`,
one byte of content, and a lone footer record at the end. -/
def odd_header_file : VFSFile :=
  open_file (record_bytes 32 0 APE_FLAG_HAS_HEADER ++ (0 : Byte) :: record_bytes 32 0 0)

/-! ## What a write without faults produces -/

/-- A handle on which nothing is scheduled to fail and whose position is the
end of the file: every write appends. -/
def AtEnd (h : VFSFile) : Prop := h.faults = [] ∧ h.pos = h.bytes.length

/-- The handle after `data` has been appended to the file. -/
def appended (h : VFSFile) (data : List Byte) : VFSFile :=
  { bytes := h.bytes ++ data, pos := h.bytes.length + data.length, faults := [] }

/-- The item `ape_write_item` serializes for a key and a value: the item flags
are always 0. -/
def written_item (key value : List Byte) : RawItem :=
  { flags := le32bytes 0, key := key, value := value }

/-- The item `write_string_item` emits for a field: none for an absent field
(`NULL`), one for any string that is present. -/
def string_item (value : Option (List Byte)) (key : List Byte) : List RawItem :=
  match value with
  | none => []
  | some v => [written_item key v]

/-- The item `write_integer_item` emits for a field: none for 0, else the
number in decimal. -/
def integer_item (value : Int) (key : List Byte) : List RawItem :=
  if value = 0 then [] else [written_item key (formatInt value)]

/-- The items the chain of `write_*_item` calls of `ape_write_tag` emits for a
record, in the order of the calls. -/
def known_items (tuple : Tuple) : List RawItem :=
  string_item tuple.artist keyArtist ++ string_item tuple.title keyTitle
    ++ string_item tuple.album keyAlbum ++ string_item tuple.comment keyComment
    ++ string_item tuple.genre keyGenre
    ++ integer_item (tuple_get_int tuple.track_number) keyTrack
    ++ integer_item (tuple_get_int tuple.year) keyDate

/-- The items the loop of `ape_write_tag` emits for the pairs read from the old
tag: those whose key is not one of the seven known names, in their order. -/
def old_items (list : List ValuePair) : List RawItem :=
  (list.filter (fun pair => !is_known_key pair.key)).map
    (fun pair => written_item pair.key pair.value)

/-- The state of a write after the given items have been appended and
counted. -/
def emit (items : List RawItem) (s : WState) : WState :=
  { handle := appended s.handle (items_data items),
    length := s.length + ((items_data items).length : Int),
    items := s.items + (items.length : Int) }

/-- The file a write without faults leaves: the old content cut at `start`,
the placeholder written by `write_header (0, 0, TRUE)`, the items of the
record, the items kept from the old tag, and the footer. -/
def rewritten (tuple : Tuple) (list : List ValuePair) (bytes : List Byte) (start : Nat) :
    List Byte :=
  truncated bytes start ++ header_bytes 0 0 true
    ++ items_data (known_items tuple ++ old_items list)
    ++ header_bytes ((items_data (known_items tuple ++ old_items list)).length : Int)
        ((known_items tuple ++ old_items list).length : Int) false

/-- One byte of content followed by a tag that holds the item `nulItem` and
ends with a lone footer record. -/
def nul_item_file : VFSFile :=
  open_file ((0 : Byte) :: (items_data [nulItem] ++ record_bytes 45 1 0))

/-- Three items: Artist = `X`, then `K` = `AB`, then `K` = `A`, NUL, `B`. -/
def mixed_items : List RawItem := [written_item keyArtist [88], plainItem, nulItem]

/-- One byte of content followed by a tag that holds `mixed_items` and ends
with a lone footer record. -/
def mixed_items_file : VFSFile :=
  open_file ((0 : Byte) :: (items_data mixed_items ++ record_bytes 73 3 0))

/-- What `ape_find_header` finds in `mixed_items_file`. -/
def mixed_found : Found :=
  { header := { version := 2000, length := 73, items := 3, flags := 0 },
    start := 1, length := 73, data_start := 1, data_length := 41 }

/-! ## The mapping of items to fields, in the words of the specification -/

/-- The value of the last item of a sequence whose key is `name`, if there is
one: last match wins. -/
def last_value (name : List Byte) (items : List ValuePair) : Option (List Byte) :=
  ((items.filter (fun p => p.key = name)).getLast?).map ValuePair.value

/-- A decoded sequence with two Track items, two Artist items, a Date that is
not a number and an item with another key; the last Track is `9x`. -/
def fill_sample : List ValuePair :=
  [ValuePair.mk keyTrack [48, 55], ValuePair.mk keyArtist [88], ValuePair.mk keyTrack [57, 120],
    ValuePair.mk [75] [65, 66], ValuePair.mk keyArtist [89], ValuePair.mk keyDate [97]]

/-- The slot of an integer field in `store`: absent when the number is 0, else
its decimal text. -/
def decimal_field (field : Option Int) : Option (List Byte) :=
  if tuple_get_int field = 0 then none else some (formatInt (tuple_get_int field))

/-- The known fields of a record in the fixed order Artist, Title, Album,
Comment, Genre, Track, Date, each with the value it is stored under, if any. -/
def field_table (record : Tuple) : List (List Byte × Option (List Byte)) :=
  [(keyArtist, record.artist), (keyTitle, record.title), (keyAlbum, record.album),
    (keyComment, record.comment), (keyGenre, record.genre),
    (keyTrack, decimal_field record.track_number), (keyDate, decimal_field record.year)]

/-- The operation `store` in the words of the specification, except that a
string field is emitted whenever it is present: the known-field pairs of a
record, in the fixed order. -/
def store (record : Tuple) : List ValuePair :=
  (field_table record).filterMap (fun kv => kv.2.map (fun v => { key := kv.1, value := v }))

/-- The record Artist = the empty string, nothing else. -/
def empty_artist_tuple : Tuple := { empty_tuple with artist := some [] }

/-! ## Locating without faults -/

/-- The record a read without faults accepts at offset `pos` of a file: what
`ape_read_header` returns on a handle at `pos`. -/
def record_at (bytes : List Byte) (pos : Nat) : Option APEHeader :=
  if pos + 32 ≤ bytes.length then parse_header ((bytes.drop pos).take 32) else none

/-- What `ape_find_header` computes when no fault occurs, as a function of the
content of the file. -/
def locate (bytes : List Byte) : Option Found :=
  match record_at bytes 0 with
  | some header =>
    if !hasFlag header.flags APE_FLAG_HAS_HEADER || !hasFlag header.flags APE_FLAG_IS_HEADER
    then none
    else if !hasFlag header.flags APE_FLAG_HAS_NO_FOOTER then
      match record_at bytes (32 + header.length) with
      | none => none
      | some _ =>
        some { header := header, start := 0, length := toGint (toGint header.length + 32),
               data_start := 32, data_length := toGint ((header.length : Int) - 32) }
    else
      some { header := header, start := 0, length := toGint header.length,
             data_start := 32, data_length := toGint ((header.length : Int) - 32) }
  | none =>
    match record_at bytes (bytes.length - 32) with
    | none => none
    | some header =>
      if hasFlag header.flags APE_FLAG_HAS_NO_FOOTER || hasFlag header.flags APE_FLAG_IS_HEADER
      then none
      else if hasFlag header.flags APE_FLAG_HAS_HEADER then
        if (bytes.length : Int) - toGint header.length - 32 < 0 then none
        else
          match record_at bytes ((bytes.length : Int) - toGint header.length - 32).toNat with
          | none => none
          | some _ =>
            some { header := header,
                   start := toGint (toGint ((bytes.length : Int) - header.length) - 32),
                   length := toGint (toGint header.length + 32),
                   data_start := toGint ((bytes.length : Int) - header.length),
                   data_length := toGint ((header.length : Int) - 32) }
      else
        some { header := header, start := toGint ((bytes.length : Int) - header.length),
               length := toGint header.length,
               data_start := toGint ((bytes.length : Int) - header.length),
               data_length := toGint ((header.length : Int) - 32) }

/-- An empty tag with header and footer at the start of a file, and nothing
else: the footer record lies `length` = 32 bytes after the start of the
header. -/
def header_footer_file : VFSFile :=
  open_file (record_bytes 32 0 (APE_FLAG_HAS_HEADER + APE_FLAG_IS_HEADER)
    ++ record_bytes 32 0 APE_FLAG_HAS_HEADER)

/-- One byte of content followed by a tag with header, the item `plainItem`
and footer. -/
def full_tag_file : VFSFile :=
  open_file ((0 : Byte) :: (record_bytes 32 0 (APE_FLAG_HAS_HEADER + APE_FLAG_IS_HEADER)
    ++ items_data [plainItem] ++ record_bytes 44 1 APE_FLAG_HAS_HEADER))

/-- What `ape_find_header` finds in `full_tag_file`. -/
def full_found : Found :=
  { header := { version := 2000, length := 44, items := 1, flags := APE_FLAG_HAS_HEADER },
    start := 1, length := 76, data_start := 33, data_length := 12 }

/-- One byte of content followed by a lone footer record whose length field,
100, exceeds the size of the file. -/
def oversized_tag_file : VFSFile := open_file ((0 : Byte) :: record_bytes 100 0 0)

/-- What `ape_find_header` finds in `oversized_tag_file`. -/
def oversized_found : Found :=
  { header := { version := 2000, length := 100, items := 0, flags := 0 },
    start := -67, length := 100, data_start := -67, data_length := 68 }

/-! ## Records of C strings -/

/-- A string field that holds no NUL, or is absent. -/
def no_nul (field : Option (List Byte)) : Prop := (0 : Byte) ∉ field.getD []

instance (field : Option (List Byte)) : Decidable (no_nul field) := by
  unfold no_nul
  infer_instance

/-- A record of C strings: none of its string fields holds a NUL. -/
def c_strings (tuple : Tuple) : Prop :=
  no_nul tuple.artist ∧ no_nul tuple.title ∧ no_nul tuple.album ∧ no_nul tuple.comment
    ∧ no_nul tuple.genre

instance (tuple : Tuple) : Decidable (c_strings tuple) := by
  unfold c_strings
  infer_instance

/-- An integer field as a write followed by a read hands it on: unset when the
number is 0, for which no item is written. -/
def nonzero_field (field : Option Int) : Option Int :=
  if tuple_get_int field = 0 then none else some (tuple_get_int field)

/-- Thirty-two bytes of content followed by a tag that holds the item
`plainItem` and ends with a lone footer record. -/
def content_tag_file : VFSFile :=
  open_file (List.replicate 32 7 ++ (items_data [plainItem] ++ record_bytes 44 1 0))

/-- What `ape_find_header` finds in `content_tag_file`. -/
def content_found : Found :=
  { header := { version := 2000, length := 44, items := 1, flags := 0 },
    start := 32, length := 44, data_start := 32, data_length := 12 }

/-- One byte of content followed by a lone footer record whose length field is
`2 ^ 32 - 1`: as `gint`s the length is -1 and the data length -33. -/
def huge_length_file : VFSFile := open_file ((0 : Byte) :: record_bytes 4294967295 0 0)

/-- What `ape_find_header` finds in `huge_length_file`. -/
def huge_length_found : Found :=
  { header := { version := 2000, length := 4294967295, items := 0, flags := 0 },
    start := 34, length := -1, data_start := 34, data_length := -33 }

/-! # Theorems -/

/-! ## The file layer -/

theorem vfs_fseek_bytes (h : VFSFile) (o : Int) (w : Whence) :
    (vfs_fseek h o w).2.bytes = h.bytes := by
  unfold vfs_fseek
  split <;> rfl

theorem vfs_fseek_faults (h : VFSFile) (o : Int) (w : Whence) :
    (vfs_fseek h o w).2.faults = h.faults.tail := by
  unfold vfs_fseek
  split <;> rfl

theorem vfs_fseek_ok (h : VFSFile) (o : Int) (w : Whence) (hk : ¬ (vfs_fseek h o w).1 ≠ 0) :
    0 ≤ seek_base h w + o ∧ (vfs_fseek h o w).2.pos = (seek_base h w + o).toNat := by
  unfold vfs_fseek at hk ⊢
  split at hk
  · simp at hk
  · rename_i hc
    rw [if_neg hc]
    simp only [Bool.or_eq_true, decide_eq_true_eq, not_or, not_lt] at hc
    exact ⟨hc.2, rfl⟩

theorem vfs_fread_bytes (h : VFSFile) (n : Nat) : (vfs_fread h n).2.bytes = h.bytes := rfl

theorem vfs_fread_faults (h : VFSFile) (n : Nat) : (vfs_fread h n).2.faults = h.faults.tail := rfl

theorem vfs_fread_pos (h : VFSFile) (n : Nat) :
    (vfs_fread h n).2.pos = h.pos + (vfs_fread h n).1.length := rfl

theorem transfer_count_le (h : VFSFile) (n : Nat) : transfer_count h n ≤ n := by
  unfold transfer_count
  split <;> omega

theorem transfer_count_nofault (h : VFSFile) (n : Nat) (hf : h.faults = []) :
    transfer_count h n = n := by
  simp [transfer_count, next_fault, hf]

/-- A read that returns as many bytes as were asked for returns the bytes at
the position of the handle. -/
theorem vfs_fread_full (h : VFSFile) (n : Nat) (hl : (vfs_fread h n).1.length = n) :
    (vfs_fread h n).1 = (h.bytes.drop h.pos).take n := by
  unfold vfs_fread at hl ⊢
  simp only [List.length_take] at hl
  have := transfer_count_le h n
  have h2 : transfer_count h n = n := by omega
  simp only [h2]

/-- A header is only ever accepted from 32 bytes that were read in full at the
position of the handle. -/
theorem ape_read_header_some (h : VFSFile) (hdr : APEHeader)
    (hs : (ape_read_header h).1 = some hdr) :
    ((h.bytes.drop h.pos).take 32).length = 32 ∧
      parse_header ((h.bytes.drop h.pos).take 32) = some hdr ∧
      (ape_read_header h).2.pos = h.pos + 32 := by
  unfold ape_read_header at hs ⊢
  simp only [sizeofAPEHeader] at hs ⊢
  by_cases hl : (vfs_fread h 32).1.length = 32
  · have hfull := vfs_fread_full h 32 hl
    simp only [ne_eq, hl, not_true_eq_false, if_false] at hs ⊢
    rw [hfull] at hs
    refine ⟨by rw [← hfull]; exact hl, hs, ?_⟩
    rw [vfs_fread_pos, hl]
  · simp [hl] at hs

theorem ape_read_header_bytes (h : VFSFile) : (ape_read_header h).2.bytes = h.bytes := by
  unfold ape_read_header
  dsimp only
  split <;> rfl

theorem ape_read_header_faults (h : VFSFile) :
    (ape_read_header h).2.faults = h.faults.tail := by
  unfold ape_read_header
  dsimp only
  split <;> rfl

/-- Without a fault, and with 32 bytes left in the file, `ape_read_header`
decides on the 32 bytes at the position of the handle. -/
theorem ape_read_header_nofault (h : VFSFile) (hf : h.faults = [])
    (hl : h.pos + 32 ≤ h.bytes.length) :
    (ape_read_header h).1 = parse_header ((h.bytes.drop h.pos).take 32) := by
  unfold ape_read_header vfs_fread
  simp only [sizeofAPEHeader, transfer_count_nofault h 32 hf, List.length_take, List.length_drop]
  rw [if_neg (by omega)]

theorem seek_base_set (h : VFSFile) : seek_base h Whence.SEEK_SET = 0 := rfl

theorem seek_base_cur (h : VFSFile) : seek_base h Whence.SEEK_CUR = h.pos := rfl

theorem seek_base_end (h : VFSFile) : seek_base h Whence.SEEK_END = h.bytes.length := rfl

/-! ## Locating a tag -/

/-- C9 (false-positive rejection, footer): when the first 32 bytes of a file
are not a valid record and its last 32 bytes are a record (magic `APETAGEX`,
length at least 32) whose flags have `IS_HEADER` or `HAS_NO_FOOTER` set,
`ape_find_header` reports that no tag was found, whatever faults the file
layer raises. -/
theorem find_header_rejects_footer_flags (h : VFSFile) (hdr : APEHeader)
    (hlen : 32 ≤ h.bytes.length)
    (hfirst : parse_header (h.bytes.take 32) = none)
    (hlast : parse_header (h.bytes.drop (h.bytes.length - 32)) = some hdr)
    (hflags : hasFlag hdr.flags APE_FLAG_IS_HEADER = true
      ∨ hasFlag hdr.flags APE_FLAG_HAS_NO_FOOTER = true) :
    (ape_find_header h).1 = none := by
  unfold ape_find_header
  dsimp only
  split
  · rfl
  · rename_i hs0
    have h0 := vfs_fseek_ok _ _ _ hs0
    rw [seek_base_set] at h0
    split
    · rename_i header hr0
      have h1 := (ape_read_header_some _ _ hr0).2.1
      rw [vfs_fseek_bytes, h0.2] at h1
      simp only [zero_add, Int.toNat_zero, List.drop_zero] at h1
      rw [hfirst] at h1
      exact absurd h1 (by simp)
    · split
      · rfl
      · rename_i hs1
        have h1 := vfs_fseek_ok _ _ _ hs1
        rw [seek_base_end, ape_read_header_bytes, vfs_fseek_bytes] at h1
        split
        · rename_i header hr1
          have h2 := (ape_read_header_some _ _ hr1).2.1
          rw [vfs_fseek_bytes, ape_read_header_bytes, vfs_fseek_bytes, h1.2] at h2
          have e : ((h.bytes.length : Int) + -(sizeofAPEHeader : Int)).toNat
              = h.bytes.length - 32 := by
            simp only [sizeofAPEHeader]; omega
          rw [e, List.take_of_length_le (by simp only [List.length_drop]; omega), hlast] at h2
          have e2 : header = hdr := (Option.some.inj h2).symm
          subst e2
          rcases hflags with hf | hf <;> simp [hf]
        · rfl



theorem vfs_fseek_nofault (h : VFSFile) (o : Int) (w : Whence) (hf : h.faults = [])
    (hge : 0 ≤ seek_base h w + o) :
    vfs_fseek h o w = (0, { h with pos := (seek_base h w + o).toNat }) := by
  unfold vfs_fseek
  have hn : next_fault h = none := by simp [next_fault, hf]
  rw [if_neg (by simp [hn]; omega)]
  simp [hf]

theorem vfs_fseek_nofault_neg (h : VFSFile) (o : Int) (w : Whence) (hf : h.faults = [])
    (hlt : seek_base h w + o < 0) :
    vfs_fseek h o w = (-1, h) := by
  unfold vfs_fseek
  rw [if_pos (by simp [hlt])]
  cases h
  simp_all

/-- C10 (false-positive rejection, header): when the first 32 bytes of a file
are a record (magic `APETAGEX`, length at least 32) whose flags lack
`HAS_HEADER` or lack `IS_HEADER`, `ape_find_header` reports that no tag was
found; the trailing record is not even looked at. -/
theorem find_header_rejects_header_flags (h : VFSFile) (hdr : APEHeader)
    (hf : h.faults = []) (hlen : 32 ≤ h.bytes.length)
    (hfirst : parse_header (h.bytes.take 32) = some hdr)
    (hflags : hasFlag hdr.flags APE_FLAG_HAS_HEADER = false
      ∨ hasFlag hdr.flags APE_FLAG_IS_HEADER = false) :
    (ape_find_header h).1 = none := by
  have hs : vfs_fseek h 0 Whence.SEEK_SET = (0, { h with pos := 0 }) := by
    rw [vfs_fseek_nofault h 0 _ hf (by simp [seek_base_set])]
    simp [seek_base_set]
  have hr : (ape_read_header { h with pos := 0 }).1 = some hdr := by
    rw [ape_read_header_nofault { h with pos := 0 } hf (by simpa using hlen)]
    simpa using hfirst
  unfold ape_find_header
  simp only [hs, hr, ne_eq, not_true_eq_false, if_false]
  rcases hflags with hx | hx <;> simp [hx]


/-! ## Decoding items -/

theorem le32_le32bytes (n : Nat) (hn : n < 4294967296) (rest : List Byte) :
    le32 (le32bytes n ++ rest) = n := by
  simp only [le32, le32bytes, List.cons_append, List.nil_append, List.getD_cons_zero,
    List.getD_cons_succ, Fin.ofNat, Fin.val_mk]
  omega

theorem le32bytes_length (n : Nat) : (le32bytes n).length = 4 := rfl

theorem cstr_append_zero (k : List Byte) (hk : (0 : Byte) ∉ k) (rest : List Byte) :
    cstr (k ++ 0 :: rest) = k := by
  induction k with
  | nil => simp [cstr]
  | cons a t ih =>
    simp only [List.mem_cons, not_or] at hk
    have ha : a ≠ 0 := fun e => hk.1 e.symm
    simp only [cstr, List.cons_append, List.takeWhile_cons, ha, ne_eq, not_false_eq_true,
      decide_True, if_true, List.cons.injEq, true_and]
    exact ih hk.2

theorem dropWhile_append_zero (k : List Byte) (hk : (0 : Byte) ∉ k) (rest : List Byte) :
    (k ++ 0 :: rest).dropWhile (fun b => b ≠ 0) = 0 :: rest := by
  induction k with
  | nil => simp
  | cons a t ih =>
    simp only [List.mem_cons, not_or] at hk
    have ha : a ≠ 0 := fun e => hk.1 e.symm
    simp only [List.cons_append, List.dropWhile_cons, ha, ne_eq, not_false_eq_true,
      decide_True, if_true]
    exact ih hk.2

theorem ape_read_item_wf (i : RawItem) (hw : i.wf) (rest : List Byte) :
    ape_read_item (i.bytes ++ rest) = some ({ key := i.key, value := cstr i.value }, rest) := by
  obtain ⟨hfl, hkey, hval⟩ := hw
  have hshape : i.bytes ++ rest
      = le32bytes i.value.length ++ (i.flags ++ (i.key ++ 0 :: (i.value ++ rest))) := by
    simp [RawItem.bytes, List.append_assoc]
  have hdrop : (i.bytes ++ rest).drop 8 = i.key ++ 0 :: (i.value ++ rest) := by
    rw [hshape, ← List.append_assoc]
    exact List.drop_left' (by simp [le32bytes_length, hfl])
  have hlen : ¬ (i.bytes ++ rest).length < 8 := by
    simp [RawItem.bytes, le32bytes_length, hfl]; omega
  have hle : le32 (i.bytes ++ rest) = i.value.length := by
    rw [hshape]; exact le32_le32bytes _ hval _
  unfold ape_read_item
  rw [if_neg hlen, hdrop, if_neg (by simp), dropWhile_append_zero _ hkey, hle]
  simp only [List.drop_succ_cons, List.drop_zero, List.length_append]
  rw [if_neg (by omega), cstr_append_zero _ hkey, List.take_left, List.drop_left]

theorem read_items_acc (n : Nat) (buf : List Byte) (acc : List ValuePair) :
    read_items n buf acc = read_items n buf [] ++ acc := by
  induction n generalizing buf acc with
  | zero => simp [read_items]
  | succ n ih =>
    unfold read_items
    split
    · simp
    · rename_i pair rest _
      rw [ih rest (pair :: acc), ih rest [pair]]
      simp

theorem read_items_wf_cons (n : Nat) (i : RawItem) (hw : i.wf) (rest : List Byte) :
    (read_items (n + 1) (i.bytes ++ rest) []).reverse
      = i.decoded :: (read_items n rest []).reverse := by
  rw [read_items, ape_read_item_wf i hw rest]
  simp only
  rw [read_items_acc]
  simp [RawItem.decoded]

theorem read_items_wf (items : List RawItem) (hw : ∀ i ∈ items, i.wf) (n : Nat)
    (tail : List Byte) :
    (read_items (items.length + n) (items_data items ++ tail) []).reverse
      = items.map RawItem.decoded ++ (read_items n tail []).reverse := by
  induction items with
  | nil => simp [items_data]
  | cons i rest ih =>
    have e : (i :: rest).length + n = (rest.length + n) + 1 := by simp; omega
    rw [e, items_data, List.append_assoc,
      read_items_wf_cons _ i (hw i (List.mem_cons_self _ _))]
    rw [ih (fun j hj => hw j (List.mem_cons_of_mem _ hj))]
    simp

theorem ape_read_item_malformed (bad : List Byte) (hb : Malformed bad) :
    ape_read_item bad = none := by
  unfold ape_read_item
  by_cases h8 : bad.length < 8
  · rw [if_pos h8]
  · rw [if_neg h8]
    rcases hb with h | h | ⟨key, rest, hd, hk, hl⟩
    · exact absurd h h8
    · rw [if_pos h]
    · rw [hd, if_neg (by simp), dropWhile_append_zero _ hk]
      simp only [List.drop_succ_cons, List.drop_zero]
      rw [if_pos hl]

theorem read_items_malformed (n : Nat) (bad : List Byte) (hb : Malformed bad) :
    read_items n bad [] = [] := by
  cases n with
  | zero => rfl
  | succ n => rw [read_items, ape_read_item_malformed bad hb]

theorem cstr_of_no_zero (v : List Byte) (h0 : (0 : Byte) ∉ v) : cstr v = v := by
  unfold cstr
  rw [List.takeWhile_eq_self_iff]
  intro b hb
  simp only [ne_eq, decide_eq_true_eq]
  intro e
  exact h0 (e ▸ hb)

/-- C7, amended: when the buffer holds `k` well-formed items followed by bytes
that are not an item (fewer than 8 bytes, a key without terminator, or a
declared value length beyond the end of the buffer), decoding with any item
count above `k` returns, and what it returns is the `k` items in order, each
with its key and with its value as a C string, that is up to the first zero
byte; these are the items themselves when no value holds a zero byte. -/
theorem decode_stops_at_malformed_item (items : List RawItem) (bad : List Byte) (n : Nat)
    (hw : ∀ i ∈ items, i.wf) (hb : Malformed bad) (hn : items.length < n) :
    decode (items_data items ++ bad) n = items.map RawItem.decoded
      ∧ ((∀ i ∈ items, (0 : Byte) ∉ i.value) →
          decode (items_data items ++ bad) n
            = items.map (fun i => { key := i.key, value := i.value })) := by
  obtain ⟨m, rfl⟩ : ∃ m, n = items.length + m := ⟨n - items.length, by omega⟩
  have hd : decode (items_data items ++ bad) (items.length + m)
      = items.map RawItem.decoded := by
    unfold decode
    rw [read_items_wf items hw, read_items_malformed m bad hb]
    simp
  refine ⟨hd, fun h0 => ?_⟩
  rw [hd]
  apply List.map_congr_left
  intro i hi
  simp only [RawItem.decoded, cstr_of_no_zero _ (h0 i hi)]

/-- C8, amended: the value decoded for a well-formed item is the C string held
by its declared value bytes, that is those bytes up to the first zero byte; it
is all of them when none of them is zero. -/
theorem decoded_value_is_c_string (items : List RawItem) (tail : List Byte) (n : Nat)
    (hw : ∀ i ∈ items, i.wf) (hn : items.length ≤ n) :
    ((decode (items_data items ++ tail) n).take items.length).map
        ValuePair.value = items.map (fun i => cstr i.value)
      ∧ ∀ i ∈ items, (0 : Byte) ∉ i.value → cstr i.value = i.value := by
  obtain ⟨m, rfl⟩ : ∃ m, n = items.length + m := ⟨n - items.length, by omega⟩
  refine ⟨?_, ?_⟩
  · unfold decode
    rw [read_items_wf items hw]
    have : (items.map RawItem.decoded).length = items.length := by simp
    rw [← this, List.take_left]
    simp [RawItem.decoded]
  · intro i _ h0
    exact cstr_of_no_zero _ h0

/-- C8, counterexample: the item `K` with the three value bytes `A`, NUL, `B`
is well formed, and the value decoded for it is not those three bytes. -/
theorem decoded_value_drops_bytes_after_nul : nulItem.wf ∧
    (decode (items_data [nulItem]) 1).map ValuePair.value ≠ [nulItem.value] := by
  decide

/-! ## Reading leaves the file alone -/

theorem ape_find_header_bytes (h : VFSFile) : (ape_find_header h).2.bytes = h.bytes := by
  unfold ape_find_header
  dsimp only
  split_ifs <;> (repeat' split) <;>
    simp only [ape_read_header_bytes, vfs_fseek_bytes]

theorem ape_read_tag_bytes (h : VFSFile) : (ape_read_tag h).2.bytes = h.bytes := by
  unfold ape_read_tag
  dsimp only
  split
  · exact ape_find_header_bytes h
  · split_ifs <;> simp only [vfs_fread_bytes, vfs_fseek_bytes, ape_find_header_bytes]

theorem ape_find_header_faults (h : VFSFile) (hf : h.faults = []) :
    (ape_find_header h).2.faults = [] := by
  unfold ape_find_header
  dsimp only
  split_ifs <;> (repeat' split) <;>
    simp [ape_read_header_faults, vfs_fseek_faults, hf]

theorem ape_read_tag_faults (h : VFSFile) (hf : h.faults = []) :
    (ape_read_tag h).2.faults = [] := by
  unfold ape_read_tag
  dsimp only
  split
  · exact ape_find_header_faults h hf
  · split_ifs <;>
      simp [vfs_fread_faults, vfs_fseek_faults, ape_find_header_faults h hf]

theorem vfs_fseek_start (h : VFSFile) (hf : h.faults = []) :
    vfs_fseek h 0 Whence.SEEK_SET = (0, { bytes := h.bytes, pos := 0, faults := [] }) := by
  rw [vfs_fseek_nofault h 0 _ hf (by simp [seek_base_set])]
  simp [seek_base_set, hf]

/-- Without faults the outcome of `ape_find_header` is a function of the
content of the file: the position of the handle does not matter. -/
theorem ape_find_header_congr (h h' : VFSFile) (hf : h.faults = []) (hf' : h'.faults = [])
    (hb : h.bytes = h'.bytes) : (ape_find_header h).1 = (ape_find_header h').1 := by
  unfold ape_find_header
  rw [vfs_fseek_start h hf, vfs_fseek_start h' hf', hb]

theorem located_for_write_nofault (h : VFSFile) (hf : h.faults = []) :
    located_for_write h = (ape_find_header h).1 :=
  ape_find_header_congr _ _ (ape_read_tag_faults h hf) hf (ape_read_tag_bytes h)

/-! ## What a rewrite leaves in place -/

theorem storeAt_keeps (p bytes : List Byte) (pos : Nat) (data : List Byte)
    (hp : p <+: bytes) (hl : p.length ≤ pos) : p <+: storeAt bytes pos data := by
  unfold storeAt
  rw [List.append_assoc]
  refine List.IsPrefix.trans ?_ (List.prefix_append _ _)
  rw [List.prefix_take_iff]
  exact ⟨hp.trans (List.prefix_append _ _), hl⟩

theorem vfs_fwrite_keeps (p : List Byte) (h : VFSFile) (data : List Byte) (hk : Keeps p h) :
    Keeps p (vfs_fwrite h data).2 := by
  unfold vfs_fwrite
  exact ⟨storeAt_keeps _ _ _ _ hk.1 hk.2, Nat.le_trans hk.2 (Nat.le_add_right _ _)⟩

theorem ape_write_item_keeps (p : List Byte) (h : VFSFile) (key value : List Byte) (wl : Int)
    (hk : Keeps p h) : Keeps p (ape_write_item h key value wl).2.1 := by
  unfold ape_write_item
  dsimp only
  split_ifs <;> simp only <;>
    first
      | exact vfs_fwrite_keeps _ _ _ hk
      | exact vfs_fwrite_keeps _ _ _ (vfs_fwrite_keeps _ _ _ hk)
      | exact vfs_fwrite_keeps _ _ _ (vfs_fwrite_keeps _ _ _ (vfs_fwrite_keeps _ _ _ hk))

theorem write_string_item_keeps (p : List Byte) (v : Option (List Byte)) (key : List Byte)
    (s : WState) (hk : Keeps p s.handle) : Keeps p (write_string_item v key s).2.handle := by
  unfold write_string_item
  split
  · exact hk
  · dsimp only
    split_ifs <;> exact ape_write_item_keeps _ _ _ _ _ hk

theorem write_integer_item_keeps (p : List Byte) (v : Int) (key : List Byte)
    (s : WState) (hk : Keeps p s.handle) : Keeps p (write_integer_item v key s).2.handle := by
  unfold write_integer_item
  dsimp only
  split_ifs
  · exact hk
  · exact ape_write_item_keeps _ _ _ _ _ hk
  · exact ape_write_item_keeps _ _ _ _ _ hk

theorem write_known_items_keeps (p : List Byte) (tuple : Tuple) (s : WState)
    (hk : Keeps p s.handle) : Keeps p (write_known_items tuple s).2.handle := by
  have a := write_string_item_keeps p tuple.artist keyArtist s hk
  have b := write_string_item_keeps p tuple.title keyTitle _ a
  have c := write_string_item_keeps p tuple.album keyAlbum _ b
  have d := write_string_item_keeps p tuple.comment keyComment _ c
  have e := write_string_item_keeps p tuple.genre keyGenre _ d
  have f := write_integer_item_keeps p (tuple_get_int tuple.track_number) keyTrack _ e
  have g := write_integer_item_keeps p (tuple_get_int tuple.year) keyDate _ f
  unfold write_known_items
  dsimp only
  split_ifs <;> assumption

theorem write_old_items_keeps (p : List Byte) (list : List ValuePair) (s : WState)
    (hk : Keeps p s.handle) : Keeps p (write_old_items list s).2.handle := by
  induction list generalizing s with
  | nil => exact hk
  | cons pair rest ih =>
    unfold write_old_items
    dsimp only
    split_ifs
    · exact ih s hk
    · exact ape_write_item_keeps _ _ _ _ _ hk
    · exact ih _ (ape_write_item_keeps _ _ _ _ _ hk)

theorem write_header_keeps (p : List Byte) (dl items : Int) (b : Bool) (h : VFSFile)
    (hk : Keeps p h) : Keeps p (write_header dl items b h).2 :=
  vfs_fwrite_keeps _ _ _ hk

theorem vfs_fseek_set_keeps (p : List Byte) (h : VFSFile) (o : Int) (hk : Keeps p h)
    (ho : p.length ≤ o.toNat) : Keeps p (vfs_fseek h o Whence.SEEK_SET).2 := by
  unfold vfs_fseek
  split_ifs
  · exact hk
  · exact ⟨hk.1, by simpa [seek_base_set] using ho⟩

theorem vfs_truncate_bytes (h : VFSFile) (n : Int) (hne : (vfs_truncate h n).1 ≠ 0) :
    (vfs_truncate h n).2.bytes = h.bytes := by
  unfold vfs_truncate at hne ⊢
  split_ifs at hne ⊢
  · rfl
  · simp at hne

theorem vfs_truncate_keeps (h : VFSFile) (n : Int) :
    h.bytes.take n.toNat <+: (vfs_truncate h n).2.bytes := by
  unfold vfs_truncate
  split_ifs
  · exact List.take_prefix _ _
  · simp only [truncated]
    rw [List.prefix_take_iff]
    refine ⟨( List.take_prefix _ _).trans (List.prefix_append _ _), ?_⟩
    simp

/-! ## The rewrite -/

/-- Whatever faults occur, the bytes before the start of the located tag stay
at the front of the file through every step of `ape_write_tag`. -/
theorem ape_write_tag_keeps_front (tuple : Tuple) (h : VFSFile) (found : Found)
    (hfound : located_for_write h = some found) :
    h.bytes.take found.start.toNat <+: (ape_write_tag tuple h).2.bytes := by
  unfold located_for_write at hfound
  have hb : (ape_find_header (ape_read_tag h).2).2.bytes = h.bytes := by
    rw [ape_find_header_bytes, ape_read_tag_bytes]
  have hlen : (h.bytes.take found.start.toNat).length ≤ found.start.toNat :=
    List.length_take_le _ _
  unfold ape_write_tag
  simp only [hfound]
  generalize (ape_find_header (ape_read_tag h).2).2 = f at hb
  generalize (ape_read_tag h).1 = list
  rw [← hb] at hlen ⊢
  by_cases c1 : found.start + found.length ≠ vfs_fsize f
  · rw [if_pos c1]
    exact List.take_prefix _ _
  rw [if_neg c1]
  by_cases c2 : (vfs_truncate f found.start).1 ≠ 0
  · rw [if_pos c2, vfs_truncate_bytes _ _ c2]
    exact List.take_prefix _ _
  rw [if_neg c2]
  have ht := vfs_truncate_keeps f found.start
  generalize (vfs_truncate f found.start).2 = t at ht ⊢
  by_cases c3 : (vfs_fseek t found.start Whence.SEEK_SET).1 ≠ 0
  · rw [if_pos c3, vfs_fseek_bytes]
    exact ht
  rw [if_neg c3]
  have k0 : Keeps (f.bytes.take found.start.toNat)
      (vfs_fseek t found.start Whence.SEEK_SET).2 := by
    have hs := vfs_fseek_ok _ _ _ c3
    exact ⟨by rw [vfs_fseek_bytes]; exact ht, by
      rw [hs.2, seek_base_set, zero_add]; exact hlen⟩
  generalize (vfs_fseek t found.start Whence.SEEK_SET).2 = s at k0 ⊢
  have k1 := write_header_keeps _ 0 0 true _ k0
  generalize write_header 0 0 true s = w at k1 ⊢
  by_cases c4 : (!w.1) = true
  · rw [if_pos c4]
    exact k1.1
  rw [if_neg c4]
  have k2 := write_known_items_keeps _ tuple { handle := w.2, length := 0, items := 0 } k1
  generalize write_known_items tuple { handle := w.2, length := 0, items := 0 } = k at k2 ⊢
  by_cases c5 : (!k.1) = true
  · rw [if_pos c5]
    exact k2.1
  rw [if_neg c5]
  have k3 := write_old_items_keeps _ list _ k2
  generalize write_old_items list k.2 = o at k3 ⊢
  by_cases c6 : (!o.1) = true
  · rw [if_pos c6]
    exact k3.1
  rw [if_neg c6]
  have k4 := write_header_keeps _ o.2.length o.2.items false _ k3
  generalize write_header o.2.length o.2.items false o.2.handle = ft at k4 ⊢
  by_cases c7 : ft.1 = true
  · rw [if_pos c7]
    exact k4.1
  rw [if_neg c7]
  have k5 := vfs_fseek_set_keeps _ _ found.start k4 hlen
  generalize vfs_fseek ft.2 found.start Whence.SEEK_SET = s1 at k5 ⊢
  by_cases c8 : s1.1 ≠ 0
  · rw [if_pos c8]
    exact k5.1
  rw [if_neg c8]
  have k6 := write_header_keeps _ o.2.length o.2.items true _ k5
  generalize write_header o.2.length o.2.items true s1.2 = hd at k6 ⊢
  by_cases c9 : (!hd.1) = true
  · rw [if_pos c9]
    exact k6.1
  rw [if_neg c9]
  exact k6.1

/-- C5 (unrelated content is preserved): whatever the record and whatever
faults the file layer raises, the bytes that lay before the start of the tag
`ape_write_tag` located are still at the front of the file after the write:
the first `start` bytes of the file are what they were before. -/
theorem write_keeps_bytes_before_tag (tuple : Tuple) (h : VFSFile) (found : Found)
    (hfound : located_for_write h = some found) :
    h.bytes.take found.start.toNat <+: (ape_write_tag tuple h).2.bytes
      ∧ (found.start.toNat ≤ h.bytes.length →
          (ape_write_tag tuple h).2.bytes.take found.start.toNat
            = h.bytes.take found.start.toNat) := by
  have hp := ape_write_tag_keeps_front tuple h found hfound
  refine ⟨hp, fun hle => ?_⟩
  have hl : (h.bytes.take found.start.toNat).length = found.start.toNat := by
    rw [List.length_take]; omega
  have e := List.prefix_iff_eq_take.mp hp
  rw [hl] at e
  exact e.symm

/-- C5 at `faulty_tag_file`, where the first write of an item is cut short. -/
theorem write_keeps_bytes_before_tag_witness :
    located_for_write faulty_tag_file = some trailing_found
      ∧ faulty_tag_file.bytes.take trailing_found.start.toNat
          <+: (ape_write_tag sample_tuple faulty_tag_file).2.bytes
      ∧ (trailing_found.start.toNat ≤ faulty_tag_file.bytes.length →
          (ape_write_tag sample_tuple faulty_tag_file).2.bytes.take
              trailing_found.start.toNat
            = faulty_tag_file.bytes.take trailing_found.start.toNat) :=
  ⟨by decide, write_keeps_bytes_before_tag sample_tuple faulty_tag_file trailing_found
    (by decide)⟩

theorem ape_read_tag_none (h : VFSFile) (hn : (ape_find_header h).1 = none) :
    (ape_read_tag h).1 = [] := by
  unfold ape_read_tag
  simp only [hn]

/-- C1, amended: when `ape_find_header` finds no tag in a file, `ape_write_tag`
returns failure whatever the record, leaves the bytes of the file as they
were, and a read of the file afterwards sets no field of the record it is
given. -/
theorem write_without_tag_fails (tuple old : Tuple) (h : VFSFile) (hf : h.faults = [])
    (hnone : (ape_find_header h).1 = none) :
    (ape_write_tag tuple h).1 = false ∧ (ape_write_tag tuple h).2.bytes = h.bytes
      ∧ (ape_fill_tuple old (ape_write_tag tuple h).2).1 = old := by
  have hl : (ape_find_header (ape_read_tag h).2).1 = none := by
    have := located_for_write_nofault h hf
    unfold located_for_write at this
    rw [this, hnone]
  have hw : ape_write_tag tuple h = (false, (ape_find_header (ape_read_tag h).2).2) := by
    unfold ape_write_tag
    simp only [hl]
  have hb : (ape_find_header (ape_read_tag h).2).2.bytes = h.bytes := by
    rw [ape_find_header_bytes, ape_read_tag_bytes]
  have hf2 : (ape_find_header (ape_read_tag h).2).2.faults = [] :=
    ape_find_header_faults _ (ape_read_tag_faults h hf)
  rw [hw]
  refine ⟨rfl, hb, ?_⟩
  have hn2 : (ape_find_header (ape_find_header (ape_read_tag h).2).2).1 = none := by
    rw [ape_find_header_congr _ h hf2 hf hb, hnone]
  have hr := ape_read_tag_none _ hn2
  unfold ape_fill_tuple
  simp only [hr, List.foldl_nil]

/-- C1, amended, at `tagless_file`. -/
theorem write_without_tag_fails_witness :
    (tagless_file.faults = [] ∧ (ape_find_header tagless_file).1 = none)
      ∧ (ape_write_tag sample_tuple tagless_file).1 = false
      ∧ (ape_write_tag sample_tuple tagless_file).2.bytes = tagless_file.bytes
      ∧ (ape_fill_tuple empty_tuple (ape_write_tag sample_tuple tagless_file).2).1
          = empty_tuple :=
  ⟨by decide, write_without_tag_fails sample_tuple empty_tuple tagless_file rfl (by decide)⟩

/-- C1, counterexample: in a file of forty bytes 7 no tag is found; writing
Artist = `A`, Title = `B`, Track = 3 into it returns failure, and the Artist a
read then reports is not the one written. -/
theorem write_without_tag_does_not_round_trip :
    (ape_find_header tagless_file).1 = none
      ∧ (ape_write_tag sample_tuple tagless_file).1 = false
      ∧ (ape_fill_tuple empty_tuple (ape_write_tag sample_tuple tagless_file).2).1.artist
          ≠ sample_tuple.artist := by
  decide


/-- C7, amended, at two items followed by `short_item`, with item count 5. -/
theorem decode_stops_at_malformed_item_witness :
    ((∀ i ∈ [plainItem, nulItem], i.wf) ∧ Malformed short_item
        ∧ [plainItem, nulItem].length < 5)
      ∧ decode (items_data [plainItem, nulItem] ++ short_item) 5
          = [plainItem, nulItem].map RawItem.decoded
      ∧ ((∀ i ∈ [plainItem, nulItem], (0 : Byte) ∉ i.value) →
          decode (items_data [plainItem, nulItem] ++ short_item) 5
            = [plainItem, nulItem].map (fun i => { key := i.key, value := i.value })) :=
  ⟨⟨by decide, Or.inr (Or.inr ⟨[75], [65], by decide, by decide, by decide⟩), by decide⟩,
    decode_stops_at_malformed_item [plainItem, nulItem] short_item 5 (by decide)
      (Or.inr (Or.inr ⟨[75], [65], by decide, by decide, by decide⟩)) (by decide)⟩

/-- C7, counterexample: the well-formed item `K` = `A`, NUL, `B` followed by
`short_item`, decoded with item count 5.  One pair is returned, and its value
is `A`, not the three value bytes of the item: decoding does not return
exactly the item that precedes the malformed bytes. -/
theorem decode_before_malformed_item_cuts_value :
    nulItem.wf ∧ Malformed short_item ∧ [nulItem].length < 5
      ∧ decode (items_data [nulItem] ++ short_item) 5 = [ValuePair.mk [75] [65]]
      ∧ decode (items_data [nulItem] ++ short_item) 5
          ≠ [nulItem].map (fun i => { key := i.key, value := i.value }) :=
  ⟨by decide, Or.inr (Or.inr ⟨[75], [65], by decide, by decide, by decide⟩), by decide,
    by decide, by decide⟩

/-- C8, amended, at the items `nulItem` and `plainItem`. -/
theorem decoded_value_is_c_string_witness :
    ((∀ i ∈ [nulItem, plainItem], i.wf) ∧ [nulItem, plainItem].length ≤ 2)
      ∧ ((decode (items_data [nulItem, plainItem] ++ []) 2).take
            [nulItem, plainItem].length).map ValuePair.value
          = [nulItem, plainItem].map (fun i => cstr i.value)
      ∧ ∀ i ∈ [nulItem, plainItem], (0 : Byte) ∉ i.value → cstr i.value = i.value :=
  ⟨by decide, decoded_value_is_c_string [nulItem, plainItem] [] 2 (by decide) (by decide)⟩

/-- C9 at `header_flag_at_end_file`. -/
theorem find_header_rejects_footer_flags_witness :
    (32 ≤ header_flag_at_end_file.bytes.length
        ∧ parse_header (header_flag_at_end_file.bytes.take 32) = none
        ∧ parse_header (header_flag_at_end_file.bytes.drop
            (header_flag_at_end_file.bytes.length - 32))
          = some { version := 2000, length := 32, items := 0, flags := APE_FLAG_IS_HEADER }
        ∧ hasFlag APE_FLAG_IS_HEADER APE_FLAG_IS_HEADER = true)
      ∧ (ape_find_header header_flag_at_end_file).1 = none :=
  ⟨by decide, find_header_rejects_footer_flags header_flag_at_end_file
    { version := 2000, length := 32, items := 0, flags := APE_FLAG_IS_HEADER }
    (by decide) (by decide) (by decide) (Or.inl (by decide))⟩

/-- C10 at `odd_header_file`, whose trailing footer record is valid. -/
theorem find_header_rejects_header_flags_witness :
    (odd_header_file.faults = [] ∧ 32 ≤ odd_header_file.bytes.length
        ∧ parse_header (odd_header_file.bytes.take 32)
          = some { version := 2000, length := 32, items := 0, flags := APE_FLAG_HAS_HEADER }
        ∧ hasFlag APE_FLAG_HAS_HEADER APE_FLAG_IS_HEADER = false)
      ∧ (ape_find_header odd_header_file).1 = none :=
  ⟨by decide, find_header_rejects_header_flags odd_header_file
    { version := 2000, length := 32, items := 0, flags := APE_FLAG_HAS_HEADER }
    rfl (by decide) (by decide) (Or.inr (by decide))⟩

/-! ## Writing without faults -/

theorem storeAt_end (bytes data : List Byte) :
    storeAt bytes bytes.length data = bytes ++ data := by
  unfold storeAt
  simp

theorem vfs_fwrite_at_end (h : VFSFile) (data : List Byte) (ha : AtEnd h) :
    vfs_fwrite h data = (data.length, appended h data) := by
  obtain ⟨hf, hp⟩ := ha
  unfold vfs_fwrite appended
  rw [transfer_count_nofault h _ hf, hp, hf]
  simp [storeAt_end]

theorem appended_at_end (h : VFSFile) (data : List Byte) : AtEnd (appended h data) := by
  unfold AtEnd appended
  simp

theorem appended_appended (h : VFSFile) (a b : List Byte) :
    appended (appended h a) b = appended h (a ++ b) := by
  unfold appended
  simp [Nat.add_assoc]

theorem appended_nil (h : VFSFile) (ha : AtEnd h) : appended h [] = h := by
  obtain ⟨hf, hp⟩ := ha
  cases h
  simp_all [appended]

theorem ape_write_item_at_end (h : VFSFile) (key value : List Byte) (wl : Int)
    (ha : AtEnd h) :
    ape_write_item h key value wl
      = (true, appended h (written_item key value).bytes,
          wl + (((written_item key value).bytes.length : Nat) : Int)) := by
  unfold ape_write_item
  simp only [vfs_fwrite_at_end h _ ha, vfs_fwrite_at_end _ _ (appended_at_end _ _),
    appended_appended]
  simp only [List.length_append, le32bytes_length, List.length_singleton, ne_eq,
    not_true_eq_false, if_false, List.length_cons, List.length_nil]
  simp only [written_item, RawItem.bytes, List.append_assoc, List.length_append,
    le32bytes_length, List.length_singleton, Prod.mk.injEq, true_and]
  push_cast
  omega

theorem emit_nil (s : WState) (ha : AtEnd s.handle) : emit [] s = s := by
  cases s
  simp [emit, items_data, appended_nil _ ha]

theorem items_data_append (a b : List RawItem) :
    items_data (a ++ b) = items_data a ++ items_data b := by
  induction a with
  | nil => rfl
  | cons i rest ih => simp [items_data, ih]

theorem emit_emit (a b : List RawItem) (s : WState) :
    emit b (emit a s) = emit (a ++ b) s := by
  simp only [emit, appended_appended, items_data_append, List.length_append, Nat.cast_add,
    WState.mk.injEq, true_and]
  constructor <;> omega

theorem emit_at_end (a : List RawItem) (s : WState) : AtEnd (emit a s).handle :=
  appended_at_end _ _

theorem write_string_item_at_end (v : Option (List Byte)) (key : List Byte) (s : WState)
    (ha : AtEnd s.handle) :
    write_string_item v key s = (true, emit (string_item v key) s) := by
  unfold write_string_item string_item
  cases v with
  | none => simp only [emit_nil s ha]
  | some v =>
    simp only [ape_write_item_at_end _ _ _ _ ha, Bool.not_true, Bool.false_eq_true, if_false,
      emit, items_data, List.append_nil, List.length_singleton, Nat.cast_one]

theorem write_integer_item_at_end (v : Int) (key : List Byte) (s : WState)
    (ha : AtEnd s.handle) :
    write_integer_item v key s = (true, emit (integer_item v key) s) := by
  unfold write_integer_item integer_item
  by_cases hv : v = 0
  · simp only [hv, if_true, emit_nil s ha]
  · simp only [hv, if_false, ape_write_item_at_end _ _ _ _ ha, Bool.not_true,
      Bool.false_eq_true, emit, items_data, List.append_nil, List.length_singleton,
      Nat.cast_one]

theorem write_known_items_at_end (tuple : Tuple) (s : WState) (ha : AtEnd s.handle) :
    write_known_items tuple s = (true, emit (known_items tuple) s) := by
  unfold write_known_items known_items
  simp only [write_string_item_at_end _ _ s ha,
    write_string_item_at_end _ _ _ (emit_at_end _ _),
    write_integer_item_at_end _ _ _ (emit_at_end _ _), emit_emit,
    Bool.not_true, Bool.false_eq_true, if_false]

theorem write_old_items_at_end (list : List ValuePair) (s : WState) (ha : AtEnd s.handle) :
    write_old_items list s = (true, emit (old_items list) s) := by
  induction list generalizing s with
  | nil => simp only [write_old_items, old_items, List.filter_nil, List.map_nil, emit_nil s ha]
  | cons pair rest ih =>
    unfold write_old_items
    by_cases hk : is_known_key pair.key = true
    · rw [if_pos hk, ih s ha]
      simp [old_items, hk]
    · rw [if_neg hk]
      simp only [ape_write_item_at_end _ _ _ _ ha, Bool.not_true, Bool.false_eq_true, if_false]
      have e : ({ handle := appended s.handle (written_item pair.key pair.value).bytes,
                  length := s.length + (((written_item pair.key pair.value).bytes.length : Nat) : Int),
                  items := s.items + 1 } : WState)
          = emit [written_item pair.key pair.value] s := by
        simp [emit, items_data]
      rw [e, ih _ (emit_at_end _ _), emit_emit]
      simp [old_items, hk]

theorem write_header_at_end (dl items : Int) (b : Bool) (h : VFSFile) (ha : AtEnd h) :
    write_header dl items b h = (true, appended h (header_bytes dl items b)) := by
  unfold write_header
  rw [vfs_fwrite_at_end h _ ha]
  have : (header_bytes dl items b).length = 32 := by
    simp [header_bytes, magic, le32bytes_length]
  simp [this, sizeofAPEHeader]

theorem truncated_length (bytes : List Byte) (n : Nat) : (truncated bytes n).length = n := by
  unfold truncated
  simp
  omega

theorem vfs_truncate_nofault (f : VFSFile) (n : Int) (hf : f.faults = []) (h0 : 0 ≤ n) :
    vfs_truncate f n = (0, { f with bytes := truncated f.bytes n.toNat }) := by
  unfold vfs_truncate
  have hn : next_fault f = none := by simp [next_fault, hf]
  rw [if_neg (by simp [hn]; omega)]
  simp [hf]

theorem vfs_truncate_nofault_neg (f : VFSFile) (n : Int) (hlt : n < 0) :
    (vfs_truncate f n).1 ≠ 0 := by
  unfold vfs_truncate
  rw [if_pos (by simp [hlt])]
  simp

/-- The state in which `ape_write_tag` starts to write: the file cut at
`start`, the handle at its end. -/
theorem rewrite_start (f : VFSFile) (n : Int) (hf : f.faults = []) (h0 : 0 ≤ n) :
    vfs_fseek (vfs_truncate f n).2 n Whence.SEEK_SET
      = (0, { bytes := truncated f.bytes n.toNat, pos := n.toNat, faults := [] }) := by
  rw [vfs_truncate_nofault f n hf h0]
  rw [vfs_fseek_nofault { f with bytes := truncated f.bytes n.toNat } n Whence.SEEK_SET hf
    (by simpa [seek_base_set] using h0)]
  simp [seek_base_set, hf]

/-- When no fault is scheduled and the located tag ends at the end of the
file, `ape_write_tag` writes the placeholder, the items and the footer, and
returns failure at that point: the header is not written again. -/
theorem ape_write_tag_nofault (tuple : Tuple) (h : VFSFile) (found : Found)
    (hf : h.faults = []) (hfound : located_for_write h = some found)
    (hend : found.start + found.length = (h.bytes.length : Int)) (h0 : 0 ≤ found.start) :
    (ape_write_tag tuple h).1 = false
      ∧ (ape_write_tag tuple h).2.bytes
        = rewritten tuple (ape_read_tag h).1 h.bytes found.start.toNat := by
  unfold located_for_write at hfound
  have hb : (ape_find_header (ape_read_tag h).2).2.bytes = h.bytes := by
    rw [ape_find_header_bytes, ape_read_tag_bytes]
  have hf2 : (ape_find_header (ape_read_tag h).2).2.faults = [] :=
    ape_find_header_faults _ (ape_read_tag_faults h hf)
  unfold ape_write_tag
  simp only [hfound]
  generalize (ape_find_header (ape_read_tag h).2).2 = f at hb hf2
  generalize (ape_read_tag h).1 = list
  have c1 : ¬ found.start + found.length ≠ vfs_fsize f := by
    unfold vfs_fsize; rw [hb]; simpa using hend
  rw [if_neg c1]
  have ht := vfs_truncate_nofault f found.start hf2 h0
  rw [if_neg (by rw [ht]; simp)]
  have hs := rewrite_start f found.start hf2 h0
  rw [hs]
  simp only [ne_eq, not_true_eq_false, if_false]
  have a0 : AtEnd (VFSFile.mk (truncated f.bytes found.start.toNat) found.start.toNat []) :=
    ⟨rfl, by simp [truncated_length]⟩
  rw [write_header_at_end _ _ _ _ a0]
  simp only [Bool.not_true, Bool.false_eq_true, if_false]
  rw [write_known_items_at_end _ _ (appended_at_end _ _)]
  simp only [Bool.not_true, Bool.false_eq_true, if_false]
  rw [write_old_items_at_end _ _ (emit_at_end _ _), emit_emit]
  simp only [Bool.not_true, Bool.false_eq_true, if_false]
  rw [write_header_at_end _ _ _ _ (emit_at_end _ _)]
  simp only [if_true, true_and]
  simp only [emit, appended, rewritten, hb, zero_add, List.append_assoc]

theorem header_bytes_length (dl items : Int) (b : Bool) :
    (header_bytes dl items b).length = 32 := by
  simp [header_bytes, magic, le32bytes_length]

/-- After a write without faults into a file whose tag ends at the end of the
file, the record at `start` is the placeholder `write_header (0, 0, TRUE)`
wrote, and the last 32 bytes are the footer with the accumulated length and
item count. -/
theorem ape_write_tag_records (tuple : Tuple) (h : VFSFile) (found : Found)
    (hf : h.faults = []) (hfound : located_for_write h = some found)
    (hend : found.start + found.length = (h.bytes.length : Int)) (h0 : 0 ≤ found.start) :
    ((ape_write_tag tuple h).2.bytes.drop found.start.toNat).take 32 = header_bytes 0 0 true
      ∧ (ape_write_tag tuple h).2.bytes.drop ((ape_write_tag tuple h).2.bytes.length - 32)
        = header_bytes
            ((items_data (known_items tuple ++ old_items (ape_read_tag h).1)).length : Int)
            ((known_items tuple ++ old_items (ape_read_tag h).1).length : Int) false := by
  have hb := (ape_write_tag_nofault tuple h found hf hfound hend h0).2
  rw [hb, rewritten]
  generalize items_data (known_items tuple ++ old_items (ape_read_tag h).1) = body
  generalize ((known_items tuple ++ old_items (ape_read_tag h).1).length : Int) = count
  constructor
  · rw [List.append_assoc, List.append_assoc,
      List.drop_left' (truncated_length _ _),
      List.take_left' (header_bytes_length _ _ _)]
  · have e : (truncated h.bytes found.start.toNat ++ header_bytes 0 0 true ++ body
        ++ header_bytes (body.length : Int) count false).length - 32
        = (truncated h.bytes found.start.toNat ++ header_bytes 0 0 true ++ body).length := by
      simp only [List.length_append, header_bytes_length]
      omega
    rw [e, List.drop_left]

/-- C2, the code at fault: when no I/O fault is scheduled, so that every seek,
truncate and write the file layer is asked for succeeds, `ape_write_tag`
returns failure for every file and every record, also when the located tag
ends exactly at the end of the file. -/
theorem write_reports_failure_without_faults (tuple : Tuple) (h : VFSFile)
    (hf : h.faults = []) : (ape_write_tag tuple h).1 = false := by
  cases hl : located_for_write h with
  | none =>
    unfold located_for_write at hl
    unfold ape_write_tag
    simp only [hl]
  | some found =>
    by_cases hend : found.start + found.length = (h.bytes.length : Int)
    · by_cases h0 : 0 ≤ found.start
      · exact (ape_write_tag_nofault tuple h found hf hl hend h0).1
      · unfold located_for_write at hl
        unfold ape_write_tag
        simp only [hl]
        generalize (ape_find_header (ape_read_tag h).2).2 = f
        by_cases c1 : found.start + found.length ≠ vfs_fsize f
        · rw [if_pos c1]
        · rw [if_neg c1, if_pos (vfs_truncate_nofault_neg _ _ (by omega))]
    · unfold located_for_write at hl
      have hsz : vfs_fsize (ape_find_header (ape_read_tag h).2).2 = (h.bytes.length : Int) := by
        unfold vfs_fsize
        rw [ape_find_header_bytes, ape_read_tag_bytes]
      unfold ape_write_tag
      simp only [hl, hsz]
      rw [if_pos hend]

/-- C2 at `trailing_tag_file`, whose tag ends at the end of the file. -/
theorem write_reports_failure_without_faults_witness :
    (trailing_tag_file.faults = []
        ∧ located_for_write trailing_tag_file = some trailing_found
        ∧ trailing_found.start + trailing_found.length = (trailing_tag_file.bytes.length : Int))
      ∧ (ape_write_tag sample_tuple trailing_tag_file).1 = false :=
  ⟨by decide, write_reports_failure_without_faults sample_tuple trailing_tag_file rfl⟩

set_option maxRecDepth 100000 in
/-- C3, the code at fault: after Artist = `A`, Title = `B`, Track = 3 has been
written, without any I/O fault, into a file whose tag ends at the end of the
file, the record at `start` (offset 1) still is the placeholder, with length
field 32 and item count 0, while the footer carries length field 78 and item
count 3. -/
theorem rewrite_leaves_placeholder_header :
    parse_header (((ape_write_tag sample_tuple trailing_tag_file).2.bytes.drop 1).take 32)
        = some { version := 2000, length := 32, items := 0,
                 flags := APE_FLAG_HAS_HEADER + APE_FLAG_IS_HEADER }
      ∧ parse_header ((ape_write_tag sample_tuple trailing_tag_file).2.bytes.drop
          ((ape_write_tag sample_tuple trailing_tag_file).2.bytes.length - 32))
        = some { version := 2000, length := 78, items := 3, flags := APE_FLAG_HAS_HEADER } := by
  decide

theorem toGint_lt (x : Int) : toGint x < 2147483648 := by
  unfold toGint
  omega

theorem toGint_ge (x : Int) : -2147483648 ≤ toGint x := by
  unfold toGint
  omega

theorem toSize_of_nonneg (x : Int) (h0 : 0 ≤ x) (hx : x < 18446744073709551616) :
    toSize x = x.toNat := by
  unfold toSize
  rw [Int.emod_eq_of_lt h0 hx]

/-- The data length `ape_find_header` reports is the length field of the
record it accepted, less 32, as a `gint`. -/
theorem ape_find_header_data_length (h : VFSFile) (found : Found)
    (hfound : (ape_find_header h).1 = some found) :
    found.data_length = toGint ((found.header.length : Int) - sizeofAPEHeader) := by
  unfold ape_find_header at hfound
  dsimp only at hfound
  split_ifs at hfound <;> (repeat' split at hfound) <;>
    first
      | (simp only [Option.some.injEq] at hfound; subst hfound; rfl)
      | simp at hfound

/-- Without faults, `ape_read_tag` decodes the data span that was located. -/
theorem ape_read_tag_nofault (h : VFSFile) (found : Found) (hf : h.faults = [])
    (hfound : (ape_find_header h).1 = some found) (hs : 0 ≤ found.data_start)
    (hl : 0 ≤ found.data_length)
    (hin : ((h.bytes.drop found.data_start.toNat).take found.data_length.toNat).length
      = found.data_length.toNat) :
    (ape_read_tag h).1
      = decode ((h.bytes.drop found.data_start.toNat).take found.data_length.toNat)
          found.header.items := by
  have hf1 := ape_find_header_faults h hf
  have hb1 := ape_find_header_bytes h
  have hsz : toSize found.data_length = found.data_length.toNat := by
    apply toSize_of_nonneg _ hl
    have := toGint_lt ((found.header.length : Int) - sizeofAPEHeader)
    rw [← ape_find_header_data_length h found hfound] at this
    omega
  unfold ape_read_tag
  simp only [hfound, hsz]
  generalize (ape_find_header h).2 = f at hf1 hb1
  rw [vfs_fseek_nofault f _ _ hf1 (by simpa [seek_base_set] using hs)]
  simp only [ne_eq, not_true_eq_false, if_false, seek_base_set, zero_add]
  have hr : (vfs_fread { f with pos := found.data_start.toNat } found.data_length.toNat).1
      = (h.bytes.drop found.data_start.toNat).take found.data_length.toNat := by
    unfold vfs_fread
    rw [transfer_count_nofault { f with pos := found.data_start.toNat } _ hf1]
    simp only [hb1]
  rw [hr, hin]
  rw [if_neg (by simp)]

theorem old_items_decoded (items : List RawItem) :
    old_items (items.map RawItem.decoded)
      = (items.filter (fun i => !is_known_key i.key)).map
          (fun i => written_item i.key (cstr i.value)) := by
  induction items with
  | nil => rfl
  | cons i rest ih =>
    unfold old_items at ih ⊢
    by_cases hk : is_known_key i.key = true
    · simp [List.filter_cons, RawItem.decoded, hk] at ih ⊢
      exact ih
    · simp [List.filter_cons, RawItem.decoded, hk] at ih ⊢
      exact ih

theorem le32_lt (b : List Byte) : le32 b < 4294967296 := by
  unfold le32
  have h0 := (b.getD 0 0).isLt
  have h1 := (b.getD 1 0).isLt
  have h2 := (b.getD 2 0).isLt
  have h3 := (b.getD 3 0).isLt
  omega

theorem le32bytes_le32 (a b c d : Byte) (rest : List Byte) :
    le32bytes (le32 (a :: b :: c :: d :: rest)) = [a, b, c, d] := by
  have ha := a.isLt
  have hb := b.isLt
  have hc := c.isLt
  have hd := d.isLt
  simp only [le32, le32bytes, List.getD_cons_zero, List.getD_cons_succ, Fin.ofNat,
    List.cons.injEq, and_true]
  refine ⟨?_, ?_, ?_, ?_⟩ <;> apply Fin.ext <;> simp only [Fin.val_mk] <;> omega

theorem dropWhile_head_zero (l : List Byte) (h0 : (0 : Byte) ∈ l) :
    l.dropWhile (fun b => b ≠ 0) = 0 :: (l.dropWhile (fun b => b ≠ 0)).drop 1 := by
  induction l with
  | nil => simp at h0
  | cons a t ih =>
    by_cases ha : a = 0
    · subst ha
      simp
    · have : (0 : Byte) ∈ t := by
        rcases List.mem_cons.mp h0 with e | e
        · exact absurd e.symm ha
        · exact e
      simp only [List.dropWhile_cons, ha, ne_eq, not_false_eq_true, decide_True, if_true]
      exact ih this

theorem cstr_no_zero (l : List Byte) : (0 : Byte) ∉ cstr l := by
  unfold cstr
  intro hm
  have := List.mem_takeWhile_imp hm
  simp at this

/-- An item `ape_read_item` accepts is a well-formed item that lies at the
front of the buffer; what is handed back is the buffer behind it. -/
theorem ape_read_item_some (data : List Byte) (p : ValuePair) (rest : List Byte)
    (hs : ape_read_item data = some (p, rest)) :
    ∃ r : RawItem, r.wf ∧ data = r.bytes ++ rest ∧ p = r.decoded := by
  unfold ape_read_item at hs
  dsimp only at hs
  split_ifs at hs with h8 hz hl
  simp only [Option.some.injEq, Prod.mk.injEq] at hs
  obtain ⟨hp, hr⟩ := hs
  have hz' : (0 : Byte) ∈ data.drop 8 := hz
  refine ⟨{ flags := (data.drop 4).take 4, key := cstr (data.drop 8),
            value := (((data.drop 8).dropWhile (fun b => b ≠ 0)).drop 1).take (le32 data) },
    ⟨?_, cstr_no_zero _, ?_⟩, ?_, ?_⟩
  · simp only [List.length_take, List.length_drop]
    omega
  · simp only [List.length_take]
    have := le32_lt data
    omega
  · have hvl : ((((data.drop 8).dropWhile (fun b => b ≠ 0)).drop 1).take (le32 data)).length
        = le32 data := by
      simp only [List.length_take]
      omega
    have h4 : le32bytes (le32 data) = data.take 4 := by
      match data, h8 with
      | a :: b :: c :: d :: t, _ => rw [le32bytes_le32]; rfl
      | [_, _, _], h => exact absurd (by simp) h
      | [_, _], h => exact absurd (by simp) h
      | [_], h => exact absurd (by simp) h
      | [], h => exact absurd (by simp) h
    simp only [RawItem.bytes, hvl, h4]
    rw [← hr]
    have e1 : data = data.take 4 ++ ((data.drop 4).take 4 ++ data.drop 8) := by
      have : data.drop 8 = (data.drop 4).drop 4 := by simp
      rw [this, List.take_append_drop, List.take_append_drop]
    have e2 : data.drop 8 = cstr (data.drop 8)
        ++ (0 :: ((data.drop 8).dropWhile (fun b => b ≠ 0)).drop 1) := by
      rw [← dropWhile_head_zero _ hz']
      exact (List.takeWhile_append_dropWhile _ _).symm
    have e3 := List.take_append_drop (le32 data)
      (((data.drop 8).dropWhile (fun b => b ≠ 0)).drop 1)
    conv_lhs => rw [e1, e2, ← e3]
    simp only [List.append_assoc, List.singleton_append, List.cons_append, List.nil_append]
  · rw [← hp]
    simp only [RawItem.decoded, ValuePair.mk.injEq, true_and]

theorem decode_succ_none (buf : List Byte) (n : Nat) (hn : ape_read_item buf = none) :
    decode buf (n + 1) = [] := by
  simp [decode, read_items, hn]

theorem decode_succ_some (buf : List Byte) (n : Nat) (p : ValuePair) (rest : List Byte)
    (hs : ape_read_item buf = some (p, rest)) :
    decode buf (n + 1) = p :: decode rest n := by
  unfold decode
  rw [read_items, hs]
  simp only
  rw [read_items_acc]
  simp

/-- C18 (decode stays inside the buffer and terminates): for every buffer and
every item count, the items decoding accepts are well-formed items that lie
one after the other at the front of the buffer, each with its 8-byte prefix,
key, terminator and value, and decoding returns them in that order; so the
cursor never passes the end of the buffer, and no more than `item_count` items
are read or returned. -/
theorem decode_stays_in_buffer (buf : List Byte) (n : Nat) :
    ∃ (raws : List RawItem) (rest : List Byte),
      buf = items_data raws ++ rest ∧ (∀ r ∈ raws, r.wf)
        ∧ decode buf n = raws.map RawItem.decoded ∧ raws.length ≤ n
        ∧ (items_data raws).length ≤ buf.length ∧ (decode buf n).length ≤ n := by
  suffices hmain : ∃ (raws : List RawItem) (rest : List Byte),
      buf = items_data raws ++ rest ∧ (∀ r ∈ raws, r.wf)
        ∧ decode buf n = raws.map RawItem.decoded ∧ raws.length ≤ n by
    obtain ⟨raws, rest, h1, h2, h3, h4⟩ := hmain
    refine ⟨raws, rest, h1, h2, h3, h4, ?_, ?_⟩
    · conv_rhs => rw [h1]
      simp
    · rw [h3]
      simpa using h4
  induction n generalizing buf with
  | zero => exact ⟨[], buf, rfl, by simp, rfl, Nat.le_refl _⟩
  | succ n ih =>
    cases hi : ape_read_item buf with
    | none =>
      exact ⟨[], buf, rfl, by simp, by rw [decode_succ_none _ _ hi]; rfl, Nat.zero_le _⟩
    | some pr =>
      obtain ⟨p, rest⟩ := pr
      obtain ⟨r, hw, hb, hp⟩ := ape_read_item_some buf p rest hi
      obtain ⟨raws, rest', h1, h2, h3, h4⟩ := ih rest
      refine ⟨r :: raws, rest', ?_, ?_, ?_, ?_⟩
      · rw [hb, h1, items_data, List.append_assoc]
      · intro x hx
        rcases List.mem_cons.mp hx with e | e
        · exact e ▸ hw
        · exact h2 x e
      · rw [decode_succ_some _ _ _ _ hi, h3, hp]
        rfl
      · simpa using h4

/-- C14 (empty-tag boundary): when the located record has item count 0 and
length 32, the data length is 0 and `ape_read_tag` returns no item, whatever
the file layer does; decoding with item count 0 returns the empty sequence for
every buffer, so that no byte of the buffer matters. -/
theorem empty_tag_decodes_to_nothing (h : VFSFile) (found : Found)
    (hfound : (ape_find_header h).1 = some found) (hitems : found.header.items = 0)
    (hlen : found.header.length = 32) :
    found.data_length = 0 ∧ (ape_read_tag h).1 = [] ∧ ∀ buf : List Byte, decode buf 0 = [] := by
  refine ⟨?_, ?_, fun _ => rfl⟩
  · rw [ape_find_header_data_length h found hfound, hlen]
    decide
  · unfold ape_read_tag
    simp only [hfound, hitems]
    split_ifs <;> rfl

/-- C14 at `trailing_tag_file`. -/
theorem empty_tag_decodes_to_nothing_witness :
    ((ape_find_header trailing_tag_file).1 = some trailing_found
        ∧ trailing_found.header.items = 0 ∧ trailing_found.header.length = 32)
      ∧ trailing_found.data_length = 0 ∧ (ape_read_tag trailing_tag_file).1 = []
      ∧ ∀ buf : List Byte, decode buf 0 = [] :=
  ⟨by decide, empty_tag_decodes_to_nothing trailing_tag_file trailing_found (by decide)
    (by decide) (by decide)⟩

/-- C17 (item codec round trip): for every list of pairs whose keys and values
hold no zero byte (and whose values fit the 32-bit length field), decoding the
concatenation of their serializations with item count equal to the length of
the list returns the list, and with a smaller item count `n` its first `n`
pairs; the serialization of a pair is what `ape_write_item` appends to the
file. -/
theorem item_codec_round_trip (pairs : List ValuePair) (n : Nat)
    (hp : ∀ p ∈ pairs, (0 : Byte) ∉ p.key ∧ (0 : Byte) ∉ p.value
      ∧ p.value.length < 4294967296)
    (hn : n ≤ pairs.length) :
    decode (items_data (pairs.map (fun p => written_item p.key p.value))) pairs.length = pairs
      ∧ decode (items_data (pairs.map (fun p => written_item p.key p.value))) n
        = pairs.take n
      ∧ ∀ (h : VFSFile) (p : ValuePair) (wl : Int), AtEnd h →
          (ape_write_item h p.key p.value wl).2.1.bytes
            = h.bytes ++ (written_item p.key p.value).bytes := by
  have key : ∀ m, m ≤ pairs.length →
      decode (items_data (pairs.map (fun p => written_item p.key p.value))) m
        = pairs.take m := by
    intro m hm
    have hsplit : pairs.map (fun p => written_item p.key p.value)
        = (pairs.take m).map (fun p => written_item p.key p.value)
          ++ (pairs.drop m).map (fun p => written_item p.key p.value) := by
      rw [← List.map_append, List.take_append_drop]
    have hw : ∀ i ∈ (pairs.take m).map (fun p => written_item p.key p.value), i.wf := by
      intro i hi
      obtain ⟨p, hpm, rfl⟩ := List.mem_map.mp hi
      have := hp p (List.mem_of_mem_take hpm)
      exact ⟨rfl, this.1, this.2.2⟩
    have hl : ((pairs.take m).map (fun p => written_item p.key p.value)).length = m := by
      simp [List.length_take, hm]
    have := read_items_wf _ hw 0
      (items_data ((pairs.drop m).map (fun p => written_item p.key p.value)))
    rw [hl, Nat.add_zero] at this
    unfold decode
    rw [hsplit, items_data_append, this]
    simp only [read_items, List.reverse_nil, List.append_nil, List.map_map]
    conv_rhs => rw [← List.map_id (pairs.take m)]
    apply List.map_congr_left
    intro p hpm
    have := hp p (List.mem_of_mem_take hpm)
    simp [RawItem.decoded, written_item, cstr_of_no_zero _ this.2.1]
  refine ⟨?_, key n hn, ?_⟩
  · have := key pairs.length (Nat.le_refl _)
    rwa [List.take_length] at this
  · intro h p wl ha
    rw [ape_write_item_at_end h p.key p.value wl ha]
    rfl


/-- C17 at the pairs `K` = `AB` and Artist = `X`, with item count 1. -/
theorem item_codec_round_trip_witness :
    ((∀ p ∈ [ValuePair.mk [75] [65, 66], ValuePair.mk keyArtist [88]],
          (0 : Byte) ∉ p.key ∧ (0 : Byte) ∉ p.value ∧ p.value.length < 4294967296)
        ∧ 1 ≤ [ValuePair.mk [75] [65, 66], ValuePair.mk keyArtist [88]].length)
      ∧ decode (items_data ([ValuePair.mk [75] [65, 66], ValuePair.mk keyArtist [88]].map
            (fun p => written_item p.key p.value)))
          [ValuePair.mk [75] [65, 66], ValuePair.mk keyArtist [88]].length
        = [ValuePair.mk [75] [65, 66], ValuePair.mk keyArtist [88]]
      ∧ decode (items_data ([ValuePair.mk [75] [65, 66], ValuePair.mk keyArtist [88]].map
            (fun p => written_item p.key p.value))) 1
        = [ValuePair.mk [75] [65, 66], ValuePair.mk keyArtist [88]].take 1
      ∧ ∀ (h : VFSFile) (p : ValuePair) (wl : Int), AtEnd h →
          (ape_write_item h p.key p.value wl).2.1.bytes
            = h.bytes ++ (written_item p.key p.value).bytes :=
  ⟨by decide, item_codec_round_trip
    [ValuePair.mk [75] [65, 66], ValuePair.mk keyArtist [88]] 1 (by decide) (by decide)⟩

/-! ## Mapping items to fields -/

theorem last_value_concat (name : List Byte) (items : List ValuePair) (p : ValuePair) :
    last_value name (items ++ [p])
      = if p.key = name then some p.value else last_value name items := by
  unfold last_value
  by_cases hk : p.key = name
  · simp [List.filter_append, hk]
  · simp [List.filter_append, hk]

theorem known_keys_distinct :
    keyArtist ≠ keyTitle ∧ keyArtist ≠ keyAlbum ∧ keyArtist ≠ keyComment
      ∧ keyArtist ≠ keyGenre ∧ keyArtist ≠ keyTrack ∧ keyArtist ≠ keyDate
      ∧ keyTitle ≠ keyAlbum ∧ keyTitle ≠ keyComment ∧ keyTitle ≠ keyGenre
      ∧ keyTitle ≠ keyTrack ∧ keyTitle ≠ keyDate ∧ keyAlbum ≠ keyComment
      ∧ keyAlbum ≠ keyGenre ∧ keyAlbum ≠ keyTrack ∧ keyAlbum ≠ keyDate
      ∧ keyComment ≠ keyGenre ∧ keyComment ≠ keyTrack ∧ keyComment ≠ keyDate
      ∧ keyGenre ≠ keyTrack ∧ keyGenre ≠ keyDate ∧ keyTrack ≠ keyDate := by
  decide

theorem fill_pair_artist (t : Tuple) (p : ValuePair) :
    (fill_pair t p).artist = if p.key = keyArtist then some p.value else t.artist := by
  unfold fill_pair
  split_ifs <;> rfl

theorem fill_pair_title (t : Tuple) (p : ValuePair) :
    (fill_pair t p).title = if p.key = keyTitle then some p.value else t.title := by
  obtain ⟨h1, _⟩ := known_keys_distinct
  unfold fill_pair
  split_ifs <;> simp_all

theorem fill_pair_album (t : Tuple) (p : ValuePair) :
    (fill_pair t p).album = if p.key = keyAlbum then some p.value else t.album := by
  obtain ⟨_, h2, _, _, _, _, h7, _⟩ := known_keys_distinct
  unfold fill_pair
  split_ifs <;> simp_all

theorem fill_pair_comment (t : Tuple) (p : ValuePair) :
    (fill_pair t p).comment = if p.key = keyComment then some p.value else t.comment := by
  obtain ⟨_, _, h3, _, _, _, _, h8, _, _, _, h12, _⟩ := known_keys_distinct
  unfold fill_pair
  split_ifs <;> simp_all

theorem fill_pair_genre (t : Tuple) (p : ValuePair) :
    (fill_pair t p).genre = if p.key = keyGenre then some p.value else t.genre := by
  obtain ⟨_, _, _, h4, _, _, _, _, h9, _, _, _, h13, _, _, h16, _⟩ := known_keys_distinct
  unfold fill_pair
  split_ifs <;> simp_all

theorem fill_pair_track (t : Tuple) (p : ValuePair) :
    (fill_pair t p).track_number
      = if p.key = keyTrack then some (atoi p.value) else t.track_number := by
  obtain ⟨_, _, _, _, h5, _, _, _, _, h10, _, _, _, h14, _, _, h17, _, h19, _⟩ :=
    known_keys_distinct
  unfold fill_pair
  split_ifs <;> simp_all

theorem fill_pair_year (t : Tuple) (p : ValuePair) :
    (fill_pair t p).year = if p.key = keyDate then some (atoi p.value) else t.year := by
  obtain ⟨_, _, _, _, _, h6, _, _, _, _, h11, _, _, _, h15, _, _, h18, _, h20, h21⟩ :=
    known_keys_distinct
  unfold fill_pair
  split_ifs <;> simp_all

/-- What the loop of `ape_fill_tuple` leaves in each field: the value of the
last pair with the key of the field, or what the field held before. -/
theorem foldl_fill_pair (tuple : Tuple) (items : List ValuePair) :
    (items.foldl fill_pair tuple).artist = (last_value keyArtist items).or tuple.artist
      ∧ (items.foldl fill_pair tuple).title = (last_value keyTitle items).or tuple.title
      ∧ (items.foldl fill_pair tuple).album = (last_value keyAlbum items).or tuple.album
      ∧ (items.foldl fill_pair tuple).comment
          = (last_value keyComment items).or tuple.comment
      ∧ (items.foldl fill_pair tuple).genre = (last_value keyGenre items).or tuple.genre
      ∧ (items.foldl fill_pair tuple).track_number
          = ((last_value keyTrack items).map atoi).or tuple.track_number
      ∧ (items.foldl fill_pair tuple).year
          = ((last_value keyDate items).map atoi).or tuple.year := by
  induction items using List.reverseRecOn with
  | nil => simp [last_value]
  | append_singleton items p ih =>
    obtain ⟨i1, i2, i3, i4, i5, i6, i7⟩ := ih
    simp only [List.foldl_append, List.foldl_cons, List.foldl_nil, last_value_concat,
      fill_pair_artist, fill_pair_title, fill_pair_album, fill_pair_comment, fill_pair_genre,
      fill_pair_track, fill_pair_year, i1, i2, i3, i4, i5, i6, i7]
    refine ⟨?_, ?_, ?_, ?_, ?_, ?_, ?_⟩ <;> split_ifs <;> simp

theorem atoi_plain (v : List Byte)
    (hv : ∀ c ∈ v.head?, isspace c = false ∧ c.val ≠ 45 ∧ c.val ≠ 43)
    (hr : leadingDigits 0 v < 2147483648) : atoi v = leadingDigits 0 v := by
  have hg : toGint (clampLong (leadingDigits 0 v : Int)) = leadingDigits 0 v := by
    unfold clampLong toGint
    split_ifs <;> omega
  cases v with
  | nil => rfl
  | cons c cs =>
    obtain ⟨h1, h2, h3⟩ := hv c (by simp)
    unfold atoi
    simp only [List.dropWhile_cons, h1, Bool.false_eq_true, if_false, h2, h3]
    exact hg


theorem fill_pair_other_key (t : Tuple) (p : ValuePair) (hk : is_known_key p.key = false) :
    fill_pair t p = t := by
  unfold is_known_key at hk
  simp only [Bool.or_eq_false_iff, decide_eq_false_iff_not] at hk
  obtain ⟨⟨⟨⟨⟨⟨h1, h2⟩, h3⟩, h4⟩, h5⟩, h6⟩, h7⟩ := hk
  unfold fill_pair
  simp only [h1, h2, h3, h4, h5, h6, h7, if_false]

/-- C12 (field mapping with last-match-wins): for every item sequence, the loop
of `ape_fill_tuple` leaves in each of Artist, Title, Album, Comment and Genre
the value of the last item whose key is exactly that name, and in Track and
Year the `atoi` conversion of the last item keyed Track and Date; a field no
item is keyed for keeps what it held (it stays unset in an empty record), and
an item with any other key changes nothing.  For a value that does not start
with white space or a sign, `atoi` is the value of the leading digits, so 0 for
an empty or non-numeric value. -/
theorem fill_tuple_last_match_wins (tuple : Tuple) (items : List ValuePair) :
    ((items.foldl fill_pair tuple).artist = (last_value keyArtist items).or tuple.artist
      ∧ (items.foldl fill_pair tuple).title = (last_value keyTitle items).or tuple.title
      ∧ (items.foldl fill_pair tuple).album = (last_value keyAlbum items).or tuple.album
      ∧ (items.foldl fill_pair tuple).comment
          = (last_value keyComment items).or tuple.comment
      ∧ (items.foldl fill_pair tuple).genre = (last_value keyGenre items).or tuple.genre
      ∧ (items.foldl fill_pair tuple).track_number
          = ((last_value keyTrack items).map atoi).or tuple.track_number
      ∧ (items.foldl fill_pair tuple).year
          = ((last_value keyDate items).map atoi).or tuple.year)
      ∧ (∀ p : ValuePair, is_known_key p.key = false → fill_pair tuple p = tuple)
      ∧ (∀ h : VFSFile, (ape_fill_tuple tuple h).1 = (ape_read_tag h).1.foldl fill_pair tuple)
      ∧ (∀ v : List Byte, (∀ c ∈ v.head?, isspace c = false ∧ c.val ≠ 45 ∧ c.val ≠ 43) →
          leadingDigits 0 v < 2147483648 → atoi v = leadingDigits 0 v) :=
  ⟨foldl_fill_pair tuple items, fun p hk => fill_pair_other_key tuple p hk, fun _ => rfl,
    fun v hv hr => atoi_plain v hv hr⟩


/-- C12 at `fill_sample`, read into the empty record: the last Artist wins, the
last Track `9x` gives 9, the Date `a` gives 0, no Title is set. -/
theorem fill_tuple_last_match_wins_witness :
    (fill_sample.foldl fill_pair empty_tuple).artist
        = (last_value keyArtist fill_sample).or empty_tuple.artist
      ∧ (fill_sample.foldl fill_pair empty_tuple).artist = some [89]
      ∧ (fill_sample.foldl fill_pair empty_tuple).track_number = some 9
      ∧ (fill_sample.foldl fill_pair empty_tuple).year = some 0
      ∧ (fill_sample.foldl fill_pair empty_tuple).title = none :=
  ⟨(fill_tuple_last_match_wins empty_tuple fill_sample).1.1, by decide⟩

/-! ## Known fields -/

theorem leadingDigits_append (l r : List Byte) (acc : Nat)
    (hl : ∀ c ∈ l, isdigit c = true) :
    leadingDigits acc (l ++ r) = leadingDigits (leadingDigits acc l) r := by
  induction l generalizing acc with
  | nil => rfl
  | cons c cs ih =>
    have hc := hl c (List.mem_cons_self _ _)
    simp only [List.cons_append, leadingDigits, hc, if_true]
    exact ih _ (fun x hx => hl x (List.mem_cons_of_mem _ hx))

theorem digit_byte (d : Nat) (hd : d < 10) :
    isdigit (Fin.ofNat (48 + d) : Byte) = true ∧ (Fin.ofNat (48 + d) : Byte).val - 48 = d
      ∧ (Fin.ofNat (48 + d) : Byte) ≠ 0 := by
  have hv : (Fin.ofNat (48 + d) : Byte).val = 48 + d := by
    simp only [Fin.ofNat, Fin.val_mk]
    omega
  refine ⟨?_, ?_, ?_⟩
  · simp only [isdigit, hv, Bool.and_eq_true, decide_eq_true_eq]
    omega
  · rw [hv]
    omega
  · intro e
    rw [e] at hv
    simp at hv
    omega

theorem natDigits_spec (fuel n : Nat) (hn : n < fuel) :
    (∀ c ∈ natDigits fuel n, isdigit c = true) ∧ natDigits fuel n ≠ []
      ∧ leadingDigits 0 (natDigits fuel n) = n := by
  induction fuel generalizing n with
  | zero => omega
  | succ fuel ih =>
    unfold natDigits
    by_cases h10 : n < 10
    · rw [if_pos h10]
      obtain ⟨h1, h2, _⟩ := digit_byte n h10
      refine ⟨?_, by simp, ?_⟩
      · intro c hc
        rw [List.mem_singleton.mp hc]
        exact h1
      · simp only [leadingDigits, h1, if_true, h2]
        omega
    · rw [if_neg h10]
      obtain ⟨i1, _, i3⟩ := ih (n / 10) (by omega)
      obtain ⟨h1, h2, _⟩ := digit_byte (n % 10) (Nat.mod_lt _ (by omega))
      refine ⟨?_, by simp, ?_⟩
      · intro c hc
        rcases List.mem_append.mp hc with e | e
        · exact i1 c e
        · rw [List.mem_singleton.mp e]
          exact h1
      · rw [leadingDigits_append _ _ _ i1, i3]
        simp only [leadingDigits, h1, if_true, h2]
        omega

theorem isdigit_facts (c : Byte) (hc : isdigit c = true) :
    isspace c = false ∧ c.val ≠ 45 ∧ c.val ≠ 43 ∧ c ≠ 0 := by
  simp only [isdigit, Bool.and_eq_true, decide_eq_true_eq] at hc
  refine ⟨?_, by omega, by omega, ?_⟩
  · simp only [isspace, Bool.or_eq_false_iff, beq_eq_false_iff_ne, ne_eq,
      Bool.and_eq_false_imp, decide_eq_true_eq, decide_eq_false_iff_not, not_le]
    omega
  · intro e
    rw [e] at hc
    simp at hc

/-- The number `write_integer_item` prints is read back by `atoi`. -/
theorem atoi_formatInt (v : Int) (hlo : -2147483648 ≤ v) (hhi : v < 2147483648) :
    atoi (formatInt v) = v := by
  obtain ⟨d1, d2, d3⟩ := natDigits_spec (v.natAbs + 1) v.natAbs (by omega)
  unfold formatInt
  by_cases hneg : v < 0
  · rw [if_pos hneg]
    unfold atoi
    have hsp : isspace (45 : Byte) = false := by decide
    simp only [List.dropWhile_cons, hsp, Bool.false_eq_true, if_false, d3]
    have : ((45 : Byte).val = 45) := by decide
    rw [if_pos this]
    unfold clampLong toGint
    split_ifs <;> omega
  · rw [if_neg hneg]
    cases hd : natDigits (v.natAbs + 1) v.natAbs with
    | nil => exact absurd hd d2
    | cons c cs =>
      rw [hd] at d1 d3
      obtain ⟨f1, f2, f3, _⟩ := isdigit_facts c (d1 c (List.mem_cons_self _ _))
      unfold atoi
      simp only [List.dropWhile_cons, f1, Bool.false_eq_true, if_false, f2, f3, d3]
      unfold clampLong toGint
      split_ifs <;> omega

theorem formatInt_no_zero (v : Int) : (0 : Byte) ∉ formatInt v := by
  obtain ⟨d1, _, _⟩ := natDigits_spec (v.natAbs + 1) v.natAbs (by omega)
  have hd : (0 : Byte) ∉ natDigits (v.natAbs + 1) v.natAbs := by
    intro hm
    exact (isdigit_facts _ (d1 _ hm)).2.2.2 rfl
  unfold formatInt
  split_ifs
  · intro hm
    rcases List.mem_cons.mp hm with e | e
    · exact absurd e (by decide)
    · exact hd e
  · exact hd

theorem tuple_get_int_range (field : Option Int) :
    -2147483648 ≤ tuple_get_int field ∧ tuple_get_int field < 2147483648 :=
  ⟨toGint_ge _, toGint_lt _⟩

/-- The items the chain of `write_*_item` calls emits are the pairs of `store`,
serialized with item flags 0. -/
theorem known_items_eq_store (tuple : Tuple) :
    known_items tuple = (store tuple).map (fun p => written_item p.key p.value) := by
  unfold known_items store field_table string_item integer_item decimal_field
  cases tuple.artist <;> cases tuple.title <;> cases tuple.album <;> cases tuple.comment
    <;> cases tuple.genre
    <;> by_cases h1 : tuple_get_int tuple.track_number = 0
    <;> by_cases h2 : tuple_get_int tuple.year = 0
    <;> simp [h1, h2]


theorem transfer_count_at (bytes : List Byte) (pos n : Nat) :
    transfer_count { bytes := bytes, pos := pos, faults := [] } n = n :=
  transfer_count_nofault _ _ rfl

theorem ape_read_header_at (bytes : List Byte) (pos : Nat) :
    ape_read_header { bytes := bytes, pos := pos, faults := [] }
      = (record_at bytes pos,
          { bytes := bytes, pos := pos + min 32 (bytes.length - pos), faults := [] }) := by
  unfold ape_read_header vfs_fread record_at
  simp only [sizeofAPEHeader, transfer_count_at, List.length_take,
    List.length_drop, List.tail_nil]
  by_cases hl : pos + 32 ≤ bytes.length
  · rw [if_neg (by omega), if_pos hl]
  · rw [if_pos (by omega), if_neg hl]

theorem vfs_fseek_at (bytes : List Byte) (pos : Nat) (o : Int) (w : Whence) (target : Nat)
    (hge : seek_base { bytes := bytes, pos := pos, faults := [] } w + o = (target : Int)) :
    vfs_fseek { bytes := bytes, pos := pos, faults := [] } o w
      = (0, { bytes := bytes, pos := target, faults := [] }) := by
  rw [vfs_fseek_nofault _ _ _ rfl (by omega), hge]
  rfl

theorem vfs_fseek_at_neg (bytes : List Byte) (pos : Nat) (o : Int) (w : Whence)
    (hlt : seek_base { bytes := bytes, pos := pos, faults := [] } w + o < 0) :
    vfs_fseek { bytes := bytes, pos := pos, faults := [] } o w
      = (-1, { bytes := bytes, pos := pos, faults := [] }) := by
  rw [vfs_fseek_nofault_neg _ _ _ rfl hlt]

theorem record_at_short (bytes : List Byte) (hl : bytes.length < 32) (pos : Nat) :
    record_at bytes pos = none := by
  unfold record_at
  rw [if_neg (by omega)]

theorem ape_read_header_at_fst (bytes : List Byte) (pos : Nat) :
    (ape_read_header { bytes := bytes, pos := pos, faults := [] }).1 = record_at bytes pos := by
  rw [ape_read_header_at]

theorem ape_read_header_at_snd (bytes : List Byte) (pos : Nat) :
    (ape_read_header { bytes := bytes, pos := pos, faults := [] }).2
      = { bytes := bytes, pos := pos + min 32 (bytes.length - pos), faults := [] } := by
  rw [ape_read_header_at]

theorem vfs_fseek_at_fst (bytes : List Byte) (pos : Nat) (o : Int) (w : Whence)
    (hge : 0 ≤ seek_base { bytes := bytes, pos := pos, faults := [] } w + o) :
    (vfs_fseek { bytes := bytes, pos := pos, faults := [] } o w).1 = 0 := by
  rw [vfs_fseek_nofault _ _ _ rfl hge]

theorem vfs_fseek_at_snd (bytes : List Byte) (pos : Nat) (o : Int) (w : Whence) (target : Nat)
    (hge : seek_base { bytes := bytes, pos := pos, faults := [] } w + o = (target : Int)) :
    (vfs_fseek { bytes := bytes, pos := pos, faults := [] } o w).2
      = { bytes := bytes, pos := target, faults := [] } := by
  rw [vfs_fseek_at _ _ _ _ target hge]

theorem vfs_fseek_at_neg_fst (bytes : List Byte) (pos : Nat) (o : Int) (w : Whence)
    (hlt : seek_base { bytes := bytes, pos := pos, faults := [] } w + o < 0) :
    (vfs_fseek { bytes := bytes, pos := pos, faults := [] } o w).1 ≠ 0 := by
  rw [vfs_fseek_at_neg _ _ _ _ hlt]
  omega

/-- Without faults `ape_find_header` computes `locate` of the content of the
file. -/
theorem ape_find_header_nofault (h : VFSFile) (hf : h.faults = []) :
    (ape_find_header h).1 = locate h.bytes := by
  have hz : ¬ (0 : Int) ≠ 0 := by omega
  unfold ape_find_header locate
  rw [vfs_fseek_start h hf]
  dsimp only
  rw [if_neg hz, ape_read_header_at_fst h.bytes 0, ape_read_header_at_snd h.bytes 0]
  cases h0 : record_at h.bytes 0 with
  | some header =>
    have hlen : 32 ≤ h.bytes.length := by
      by_contra hc
      rw [record_at_short _ (by omega)] at h0
      exact absurd h0 (by simp)
    have hp0 : 0 + min 32 (h.bytes.length - 0) = 32 := by omega
    rw [hp0]
    show (if _ then _ else _ : Option Found × VFSFile).1 = if _ then _ else _
    by_cases hfl : (!hasFlag header.flags APE_FLAG_HAS_HEADER
        || !hasFlag header.flags APE_FLAG_IS_HEADER) = true
    · rw [if_pos hfl, if_pos hfl]
    · rw [if_neg hfl, if_neg hfl]
      by_cases hnf : (!hasFlag header.flags APE_FLAG_HAS_NO_FOOTER) = true
      · rw [if_pos hnf, if_pos hnf]
        rw [if_neg (not_not.mpr (vfs_fseek_at_fst h.bytes 32 header.length Whence.SEEK_CUR
            (by simp only [seek_base_cur]; omega))),
          vfs_fseek_at_snd h.bytes 32 header.length Whence.SEEK_CUR (32 + header.length)
            (by simp only [seek_base_cur]; omega),
          ape_read_header_at_fst h.bytes (32 + header.length)]
        cases record_at h.bytes (32 + header.length)
        · rfl
        · simp only [sizeofAPEHeader, Nat.cast_ofNat]
      · rw [if_neg hnf, if_neg hnf]
        simp only [sizeofAPEHeader, Nat.cast_ofNat]
  | none =>
    show (if _ then _ else _ : Option Found × VFSFile).1 = _
    by_cases hlen : 32 ≤ h.bytes.length
    · rw [if_neg (not_not.mpr (vfs_fseek_at_fst h.bytes _ _ Whence.SEEK_END
            (by simp only [seek_base_end, sizeofAPEHeader]; omega))),
        vfs_fseek_at_snd h.bytes _ _ Whence.SEEK_END (h.bytes.length - 32)
            (by simp only [seek_base_end, sizeofAPEHeader]; omega),
        ape_read_header_at_fst h.bytes (h.bytes.length - 32),
        ape_read_header_at_snd h.bytes (h.bytes.length - 32)]
      have hpos : h.bytes.length - 32 + min 32 (h.bytes.length - (h.bytes.length - 32))
          = h.bytes.length := by omega
      rw [hpos]
      cases h1 : record_at h.bytes (h.bytes.length - 32) with
      | none => rfl
      | some header =>
        show (if _ then _ else _ : Option Found × VFSFile).1 = if _ then _ else _
        by_cases hfl : (hasFlag header.flags APE_FLAG_HAS_NO_FOOTER
            || hasFlag header.flags APE_FLAG_IS_HEADER) = true
        · rw [if_pos hfl, if_pos hfl]
        · rw [if_neg hfl, if_neg hfl]
          by_cases hh : hasFlag header.flags APE_FLAG_HAS_HEADER = true
          · rw [if_pos hh, if_pos hh]
            by_cases hneg : (h.bytes.length : Int) - toGint header.length - 32 < 0
            · rw [if_pos hneg, if_pos (vfs_fseek_at_neg_fst h.bytes h.bytes.length
                (-toGint header.length - (sizeofAPEHeader : Int)) Whence.SEEK_CUR
                (by simp only [seek_base_cur, sizeofAPEHeader]; omega))]
            · obtain ⟨tgt, htgt⟩ : ∃ tgt : Nat,
                  (h.bytes.length : Int) - toGint header.length - 32 = (tgt : Int) :=
                ⟨((h.bytes.length : Int) - toGint header.length - 32).toNat, by omega⟩
              rw [if_neg hneg, htgt, Int.toNat_ofNat,
                if_neg (not_not.mpr (vfs_fseek_at_fst h.bytes h.bytes.length
                  (-toGint header.length - (sizeofAPEHeader : Int)) Whence.SEEK_CUR
                  (by simp only [seek_base_cur, sizeofAPEHeader]; omega))),
                vfs_fseek_at_snd h.bytes h.bytes.length
                  (-toGint header.length - (sizeofAPEHeader : Int)) Whence.SEEK_CUR tgt
                  (by simp only [seek_base_cur, sizeofAPEHeader]; omega),
                ape_read_header_at_fst h.bytes tgt]
              cases record_at h.bytes tgt
              · rfl
              · simp only [vfs_ftell, sizeofAPEHeader, Nat.cast_ofNat]
          · rw [if_neg hh, if_neg hh]
            simp only [vfs_ftell, sizeofAPEHeader, Nat.cast_ofNat]
    · rw [if_pos (vfs_fseek_at_neg_fst h.bytes _ _ Whence.SEEK_END
            (by simp only [seek_base_end, sizeofAPEHeader]; omega)),
        record_at_short _ (by omega)]

theorem parse_header_length (buf : List Byte) (hdr : APEHeader)
    (hp : parse_header buf = some hdr) : 32 ≤ hdr.length ∧ hdr.length < 4294967296 := by
  unfold parse_header at hp
  dsimp only at hp
  split_ifs at hp with h1 h2
  simp only [Option.some.injEq] at hp
  subst hp
  simp only [sizeofAPEHeader, not_lt] at h2
  exact ⟨h2, le32_lt _⟩

theorem record_at_length (bytes : List Byte) (pos : Nat) (hdr : APEHeader)
    (hr : record_at bytes pos = some hdr) :
    32 ≤ hdr.length ∧ hdr.length < 4294967296 ∧ pos + 32 ≤ bytes.length := by
  unfold record_at at hr
  split_ifs at hr with hl
  exact ⟨(parse_header_length _ _ hr).1, (parse_header_length _ _ hr).2, hl⟩

/-- The ways in which `locate` succeeds. -/
theorem locate_some (bytes : List Byte) (found : Found) (hl : locate bytes = some found) :
    (record_at bytes 0 = some found.header ∧ found.start = 0 ∧ found.data_start = 32
        ∧ found.data_length = toGint ((found.header.length : Int) - 32)
        ∧ ((hasFlag found.header.flags APE_FLAG_HAS_NO_FOOTER = false
              ∧ (record_at bytes (32 + found.header.length)).isSome = true
              ∧ found.length = toGint (toGint found.header.length + 32))
          ∨ (hasFlag found.header.flags APE_FLAG_HAS_NO_FOOTER = true
              ∧ found.length = toGint found.header.length)))
      ∨ (record_at bytes 0 = none
        ∧ record_at bytes (bytes.length - 32) = some found.header
        ∧ hasFlag found.header.flags APE_FLAG_HAS_NO_FOOTER = false
        ∧ hasFlag found.header.flags APE_FLAG_IS_HEADER = false
        ∧ found.data_start = toGint ((bytes.length : Int) - found.header.length)
        ∧ found.data_length = toGint ((found.header.length : Int) - 32)
        ∧ ((hasFlag found.header.flags APE_FLAG_HAS_HEADER = false
              ∧ found.start = toGint ((bytes.length : Int) - found.header.length)
              ∧ found.length = toGint found.header.length)
          ∨ (hasFlag found.header.flags APE_FLAG_HAS_HEADER = true
              ∧ 0 ≤ (bytes.length : Int) - toGint found.header.length - 32
              ∧ ∃ tgt : Nat, (tgt : Int) = (bytes.length : Int) - toGint found.header.length - 32
                  ∧ (record_at bytes tgt).isSome = true
              ∧ found.start = toGint (toGint ((bytes.length : Int) - found.header.length) - 32)
              ∧ found.length = toGint (toGint found.header.length + 32)))) := by
  unfold locate at hl
  cases h0 : record_at bytes 0 with
  | some header =>
    rw [h0] at hl
    left
    change (if _ then _ else _) = some found at hl
    split_ifs at hl with c1 c2
    · cases h1 : record_at bytes (32 + header.length) with
      | none => rw [h1] at hl; exact absurd hl (by simp)
      | some f =>
        rw [h1] at hl
        simp only [Option.some.injEq] at hl
        subst hl
        simp only [Bool.not_eq_true', Bool.not_eq_eq_eq_not, Bool.not_true] at c2
        exact ⟨rfl, rfl, rfl, rfl, Or.inl ⟨c2, by rw [h1]; rfl, rfl⟩⟩
    · simp only [Option.some.injEq] at hl
      subst hl
      simp only [Bool.not_eq_true', Bool.not_eq_eq_eq_not, Bool.not_true, Bool.not_eq_false]
        at c2
      exact ⟨rfl, rfl, rfl, rfl, Or.inr ⟨c2, rfl⟩⟩
  | none =>
    rw [h0] at hl
    right
    cases h1 : record_at bytes (bytes.length - 32) with
    | none => rw [h1] at hl; exact absurd hl (by simp)
    | some header =>
      rw [h1] at hl
      change (if _ then _ else _) = some found at hl
      by_cases c1 : (hasFlag header.flags APE_FLAG_HAS_NO_FOOTER
          || hasFlag header.flags APE_FLAG_IS_HEADER) = true
      · rw [if_pos c1] at hl
        exact absurd hl (by simp)
      · rw [if_neg c1] at hl
        simp only [Bool.or_eq_true, not_or, Bool.not_eq_true] at c1
        by_cases c2 : hasFlag header.flags APE_FLAG_HAS_HEADER = true
        · rw [if_pos c2] at hl
          by_cases c3 : (bytes.length : Int) - toGint header.length - 32 < 0
          · rw [if_pos c3] at hl
            exact absurd hl (by simp)
          · rw [if_neg c3] at hl
            obtain ⟨tgt, htgt⟩ : ∃ tgt : Nat,
                (bytes.length : Int) - toGint header.length - 32 = (tgt : Int) :=
              ⟨((bytes.length : Int) - toGint header.length - 32).toNat, by omega⟩
            rw [htgt, Int.toNat_ofNat] at hl
            cases h2 : record_at bytes tgt with
            | none => rw [h2] at hl; exact absurd hl (by simp)
            | some f =>
              rw [h2] at hl
              simp only [Option.some.injEq] at hl
              subst hl
              exact ⟨rfl, rfl, c1.1, c1.2, rfl, rfl,
                Or.inr ⟨c2, not_lt.mp c3, tgt, htgt.symm, by rw [h2]; rfl, rfl, rfl⟩⟩
        · rw [if_neg c2] at hl
          simp only [Option.some.injEq] at hl
          subst hl
          simp only [Bool.not_eq_true] at c2
          exact ⟨rfl, rfl, c1.1, c1.2, rfl, rfl, Or.inl ⟨c2, rfl, rfl⟩⟩

/-- C15 (the code at fault): when the first 32 bytes are a valid record with
HAS_HEADER and IS_HEADER set and HAS_NO_FOOTER clear, and no I/O call fails,
`ape_find_header` succeeds exactly when a valid record lies at offset
`32 + length`, that is `length` bytes after the END of the header, not `length`
bytes after its start; on success start is 0, the total span is `length + 32`,
the data starts at 32 and the data length is `length - 32`, so the record that
was confirmed lies outside the data span and the last 32 bytes of the total
span, 32 bytes further on. -/
theorem header_first_looks_past_footer (h : VFSFile) (hdr : APEHeader) (hf : h.faults = [])
    (hfirst : record_at h.bytes 0 = some hdr)
    (hh : hasFlag hdr.flags APE_FLAG_HAS_HEADER = true)
    (hi : hasFlag hdr.flags APE_FLAG_IS_HEADER = true)
    (hn : hasFlag hdr.flags APE_FLAG_HAS_NO_FOOTER = false) :
    (ape_find_header h).1.isSome = (record_at h.bytes (32 + hdr.length)).isSome
      ∧ ∀ found, (ape_find_header h).1 = some found →
          found.start = 0 ∧ found.length = toGint (toGint hdr.length + 32)
            ∧ found.data_start = 32
            ∧ found.data_length = toGint ((hdr.length : Int) - 32) := by
  rw [ape_find_header_nofault h hf]
  unfold locate
  rw [hfirst]
  simp only [hh, hi, hn, Bool.not_true, Bool.not_false, Bool.or_self, Bool.false_eq_true,
    if_false, if_true]
  cases record_at h.bytes (32 + hdr.length) with
  | none => simp
  | some f =>
    refine ⟨rfl, ?_⟩
    intro found hfound
    simp only [Option.some.injEq] at hfound
    subst hfound
    exact ⟨rfl, rfl, rfl, rfl⟩

/-- A header at offset 0 with length field 32 directly followed by its footer
at offset 32: the footer lies `length` bytes after the start of the header, yet
the tag is not found, because the code looks for the footer at offset 64. -/
theorem header_first_looks_past_footer_witness :
    (header_footer_file.faults = []
        ∧ record_at header_footer_file.bytes 0
          = some { version := 2000, length := 32, items := 0,
                   flags := APE_FLAG_HAS_HEADER + APE_FLAG_IS_HEADER }
        ∧ hasFlag (APE_FLAG_HAS_HEADER + APE_FLAG_IS_HEADER) APE_FLAG_HAS_HEADER = true
        ∧ hasFlag (APE_FLAG_HAS_HEADER + APE_FLAG_IS_HEADER) APE_FLAG_IS_HEADER = true
        ∧ hasFlag (APE_FLAG_HAS_HEADER + APE_FLAG_IS_HEADER) APE_FLAG_HAS_NO_FOOTER = false
        ∧ (record_at header_footer_file.bytes 32).isSome = true
        ∧ (record_at header_footer_file.bytes (32 + 32)).isSome = false)
      ∧ (ape_find_header header_footer_file).1.isSome
          = (record_at header_footer_file.bytes (32 + 32)).isSome
      ∧ ∀ found, (ape_find_header header_footer_file).1 = some found →
          found.start = 0 ∧ found.length = toGint (toGint (32 : Nat) + 32)
            ∧ found.data_start = 32
            ∧ found.data_length = toGint (((32 : Nat) : Int) - 32) :=
  ⟨by decide, header_first_looks_past_footer header_footer_file
    { version := 2000, length := 32, items := 0,
      flags := APE_FLAG_HAS_HEADER + APE_FLAG_IS_HEADER }
    rfl (by decide) (by decide) (by decide) (by decide)⟩

/-- C16 (amended): when no valid record starts the file, no I/O call fails
and `ape_find_header` succeeds, the accepted record is the one in the last 32
bytes, the data length is `length - 32` and the data start is the END of the
footer less `length` (the file size less `length`); without HAS_HEADER the
start equals the data start and the total span is `length`; with HAS_HEADER a
valid record was confirmed 32 bytes before the data start, the start is the
data start less 32 and the total span is `length + 32`. -/
theorem footer_first_bounds (h : VFSFile) (found : Found) (hf : h.faults = [])
    (hfirst : record_at h.bytes 0 = none)
    (hfound : (ape_find_header h).1 = some found) :
    record_at h.bytes (h.bytes.length - 32) = some found.header
      ∧ found.data_start = toGint ((h.bytes.length : Int) - found.header.length)
      ∧ found.data_length = toGint ((found.header.length : Int) - 32)
      ∧ (hasFlag found.header.flags APE_FLAG_HAS_HEADER = false →
          found.start = toGint ((h.bytes.length : Int) - found.header.length)
            ∧ found.length = toGint found.header.length
            ∧ found.data_start = found.start)
      ∧ (hasFlag found.header.flags APE_FLAG_HAS_HEADER = true →
          found.start = toGint (toGint ((h.bytes.length : Int) - found.header.length) - 32)
            ∧ found.length = toGint (toGint found.header.length + 32)
            ∧ ∃ tgt : Nat,
                (tgt : Int) = (h.bytes.length : Int) - toGint found.header.length - 32
                  ∧ (record_at h.bytes tgt).isSome = true) := by
  rw [ape_find_header_nofault h hf] at hfound
  rcases locate_some h.bytes found hfound with ⟨h0, _⟩ | ⟨_, h1, _, _, hds, hdl, hc⟩
  · rw [hfirst] at h0
    exact absurd h0 (by simp)
  · refine ⟨h1, hds, hdl, ?_, ?_⟩
    · intro hh
      rcases hc with ⟨_, hs, hl⟩ | ⟨hh', _⟩
      · exact ⟨hs, hl, by rw [hds, hs]⟩
      · rw [hh] at hh'
        exact absurd hh' (by simp)
    · intro hh
      rcases hc with ⟨hh', _⟩ | ⟨_, _, tgt, ht, hr, hs, hl⟩
      · rw [hh] at hh'
        exact absurd hh' (by simp)
      · exact ⟨hs, hl, tgt, ht, hr⟩

/-- The amended footer-first bounds on a file holding one byte, a header, one
item and a footer. -/
theorem footer_first_bounds_witness :
    (full_tag_file.faults = [] ∧ record_at full_tag_file.bytes 0 = none
        ∧ (ape_find_header full_tag_file).1 = some full_found)
      ∧ record_at full_tag_file.bytes (full_tag_file.bytes.length - 32) = some full_found.header
      ∧ full_found.data_start
          = toGint ((full_tag_file.bytes.length : Int) - full_found.header.length)
      ∧ full_found.data_length = toGint ((full_found.header.length : Int) - 32)
      ∧ (hasFlag full_found.header.flags APE_FLAG_HAS_HEADER = false →
          full_found.start
              = toGint ((full_tag_file.bytes.length : Int) - full_found.header.length)
            ∧ full_found.length = toGint full_found.header.length
            ∧ full_found.data_start = full_found.start)
      ∧ (hasFlag full_found.header.flags APE_FLAG_HAS_HEADER = true →
          full_found.start
              = toGint (toGint ((full_tag_file.bytes.length : Int)
                  - full_found.header.length) - 32)
            ∧ full_found.length = toGint (toGint full_found.header.length + 32)
            ∧ ∃ tgt : Nat,
                (tgt : Int) = (full_tag_file.bytes.length : Int)
                    - toGint full_found.header.length - 32
                  ∧ (record_at full_tag_file.bytes tgt).isSome = true) :=
  ⟨by decide, footer_first_bounds full_tag_file full_found rfl (by decide) (by decide)⟩

/-- C16 (counterexample): a file of one byte followed by a lone footer with
length field 32. The footer is at position 1 and the tag is found by the
footer-first attempt, but the start is 1, not `1 - length`, and the data start
equals the start, not `start + 32`. -/
theorem footer_first_start_is_not_footer_position_less_length :
    record_at trailing_tag_file.bytes 0 = none
      ∧ (record_at trailing_tag_file.bytes 1).isSome = true
      ∧ (ape_find_header trailing_tag_file).1 = some trailing_found
      ∧ trailing_found.start ≠ (1 : Int) - trailing_found.header.length
      ∧ trailing_found.data_start ≠ trailing_found.start + 32 := by
  decide

/-- A value in the range of `gint` is not changed by the conversion. -/
theorem toGint_id (x : Int) (hlo : -2147483648 ≤ x) (hhi : x < 2147483648) : toGint x = x := by
  unfold toGint
  omega

/-- Bounds arithmetic, header-first with a confirmed footer. -/
theorem bounds_header_footer (len size : Nat) (start length ds dl : Int)
    (hsize : size < 2147483648) (hl32 : 32 ≤ len) (hin : 32 + len + 32 ≤ size)
    (hs : start = 0) (hds : ds = 32) (hdl : dl = toGint ((len : Int) - 32))
    (hl : length = toGint (toGint len + 32)) :
    0 ≤ start ∧ start ≤ ds ∧ 0 ≤ dl ∧ ds + dl ≤ start + length
      ∧ start + length ≤ (size : Int) := by
  rw [hs, hds, hdl, hl]
  clear hs hds hdl hl
  rw [toGint_id (len : Int) (by omega) (by omega),
    toGint_id ((len : Int) - 32) (by omega) (by omega),
    toGint_id ((len : Int) + 32) (by omega) (by omega)]
  omega

/-- Bounds arithmetic, header-first without a footer. -/
theorem bounds_header_only (len size : Nat) (start length ds dl : Int)
    (hsize : size < 2147483648) (hl32 : 32 ≤ len) (hfit : len ≤ size)
    (hs : start = 0) (hds : ds = 32) (hdl : dl = toGint ((len : Int) - 32))
    (hl : length = toGint len) :
    0 ≤ start ∧ start ≤ ds ∧ 0 ≤ dl ∧ ds + dl ≤ start + length
      ∧ start + length ≤ (size : Int) := by
  rw [hs, hds, hdl, hl]
  clear hs hds hdl hl
  rw [toGint_id (len : Int) (by omega) (by omega),
    toGint_id ((len : Int) - 32) (by omega) (by omega)]
  omega

/-- Bounds arithmetic, footer-first without a header. -/
theorem bounds_footer_only (len size : Nat) (start length ds dl : Int)
    (hsize : size < 2147483648) (hl32 : 32 ≤ len) (hfit : len ≤ size)
    (hds : ds = toGint ((size : Int) - len)) (hdl : dl = toGint ((len : Int) - 32))
    (hs : start = toGint ((size : Int) - len)) (hl : length = toGint len) :
    0 ≤ start ∧ start ≤ ds ∧ 0 ≤ dl ∧ ds + dl ≤ start + length
      ∧ start + length ≤ (size : Int) := by
  rw [hs, hds, hdl, hl]
  clear hs hds hdl hl
  rw [toGint_id (len : Int) (by omega) (by omega),
    toGint_id ((len : Int) - 32) (by omega) (by omega),
    toGint_id ((size : Int) - len) (by omega) (by omega)]
  omega

/-- Bounds arithmetic, footer-first with a confirmed header. -/
theorem bounds_footer_header (len size : Nat) (start length ds dl : Int)
    (hsize : size < 2147483648) (hl32 : 32 ≤ len) (hfit : len ≤ size)
    (hge : 0 ≤ (size : Int) - toGint len - 32)
    (hds : ds = toGint ((size : Int) - len)) (hdl : dl = toGint ((len : Int) - 32))
    (hs : start = toGint (toGint ((size : Int) - len) - 32))
    (hl : length = toGint (toGint len + 32)) :
    0 ≤ start ∧ start ≤ ds ∧ 0 ≤ dl ∧ ds + dl ≤ start + length
      ∧ start + length ≤ (size : Int) := by
  rw [hs, hds, hdl, hl]
  clear hs hds hdl hl
  rw [toGint_id (len : Int) (by omega) (by omega)] at hge ⊢
  rw [toGint_id ((len : Int) - 32) (by omega) (by omega),
    toGint_id ((size : Int) - len) (by omega) (by omega),
    toGint_id ((len : Int) + 32) (by omega) (by omega),
    toGint_id ((size : Int) - len - 32) (by omega) (by omega)]
  omega
/-- C19 (amended): when no I/O call fails, the file is shorter than 2^31
bytes and the length field of the accepted record is at most the file size,
the bounds `ape_find_header` reports lie inside the file:
`0 ≤ start ≤ data_start`, `0 ≤ data_length`, and
`data_start + data_length ≤ start + length ≤ file size`. -/
theorem located_bounds (h : VFSFile) (found : Found) (hf : h.faults = [])
    (hsize : h.bytes.length < 2147483648)
    (hfound : (ape_find_header h).1 = some found)
    (hfit : found.header.length ≤ h.bytes.length) :
    0 ≤ found.start ∧ found.start ≤ found.data_start ∧ 0 ≤ found.data_length
      ∧ found.data_start + found.data_length ≤ found.start + found.length
      ∧ found.start + found.length ≤ (h.bytes.length : Int) := by
  rw [ape_find_header_nofault h hf] at hfound
  rcases locate_some h.bytes found hfound with
    ⟨h0, hs, hds, hdl, hc⟩ | ⟨_, h1, _, _, hds, hdl, hc⟩
  · have hl32 := (record_at_length h.bytes 0 found.header h0).1
    rcases hc with ⟨_, hr, hl⟩ | ⟨_, hl⟩
    · obtain ⟨f, hf2⟩ := Option.isSome_iff_exists.mp hr
      have hin := (record_at_length h.bytes (32 + found.header.length) f hf2).2.2
      exact bounds_header_footer found.header.length h.bytes.length found.start found.length
        found.data_start found.data_length hsize hl32 hin hs hds hdl hl
    · exact bounds_header_only found.header.length h.bytes.length found.start found.length
        found.data_start found.data_length hsize hl32 hfit hs hds hdl hl
  · have hl32 := (record_at_length h.bytes (h.bytes.length - 32) found.header h1).1
    rcases hc with ⟨_, hs, hl⟩ | ⟨_, hge, tgt, htgt, hr, hs, hl⟩
    · exact bounds_footer_only found.header.length h.bytes.length found.start found.length
        found.data_start found.data_length hsize hl32 hfit hds hdl hs hl
    · exact bounds_footer_header found.header.length h.bytes.length found.start found.length
        found.data_start found.data_length hsize hl32 hfit hge hds hdl hs hl

/-- The located bounds of a file holding one byte, a header, one item and a
footer lie inside the file. -/
theorem located_bounds_witness :
    (full_tag_file.faults = [] ∧ full_tag_file.bytes.length < 2147483648
        ∧ (ape_find_header full_tag_file).1 = some full_found
        ∧ full_found.header.length ≤ full_tag_file.bytes.length)
      ∧ 0 ≤ full_found.start ∧ full_found.start ≤ full_found.data_start
      ∧ 0 ≤ full_found.data_length
      ∧ full_found.data_start + full_found.data_length
          ≤ full_found.start + full_found.length
      ∧ full_found.start + full_found.length ≤ (full_tag_file.bytes.length : Int) :=
  ⟨by decide, located_bounds full_tag_file full_found rfl (by decide) (by decide)
    (by decide)⟩

/-- C19 (counterexample): a file of one byte followed by a lone footer whose
length field is 100. The tag is found, with start `33 - 100 = -67`. -/
theorem located_start_can_be_negative :
    (ape_find_header oversized_tag_file).1 = some oversized_found
      ∧ oversized_found.start < 0 := by
  decide

/-! ## Reading what a write has left -/

/-- The fields `ape_read_header` reads back from a record `write_header` has
composed. -/
theorem parse_header_header_bytes (dl items : Int) (b : Bool) (h0 : 0 ≤ dl)
    (h1 : dl + 32 < 4294967296) (hi0 : 0 ≤ items) (hi1 : items < 4294967296) :
    parse_header (header_bytes dl items b)
      = some { version := 2000, length := (dl + 32).toNat, items := items.toNat,
               flags := if b then APE_FLAG_HAS_HEADER + APE_FLAG_IS_HEADER
                 else APE_FLAG_HAS_HEADER } := by
  have e : header_bytes dl items b
      = magic ++ (le32bytes 2000 ++ (le32bytes (dl + 32).toNat ++ (le32bytes items.toNat
          ++ (le32bytes (if b then APE_FLAG_HAS_HEADER + APE_FLAG_IS_HEADER
                else APE_FLAG_HAS_HEADER) ++ List.replicate 8 0)))) := by
    unfold header_bytes sizeofAPEHeader
    rw [Int.emod_eq_of_lt (by omega) (by omega), Int.emod_eq_of_lt hi0 hi1]
    simp only [List.append_assoc]
    rfl
  have hlen : (dl + 32).toNat < 4294967296 := by omega
  have hit : items.toNat < 4294967296 := by omega
  have hfl : (if b then APE_FLAG_HAS_HEADER + APE_FLAG_IS_HEADER else APE_FLAG_HAS_HEADER)
      < 4294967296 := by
    cases b <;> decide
  rw [e]
  unfold parse_header
  have t8 : ∀ r : List Byte, (magic ++ r).take 8 = magic := fun _ => rfl
  have d8 : ∀ r : List Byte, (magic ++ r).drop 8 = r := fun _ => rfl
  have d12 : ∀ (a : Nat) (r : List Byte), (magic ++ (le32bytes a ++ r)).drop 12 = r :=
    fun _ _ => rfl
  have d16 : ∀ (a b : Nat) (r : List Byte),
      (magic ++ (le32bytes a ++ (le32bytes b ++ r))).drop 16 = r := fun _ _ _ => rfl
  have d20 : ∀ (a b c : Nat) (r : List Byte),
      (magic ++ (le32bytes a ++ (le32bytes b ++ (le32bytes c ++ r)))).drop 20 = r :=
    fun _ _ _ _ => rfl
  rw [t8, d8, d12, d16, d20, le32_le32bytes 2000 (by decide), le32_le32bytes _ hlen,
    le32_le32bytes _ hit, le32_le32bytes _ hfl]
  have h32 : ¬ (dl + 32).toNat < sizeofAPEHeader := by
    unfold sizeofAPEHeader
    omega
  simp only [ne_eq, not_true_eq_false, if_false, h32]

/-- The record read at the end of `pre`, when a 32-byte block follows it. -/
theorem record_at_mid (pre hb post : List Byte) (h32 : hb.length = 32) :
    record_at (pre ++ hb ++ post) pre.length = parse_header hb := by
  unfold record_at
  have hl : pre.length + 32 ≤ (pre ++ hb ++ post).length := by
    simp only [List.length_append]
    omega
  rw [if_pos hl, List.append_assoc, List.drop_left, List.take_left' h32]

/-- The record read at offset 0 depends on the first 32 bytes only. -/
theorem record_at_zero (bytes : List Byte) :
    record_at bytes 0 = if 32 ≤ bytes.length then parse_header (bytes.take 32) else none := by
  unfold record_at
  simp only [Nat.zero_add, List.drop_zero]

/-- Footer-first success with a confirmed header, as a rule of `locate`. -/
theorem locate_footer_header (bytes : List Byte) (hdr : APEHeader) (tgt : Nat)
    (h0 : record_at bytes 0 = none)
    (h1 : record_at bytes (bytes.length - 32) = some hdr)
    (hn : hasFlag hdr.flags APE_FLAG_HAS_NO_FOOTER = false)
    (hi : hasFlag hdr.flags APE_FLAG_IS_HEADER = false)
    (hh : hasFlag hdr.flags APE_FLAG_HAS_HEADER = true)
    (htgt : (tgt : Int) = (bytes.length : Int) - toGint hdr.length - 32)
    (h2 : (record_at bytes tgt).isSome = true) :
    locate bytes
      = some { header := hdr,
               start := toGint (toGint ((bytes.length : Int) - hdr.length) - 32),
               length := toGint (toGint hdr.length + 32),
               data_start := toGint ((bytes.length : Int) - hdr.length),
               data_length := toGint ((hdr.length : Int) - 32) } := by
  unfold locate
  rw [h0]
  simp only
  rw [h1]
  simp only [hn, hi, hh, Bool.or_self, Bool.false_eq_true, if_false, if_true]
  have hge : ¬ (bytes.length : Int) - toGint hdr.length - 32 < 0 := by
    rw [← htgt]
    exact not_lt.mpr (Int.ofNat_nonneg tgt)
  rw [if_neg hge, ← htgt, Int.toNat_ofNat]
  obtain ⟨f, hf⟩ := Option.isSome_iff_exists.mp h2
  rw [hf]


/-- The footer `write_header` composes for a body of `L` bytes and `N` items,
as `ape_read_header` reads it back. -/
theorem parse_header_footer (L N : Nat) (hL : L + 32 < 4294967296) (hN : N < 4294967296) :
    parse_header (header_bytes (L : Int) (N : Int) false)
      = some { version := 2000, length := L + 32, items := N, flags := APE_FLAG_HAS_HEADER } := by
  rw [parse_header_header_bytes (L : Int) (N : Int) false (by omega) (by omega) (by omega)
    (by omega)]
  have e1 : ((L : Int) + 32).toNat = L + 32 := by omega
  have e2 : (N : Int).toNat = N := by omega
  rw [e1, e2]
  rfl

/-- The placeholder header of a write, as `ape_read_header` reads it back. -/
theorem parse_header_placeholder :
    parse_header (header_bytes 0 0 true)
      = some { version := 2000, length := 32, items := 0,
               flags := APE_FLAG_HAS_HEADER + APE_FLAG_IS_HEADER } := by
  decide

/-- Every item takes at least one byte. -/
theorem items_length_le (items : List RawItem) : items.length ≤ (items_data items).length := by
  induction items with
  | nil => exact Nat.le_refl _
  | cons i rest ih =>
    rw [items_data]
    simp only [List.length_cons, List.length_append, RawItem.bytes, le32bytes_length]
    omega

/-- Offsets of a tag with header and footer that ends a file of less than
`2 ^ 31` bytes, as `ape_find_header` computes them in `gint`s. -/
theorem tag_offsets (p L size : Nat) (hs : size = p + 32 + L + 32)
    (hsize : size < 2147483648) :
    toGint (toGint ((size : Int) - ((L + 32 : Nat) : Int)) - 32) = (p : Int)
      ∧ toGint (toGint ((L + 32 : Nat) : Int) + 32) = (L : Int) + 64
      ∧ toGint ((size : Int) - ((L + 32 : Nat) : Int)) = (p : Int) + 32
      ∧ toGint (((L + 32 : Nat) : Int) - 32) = (L : Int)
      ∧ (p : Int) = (size : Int) - toGint ((L + 32 : Nat) : Int) - 32 := by
  have e1 : toGint ((L + 32 : Nat) : Int) = (L : Int) + 32 := by
    rw [toGint_id _ (by omega) (by omega)]
    omega
  have e2 : toGint ((size : Int) - ((L + 32 : Nat) : Int)) = (p : Int) + 32 := by
    rw [toGint_id _ (by omega) (by omega)]
    omega
  have e3 : toGint ((p : Int) + 32 - 32) = (p : Int) := by
    rw [toGint_id _ (by omega) (by omega)]
    omega
  have e4 : toGint ((L : Int) + 32 + 32) = (L : Int) + 64 := by
    rw [toGint_id _ (by omega) (by omega)]
    omega
  have e5 : toGint (((L + 32 : Nat) : Int) - 32) = (L : Int) := by
    rw [toGint_id _ (by omega) (by omega)]
    omega
  rw [e2, e1, e3, e4, e5]
  clear e1 e2 e3 e4 e5
  refine ⟨rfl, rfl, rfl, rfl, ?_⟩
  omega

/-- What `ape_find_header` finds, without faults, in a file that ends with a
tag as a write leaves it (placeholder header, items, footer) and does not
begin with a valid record. -/
theorem locate_written (pre : List Byte) (items : List RawItem)
    (h0 : record_at (pre ++ header_bytes 0 0 true ++ items_data items
      ++ header_bytes ((items_data items).length : Int) (items.length : Int) false) 0 = none)
    (hsize : (pre ++ header_bytes 0 0 true ++ items_data items
      ++ header_bytes ((items_data items).length : Int) (items.length : Int) false).length
        < 2147483648) :
    locate (pre ++ header_bytes 0 0 true ++ items_data items
      ++ header_bytes ((items_data items).length : Int) (items.length : Int) false)
      = some { header := { version := 2000, length := (items_data items).length + 32,
                           items := items.length, flags := APE_FLAG_HAS_HEADER },
               start := pre.length, length := ((items_data items).length : Int) + 64,
               data_start := (pre.length : Int) + 32,
               data_length := (items_data items).length } := by
  generalize hB : items_data items = B at h0 hsize ⊢
  generalize hN : items.length = N at h0 hsize ⊢
  have hNL : N ≤ B.length := by
    rw [← hB, ← hN]
    exact items_length_le items
  generalize hbytes : pre ++ header_bytes 0 0 true ++ B
      ++ header_bytes (B.length : Int) (N : Int) false = bytes at h0 hsize ⊢
  have hlen : bytes.length = pre.length + 32 + B.length + 32 := by
    rw [← hbytes]
    simp only [List.length_append, header_bytes_length]
  have hfoot : record_at bytes (bytes.length - 32)
      = some { version := 2000, length := B.length + 32, items := N,
               flags := APE_FLAG_HAS_HEADER } := by
    have hpos : bytes.length - 32 = (pre ++ header_bytes 0 0 true ++ B).length := by
      rw [hlen]
      simp only [List.length_append, header_bytes_length]
      omega
    rw [hpos, ← hbytes]
    have := record_at_mid (pre ++ header_bytes 0 0 true ++ B)
      (header_bytes (B.length : Int) (N : Int) false) [] (header_bytes_length _ _ _)
    rw [List.append_nil] at this
    rw [this]
    exact parse_header_footer B.length N (by omega) (by omega)
  have hhead : (record_at bytes pre.length).isSome = true := by
    rw [← hbytes, List.append_assoc]
    rw [record_at_mid pre (header_bytes 0 0 true)
      (B ++ header_bytes (B.length : Int) (N : Int) false) (header_bytes_length _ _ _),
      parse_header_placeholder]
    rfl
  obtain ⟨o1, o2, o3, o4, o5⟩ := tag_offsets pre.length B.length bytes.length hlen hsize
  have hloc := locate_footer_header bytes
    { version := 2000, length := B.length + 32, items := N, flags := APE_FLAG_HAS_HEADER }
    pre.length h0 hfoot (show hasFlag APE_FLAG_HAS_HEADER APE_FLAG_HAS_NO_FOOTER = false by decide)
    (show hasFlag APE_FLAG_HAS_HEADER APE_FLAG_IS_HEADER = false by decide)
    (show hasFlag APE_FLAG_HAS_HEADER APE_FLAG_HAS_HEADER = true by decide) o5 hhead
  rw [hloc]
  show some (Found.mk _ _ _ _ _) = some (Found.mk _ _ _ _ _)
  rw [o1, o2, o3, o4]


/-- The tag layout a write leaves behind `pre`: placeholder header, items,
footer. -/
theorem written_length (pre : List Byte) (items : List RawItem) :
    (pre ++ header_bytes 0 0 true ++ items_data items
      ++ header_bytes ((items_data items).length : Int) (items.length : Int) false).length
      = pre.length + 32 + (items_data items).length + 32 := by
  simp only [List.length_append, header_bytes_length]

/-- The data span of the tag a write leaves is the serialization of its
items. -/
theorem written_span (pre : List Byte) (items : List RawItem) :
    ((pre ++ header_bytes 0 0 true ++ items_data items
      ++ header_bytes ((items_data items).length : Int) (items.length : Int) false).drop
        (pre.length + 32)).take (items_data items).length = items_data items := by
  have hp : pre.length + 32 = (pre ++ header_bytes 0 0 true).length := by
    simp only [List.length_append, header_bytes_length]
  rw [hp, List.append_assoc (pre ++ header_bytes 0 0 true), List.drop_left, List.take_left]

/-- Reading, without faults, a file that ends with a tag as a write leaves it:
the pairs of its items. -/
theorem read_written (h2 : VFSFile) (pre : List Byte) (items : List RawItem)
    (hf : h2.faults = [])
    (hb : h2.bytes = pre ++ header_bytes 0 0 true ++ items_data items
      ++ header_bytes ((items_data items).length : Int) (items.length : Int) false)
    (h0 : record_at h2.bytes 0 = none) (hsize : h2.bytes.length < 2147483648)
    (hw : ∀ i ∈ items, i.wf) :
    (ape_read_tag h2).1 = items.map RawItem.decoded := by
  have hloc : ∃ found2 : Found, (ape_find_header h2).1 = some found2
      ∧ found2.header.items = items.length
      ∧ found2.data_start = (pre.length : Int) + 32
      ∧ found2.data_length = ((items_data items).length : Int) := by
    rw [ape_find_header_nofault h2 hf]
    rw [hb] at h0 hsize ⊢
    exact ⟨_, locate_written pre items h0 hsize, rfl, rfl, rfl⟩
  obtain ⟨found2, hfound, hitems, hds, hdl⟩ := hloc
  have e1 : found2.data_start.toNat = pre.length + 32 := by
    rw [hds]
    omega
  have e2 : found2.data_length.toNat = (items_data items).length := by
    rw [hdl]
    omega
  have hspan : (h2.bytes.drop found2.data_start.toNat).take found2.data_length.toNat
      = items_data items := by
    rw [e1, e2, hb]
    exact written_span pre items
  rw [ape_read_tag_nofault h2 found2 hf hfound (by rw [hds]; omega) (by rw [hdl]; omega)
    (by rw [hspan, e2]), hspan, hitems]
  have := read_items_wf items hw 0 []
  rw [List.append_nil, Nat.add_zero] at this
  unfold decode
  rw [this]
  simp [read_items]

/-- Last match over two sequences: the second one wins when it has a match. -/
theorem last_value_append (name : List Byte) (a b : List ValuePair) :
    last_value name (a ++ b) = (last_value name b).or (last_value name a) := by
  unfold last_value
  rw [List.filter_append, List.getLast?_append]
  cases (List.filter (fun p => decide (p.key = name)) b).getLast? <;> rfl

/-- A sequence without an item keyed `name` has no last match. -/
theorem last_value_unknown (name : List Byte) (l : List ValuePair)
    (hl : ∀ p ∈ l, p.key ≠ name) : last_value name l = none := by
  unfold last_value
  have : l.filter (fun p => decide (p.key = name)) = [] := by
    rw [List.filter_eq_nil_iff]
    intro p hp
    simpa using hl p hp
  rw [this]
  rfl

/-- Last match in what is read back of the item of a string field. -/
theorem last_value_string_item (name k : List Byte) (o : Option (List Byte)) :
    last_value name ((string_item o k).map RawItem.decoded)
      = if k = name then o.map cstr else none := by
  cases o with
  | none => simp [string_item, last_value]
  | some v =>
    by_cases hk : k = name
    · simp [string_item, last_value, RawItem.decoded, written_item, hk]
    · simp [string_item, last_value, RawItem.decoded, written_item, hk]

/-- Last match in what is read back of the item of an integer field. -/
theorem last_value_integer_item (name k : List Byte) (v : Int) :
    last_value name ((integer_item v k).map RawItem.decoded)
      = if k = name then (if v = 0 then none else some (formatInt v)) else none := by
  by_cases hv : v = 0
  · simp [integer_item, last_value, hv]
  · by_cases hk : k = name
    · simp [integer_item, last_value, RawItem.decoded, written_item, hk, hv,
        cstr_of_no_zero _ (formatInt_no_zero v)]
    · simp [integer_item, last_value, RawItem.decoded, written_item, hk, hv]

/-- The pairs read back of the items kept from an old tag have no known key. -/
theorem old_items_unknown (list : List ValuePair) :
    ∀ p ∈ (old_items list).map RawItem.decoded, is_known_key p.key = false := by
  intro p hp
  unfold old_items at hp
  simp only [List.map_map, List.mem_map, List.mem_filter, Function.comp] at hp
  obtain ⟨q, ⟨_, hq⟩, rfl⟩ := hp
  simpa [RawItem.decoded, written_item] using hq

/-- What is read back of the items a write emits for a record and an old tag,
field by field. -/
theorem last_value_written (tuple : Tuple) (list : List ValuePair) :
    last_value keyArtist ((known_items tuple ++ old_items list).map RawItem.decoded)
        = tuple.artist.map cstr
      ∧ last_value keyTitle ((known_items tuple ++ old_items list).map RawItem.decoded)
        = tuple.title.map cstr
      ∧ last_value keyAlbum ((known_items tuple ++ old_items list).map RawItem.decoded)
        = tuple.album.map cstr
      ∧ last_value keyComment ((known_items tuple ++ old_items list).map RawItem.decoded)
        = tuple.comment.map cstr
      ∧ last_value keyGenre ((known_items tuple ++ old_items list).map RawItem.decoded)
        = tuple.genre.map cstr
      ∧ last_value keyTrack ((known_items tuple ++ old_items list).map RawItem.decoded)
        = (if tuple_get_int tuple.track_number = 0 then none
            else some (formatInt (tuple_get_int tuple.track_number)))
      ∧ last_value keyDate ((known_items tuple ++ old_items list).map RawItem.decoded)
        = (if tuple_get_int tuple.year = 0 then none
            else some (formatInt (tuple_get_int tuple.year))) := by
  have hold : ∀ name : List Byte, is_known_key name = true →
      last_value name ((old_items list).map RawItem.decoded) = none := by
    intro name hn
    apply last_value_unknown
    intro p hp hk
    have := old_items_unknown list p hp
    rw [hk, hn] at this
    exact absurd this (by simp)
  refine ⟨?_, ?_, ?_, ?_, ?_, ?_, ?_⟩ <;>
    simp +decide only [known_items, List.map_append, last_value_append,
      last_value_string_item, last_value_integer_item, hold keyArtist (by decide),
      hold keyTitle (by decide), hold keyAlbum (by decide), hold keyComment (by decide),
      hold keyGenre (by decide), hold keyTrack (by decide), hold keyDate (by decide),
      if_true, if_false,
      Option.or_none, Option.none_or, eq_self_iff_true]

/-- The pairs decoding returns are C strings: neither key nor value holds a
NUL. -/
theorem decode_cstr (buf : List Byte) (n : Nat) :
    ∀ p ∈ decode buf n, (0 : Byte) ∉ p.key ∧ (0 : Byte) ∉ p.value := by
  induction n generalizing buf with
  | zero =>
    intro p hp
    exact absurd hp (by simp [decode, read_items])
  | succ n ih =>
    cases hi : ape_read_item buf with
    | none =>
      intro p hp
      rw [decode_succ_none _ _ hi] at hp
      exact absurd hp (by simp)
    | some pr =>
      obtain ⟨q, rest⟩ := pr
      obtain ⟨r, hw, _, hq⟩ := ape_read_item_some buf q rest hi
      intro p hp
      rw [decode_succ_some _ _ _ _ hi] at hp
      rcases List.mem_cons.mp hp with e | e
      · rw [e, hq]
        exact ⟨hw.2.1, cstr_no_zero _⟩
      · exact ih rest p e

/-- The pairs `ape_read_tag` returns are C strings. -/
theorem ape_read_tag_cstr (h : VFSFile) :
    ∀ p ∈ (ape_read_tag h).1, (0 : Byte) ∉ p.key ∧ (0 : Byte) ∉ p.value := by
  intro p hp
  unfold ape_read_tag at hp
  dsimp only at hp
  split at hp
  · exact absurd hp (by simp)
  · split_ifs at hp
    · exact absurd hp (by simp)
    · exact absurd hp (by simp)
    · exact decode_cstr _ _ p hp

/-- The value of an item is part of the serialization of the items. -/
theorem item_value_le (items : List RawItem) :
    ∀ i ∈ items, i.value.length ≤ (items_data items).length := by
  induction items with
  | nil =>
    intro i hi
    exact absurd hi (by simp)
  | cons j rest ih =>
    intro i hi
    rw [items_data, List.length_append]
    rcases List.mem_cons.mp hi with e | e
    · rw [e]
      simp only [RawItem.bytes, List.length_append]
      omega
    · have := ih i e
      omega

/-- The items a write emits for a record have four flag bytes and a key
without NUL. -/
theorem known_items_keys (tuple : Tuple) :
    ∀ i ∈ known_items tuple, i.flags.length = 4 ∧ (0 : Byte) ∉ i.key := by
  intro i hi
  unfold known_items at hi
  simp only [List.mem_append] at hi
  have hs : ∀ (o : Option (List Byte)) (k : List Byte), (0 : Byte) ∉ k →
      i ∈ string_item o k → i.flags.length = 4 ∧ (0 : Byte) ∉ i.key := by
    intro o k hk hm
    cases o with
    | none => exact absurd hm (by simp [string_item])
    | some v =>
      simp only [string_item, List.mem_singleton] at hm
      rw [hm]
      exact ⟨rfl, hk⟩
  have hn : ∀ (v : Int) (k : List Byte), (0 : Byte) ∉ k →
      i ∈ integer_item v k → i.flags.length = 4 ∧ (0 : Byte) ∉ i.key := by
    intro v k hk hm
    unfold integer_item at hm
    split_ifs at hm
    · exact absurd hm (by simp)
    · simp only [List.mem_singleton] at hm
      rw [hm]
      exact ⟨rfl, hk⟩
  rcases hi with (((((h1 | h2) | h3) | h4) | h5) | h6) | h7
  · exact hs _ _ (by decide) h1
  · exact hs _ _ (by decide) h2
  · exact hs _ _ (by decide) h3
  · exact hs _ _ (by decide) h4
  · exact hs _ _ (by decide) h5
  · exact hn _ _ (by decide) h6
  · exact hn _ _ (by decide) h7

/-- The items a write keeps from an old tag have four flag bytes and the key
they were read with. -/
theorem old_items_keys (list : List ValuePair) (hk : ∀ p ∈ list, (0 : Byte) ∉ p.key) :
    ∀ i ∈ old_items list, i.flags.length = 4 ∧ (0 : Byte) ∉ i.key := by
  intro i hi
  unfold old_items at hi
  simp only [List.mem_map, List.mem_filter] at hi
  obtain ⟨q, ⟨hq, _⟩, rfl⟩ := hi
  exact ⟨rfl, hk q hq⟩

/-- The items of a write are well formed when the tag body is short enough
for the length fields. -/
theorem written_items_wf (tuple : Tuple) (list : List ValuePair)
    (hk : ∀ p ∈ list, (0 : Byte) ∉ p.key)
    (hL : (items_data (known_items tuple ++ old_items list)).length < 4294967296) :
    ∀ i ∈ known_items tuple ++ old_items list, i.wf := by
  intro i hi
  have hv := item_value_le _ i hi
  rcases List.mem_append.mp hi with h1 | h2
  · exact ⟨(known_items_keys tuple i h1).1, (known_items_keys tuple i h1).2, by omega⟩
  · exact ⟨(old_items_keys list hk i h2).1, (old_items_keys list hk i h2).2, by omega⟩

/-! ## The fault schedule through a write -/

theorem vfs_fwrite_nofaults (h : VFSFile) (data : List Byte) (hf : h.faults = []) :
    (vfs_fwrite h data).2.faults = [] := by
  unfold vfs_fwrite
  simp [hf]

theorem vfs_fseek_nofaults (h : VFSFile) (o : Int) (w : Whence) (hf : h.faults = []) :
    (vfs_fseek h o w).2.faults = [] := by
  rw [vfs_fseek_faults, hf]
  rfl

theorem vfs_truncate_nofaults (h : VFSFile) (n : Int) (hf : h.faults = []) :
    (vfs_truncate h n).2.faults = [] := by
  unfold vfs_truncate
  split_ifs <;> simp [hf]

theorem ape_write_item_nofaults (h : VFSFile) (key value : List Byte) (wl : Int)
    (hf : h.faults = []) : (ape_write_item h key value wl).2.1.faults = [] := by
  unfold ape_write_item
  dsimp only
  split_ifs <;> simp only <;>
    first
      | exact vfs_fwrite_nofaults _ _ hf
      | exact vfs_fwrite_nofaults _ _ (vfs_fwrite_nofaults _ _ hf)
      | exact vfs_fwrite_nofaults _ _ (vfs_fwrite_nofaults _ _ (vfs_fwrite_nofaults _ _ hf))

theorem write_string_item_nofaults (v : Option (List Byte)) (key : List Byte)
    (s : WState) (hf : s.handle.faults = []) :
    (write_string_item v key s).2.handle.faults = [] := by
  unfold write_string_item
  split
  · exact hf
  · dsimp only
    split_ifs <;> exact ape_write_item_nofaults _ _ _ _ hf

theorem write_integer_item_nofaults (v : Int) (key : List Byte)
    (s : WState) (hf : s.handle.faults = []) :
    (write_integer_item v key s).2.handle.faults = [] := by
  unfold write_integer_item
  dsimp only
  split_ifs
  · exact hf
  · exact ape_write_item_nofaults _ _ _ _ hf
  · exact ape_write_item_nofaults _ _ _ _ hf

theorem write_known_items_nofaults (tuple : Tuple) (s : WState)
    (hf : s.handle.faults = []) : (write_known_items tuple s).2.handle.faults = [] := by
  have a := write_string_item_nofaults tuple.artist keyArtist s hf
  have b := write_string_item_nofaults tuple.title keyTitle _ a
  have c := write_string_item_nofaults tuple.album keyAlbum _ b
  have d := write_string_item_nofaults tuple.comment keyComment _ c
  have e := write_string_item_nofaults tuple.genre keyGenre _ d
  have f := write_integer_item_nofaults (tuple_get_int tuple.track_number) keyTrack _ e
  have g := write_integer_item_nofaults (tuple_get_int tuple.year) keyDate _ f
  unfold write_known_items
  dsimp only
  split_ifs <;> assumption

theorem write_old_items_nofaults (list : List ValuePair) (s : WState)
    (hf : s.handle.faults = []) : (write_old_items list s).2.handle.faults = [] := by
  induction list generalizing s with
  | nil => exact hf
  | cons pair rest ih =>
    unfold write_old_items
    dsimp only
    split_ifs
    · exact ih s hf
    · exact ape_write_item_nofaults _ _ _ _ hf
    · exact ih _ (ape_write_item_nofaults _ _ _ _ hf)

theorem write_header_nofaults (dl items : Int) (b : Bool) (h : VFSFile)
    (hf : h.faults = []) : (write_header dl items b h).2.faults = [] :=
  vfs_fwrite_nofaults _ _ hf

/-- A write on a handle without scheduled faults leaves a handle without
scheduled faults. -/
theorem ape_write_tag_nofaults (tuple : Tuple) (h : VFSFile) (hf : h.faults = []) :
    (ape_write_tag tuple h).2.faults = [] := by
  have hf2 : (ape_find_header (ape_read_tag h).2).2.faults = [] :=
    ape_find_header_faults _ (ape_read_tag_faults h hf)
  unfold ape_write_tag
  dsimp only
  generalize (ape_read_tag h).1 = list
  generalize (ape_find_header (ape_read_tag h).2).1 = fo
  generalize (ape_find_header (ape_read_tag h).2).2 = f at hf2
  cases fo with
  | none => exact hf2
  | some found =>
    dsimp only
    by_cases c1 : found.start + found.length ≠ vfs_fsize f
    · rw [if_pos c1]
      exact hf2
    rw [if_neg c1]
    have k0 := vfs_truncate_nofaults f found.start hf2
    generalize vfs_truncate f found.start = t at k0 ⊢
    by_cases c2 : t.1 ≠ 0
    · rw [if_pos c2]
      exact k0
    rw [if_neg c2]
    have k1 := vfs_fseek_nofaults t.2 found.start Whence.SEEK_SET k0
    generalize vfs_fseek t.2 found.start Whence.SEEK_SET = s at k1 ⊢
    by_cases c3 : s.1 ≠ 0
    · rw [if_pos c3]
      exact k1
    rw [if_neg c3]
    have k2 := write_header_nofaults 0 0 true _ k1
    generalize write_header 0 0 true s.2 = w at k2 ⊢
    by_cases c4 : (!w.1) = true
    · rw [if_pos c4]
      exact k2
    rw [if_neg c4]
    have k3 := write_known_items_nofaults tuple { handle := w.2, length := 0, items := 0 } k2
    generalize write_known_items tuple { handle := w.2, length := 0, items := 0 } = k at k3 ⊢
    by_cases c5 : (!k.1) = true
    · rw [if_pos c5]
      exact k3
    rw [if_neg c5]
    have k4 := write_old_items_nofaults list _ k3
    generalize write_old_items list k.2 = o at k4 ⊢
    by_cases c6 : (!o.1) = true
    · rw [if_pos c6]
      exact k4
    rw [if_neg c6]
    have k5 := write_header_nofaults o.2.length o.2.items false _ k4
    generalize write_header o.2.length o.2.items false o.2.handle = ft at k5 ⊢
    by_cases c7 : ft.1 = true
    · rw [if_pos c7]
      exact k5
    rw [if_neg c7]
    have k6 := vfs_fseek_nofaults ft.2 found.start Whence.SEEK_SET k5
    generalize vfs_fseek ft.2 found.start Whence.SEEK_SET = s1 at k6 ⊢
    by_cases c8 : s1.1 ≠ 0
    · rw [if_pos c8]
      exact k6
    rw [if_neg c8]
    have k7 := write_header_nofaults o.2.length o.2.items true _ k6
    generalize write_header o.2.length o.2.items true s1.2 = hd at k7 ⊢
    by_cases c9 : (!hd.1) = true
    · rw [if_pos c9]
      exact k7
    rw [if_neg c9]
    exact k7

/-! ## Read after rewrite -/

/-- A C string is its own C string. -/
theorem no_nul_map_cstr (field : Option (List Byte)) (hn : no_nul field) :
    field.map cstr = field := by
  cases field with
  | none => rfl
  | some v =>
    unfold no_nul at hn
    simp only [Option.getD_some] at hn
    simp only [Option.map_some', cstr_of_no_zero v hn]

/-- The decimal text of a non-zero `gint` field reads back as the field. -/
theorem nonzero_field_read (field : Option Int) :
    (if tuple_get_int field = 0 then none
      else some (formatInt (tuple_get_int field))).map atoi = nonzero_field field := by
  unfold nonzero_field
  split_ifs
  · rfl
  · simp only [Option.map_some',
      atoi_formatInt _ (tuple_get_int_range field).1 (tuple_get_int_range field).2]

/-- The first 32 bytes of a file that is cut at 32 bytes or later and then
appended to are what they were. -/
theorem take_truncated (bytes rest : List Byte) (s : Nat) (hl : 32 ≤ bytes.length)
    (hs : 32 ≤ s) : (truncated bytes s ++ rest).take 32 = bytes.take 32 := by
  have h1 : 32 ≤ (truncated bytes s).length := by
    rw [truncated_length]
    exact hs
  rw [List.take_append_of_le_length h1]
  unfold truncated
  rw [List.take_take, Nat.min_eq_left hs, List.take_append_of_le_length hl]

/-- No valid record starts the rewritten file when none started the file and
the tag began at offset 32 or later. -/
theorem record_at_zero_truncated (bytes rest : List Byte) (s : Nat)
    (h0 : record_at bytes 0 = none) (hl : 32 ≤ bytes.length) (hs : 32 ≤ s) :
    record_at (truncated bytes s ++ rest) 0 = none := by
  rw [record_at_zero] at h0 ⊢
  rw [if_pos hl] at h0
  rw [take_truncated bytes rest s hl hs, h0]
  simp

/-- A tag found at a start other than 0 was found by the footer-first attempt:
no valid record starts the file, and the file has 32 bytes at least. -/
theorem locate_footer_first (bytes : List Byte) (found : Found)
    (hl : locate bytes = some found) (hs : found.start ≠ 0) :
    record_at bytes 0 = none ∧ 32 ≤ bytes.length := by
  rcases locate_some bytes found hl with ⟨_, h0, _⟩ | ⟨h0, h1, _⟩
  · exact absurd h0 hs
  · have := (record_at_length bytes (bytes.length - 32) found.header h1).2.2
    exact ⟨h0, by omega⟩


/-- After a write without faults into a file whose tag ends at the end of the
file, when no valid record starts the rewritten file and it is shorter than
`2 ^ 31` bytes: the tag `ape_find_header` finds in it, and the pairs
`ape_read_tag` reads from it. -/
theorem rewritten_read (tuple : Tuple) (h : VFSFile) (found : Found)
    (hf : h.faults = []) (hfound : (ape_find_header h).1 = some found)
    (hend : found.start + found.length = (h.bytes.length : Int)) (h0 : 0 ≤ found.start)
    (hz : record_at (ape_write_tag tuple h).2.bytes 0 = none)
    (hsize : (ape_write_tag tuple h).2.bytes.length < 2147483648) :
    (ape_find_header (ape_write_tag tuple h).2).1
        = some { header :=
                   { version := 2000,
                     length := (items_data
                       (known_items tuple ++ old_items (ape_read_tag h).1)).length + 32,
                     items := (known_items tuple ++ old_items (ape_read_tag h).1).length,
                     flags := APE_FLAG_HAS_HEADER },
                 start := found.start,
                 length := ((items_data
                   (known_items tuple ++ old_items (ape_read_tag h).1)).length : Int) + 64,
                 data_start := found.start + 32,
                 data_length := (items_data
                   (known_items tuple ++ old_items (ape_read_tag h).1)).length }
      ∧ (ape_read_tag (ape_write_tag tuple h).2).1
        = (known_items tuple ++ old_items (ape_read_tag h).1).map RawItem.decoded := by
  have hl := (located_for_write_nofault h hf).trans hfound
  have hb := (ape_write_tag_nofault tuple h found hf hl hend h0).2
  have hf1 := ape_write_tag_nofaults tuple h hf
  unfold rewritten at hb
  have hw : ∀ i ∈ known_items tuple ++ old_items (ape_read_tag h).1, i.wf := by
    apply written_items_wf tuple _ (fun p hp => (ape_read_tag_cstr h p hp).1)
    have := written_length (truncated h.bytes found.start.toNat)
      (known_items tuple ++ old_items (ape_read_tag h).1)
    rw [hb, this] at hsize
    omega
  generalize (ape_write_tag tuple h).2 = h1 at hb hf1 hz hsize ⊢
  generalize known_items tuple ++ old_items (ape_read_tag h).1 = items at hb hw ⊢
  have hpl : (truncated h.bytes found.start.toNat).length = found.start.toNat :=
    truncated_length _ _
  have hst : ((found.start.toNat : Nat) : Int) = found.start := Int.toNat_of_nonneg h0
  constructor
  · rw [ape_find_header_nofault h1 hf1]
    rw [hb] at hz hsize ⊢
    rw [locate_written _ items hz hsize, hpl, hst]
  · exact read_written h1 _ items hf1 hb hz hsize hw


/-- The pairs of `store` for a record of C strings hold no NUL in their
values. -/
theorem store_no_nul (tuple : Tuple) (hn : c_strings tuple) :
    ∀ p ∈ store tuple, (0 : Byte) ∉ p.value := by
  obtain ⟨h1, h2, h3, h4, h5⟩ := hn
  have hd : ∀ (field : Option Int) (v : List Byte), decimal_field field = some v →
      (0 : Byte) ∉ v := by
    intro field v hv
    unfold decimal_field at hv
    split_ifs at hv
    simp only [Option.some.injEq] at hv
    rw [← hv]
    exact formatInt_no_zero _
  have hs : ∀ (field : Option (List Byte)) (v : List Byte), no_nul field → field = some v →
      (0 : Byte) ∉ v := by
    intro field v hfield hv
    rw [hv] at hfield
    exact hfield
  intro p hp
  unfold store field_table at hp
  simp only [List.mem_filterMap, List.mem_cons, List.mem_singleton, List.not_mem_nil,
    or_false, Option.map_eq_some'] at hp
  obtain ⟨kv, hkv, v, hv, rfl⟩ := hp
  rcases hkv with rfl | rfl | rfl | rfl | rfl | rfl | rfl
  · exact hs _ _ h1 hv
  · exact hs _ _ h2 hv
  · exact hs _ _ h3 hv
  · exact hs _ _ h4 hv
  · exact hs _ _ h5 hv
  · exact hd _ _ hv
  · exact hd _ _ hv

/-- What is read back of the items of a record of C strings: the pairs of
`store`. -/
theorem known_items_decoded (tuple : Tuple) (hn : c_strings tuple) :
    (known_items tuple).map RawItem.decoded = store tuple := by
  rw [known_items_eq_store, List.map_map]
  have : ∀ p ∈ store tuple,
      (RawItem.decoded ∘ fun p : ValuePair => written_item p.key p.value) p = id p := by
    intro p hp
    simp only [Function.comp, RawItem.decoded, written_item, id,
      cstr_of_no_zero _ (store_no_nul tuple hn p hp)]
  rw [List.map_congr_left this, List.map_id]

/-- What is read back of the items kept from pairs that are C strings: the
pairs themselves. -/
theorem old_items_read (list : List ValuePair) (hl : ∀ p ∈ list, (0 : Byte) ∉ p.value) :
    (old_items list).map RawItem.decoded = list.filter (fun p => !is_known_key p.key) := by
  unfold old_items
  rw [List.map_map]
  have : ∀ p ∈ list.filter (fun p => !is_known_key p.key),
      (RawItem.decoded ∘ fun p : ValuePair => written_item p.key p.value) p = id p := by
    intro p hp
    simp only [Function.comp, RawItem.decoded, written_item, id,
      cstr_of_no_zero _ (hl p (List.mem_filter.mp hp).1)]
  rw [List.map_congr_left this, List.map_id]


/-- When the tag is found with a data length that is not negative,
`ape_read_tag` asks `g_malloc` for a count it can deliver. -/
theorem read_tag_aborts_of_found (h : VFSFile) (found : Found)
    (hfound : (ape_find_header h).1 = some found) (hdl : 0 ≤ found.data_length) :
    read_tag_aborts h = false := by
  unfold read_tag_aborts
  simp only [hfound]
  split_ifs
  · rfl
  · exact decide_eq_false (not_lt.mpr hdl)

/-- A write that finds no tag, or a tag that does not end at the end of the
file, or a tag with a negative start, leaves the bytes of the file as they
were. -/
theorem ape_write_tag_bytes_unchanged (tuple : Tuple) (h : VFSFile)
    (hc : ∀ found, located_for_write h = some found →
      found.start + found.length ≠ (h.bytes.length : Int) ∨ found.start < 0) :
    (ape_write_tag tuple h).2.bytes = h.bytes := by
  unfold located_for_write at hc
  have hb : (ape_find_header (ape_read_tag h).2).2.bytes = h.bytes := by
    rw [ape_find_header_bytes, ape_read_tag_bytes]
  unfold ape_write_tag
  dsimp only
  generalize (ape_read_tag h).1 = list
  generalize (ape_find_header (ape_read_tag h).2).1 = fo at hc
  generalize (ape_find_header (ape_read_tag h).2).2 = f at hb
  cases fo with
  | none => exact hb
  | some found =>
    dsimp only
    by_cases c1 : found.start + found.length ≠ vfs_fsize f
    · rw [if_pos c1]
      exact hb
    rw [if_neg c1]
    have hneg : found.start < 0 := by
      rcases hc found rfl with hne | hneg
      · exact absurd (by unfold vfs_fsize; rw [hb]; exact hne) c1
      · exact hneg
    have c2 := vfs_truncate_nofault_neg f found.start hneg
    rw [if_pos c2, vfs_truncate_bytes f found.start c2]
    exact hb

/-- The items a write emits for a record carry known keys. -/
theorem known_items_known (tuple : Tuple) :
    ∀ i ∈ known_items tuple, is_known_key i.key = true := by
  intro i hi
  unfold known_items at hi
  simp only [List.mem_append] at hi
  have hs : ∀ (o : Option (List Byte)) (k : List Byte), is_known_key k = true →
      i ∈ string_item o k → is_known_key i.key = true := by
    intro o k hk hm
    cases o with
    | none => exact absurd hm (by simp [string_item])
    | some v =>
      simp only [string_item, List.mem_singleton] at hm
      rw [hm]
      exact hk
  have hn : ∀ (v : Int) (k : List Byte), is_known_key k = true →
      i ∈ integer_item v k → is_known_key i.key = true := by
    intro v k hk hm
    unfold integer_item at hm
    split_ifs at hm
    · exact absurd hm (by simp)
    · simp only [List.mem_singleton] at hm
      rw [hm]
      exact hk
  rcases hi with (((((h1 | h2) | h3) | h4) | h5) | h6) | h7
  · exact hs _ _ (by decide) h1
  · exact hs _ _ (by decide) h2
  · exact hs _ _ (by decide) h3
  · exact hs _ _ (by decide) h4
  · exact hs _ _ (by decide) h5
  · exact hn _ _ (by decide) h6
  · exact hn _ _ (by decide) h7

theorem old_items_append (a b : List ValuePair) :
    old_items (a ++ b) = old_items a ++ old_items b := by
  unfold old_items
  rw [List.filter_append, List.map_append]

/-- A second write keeps from the pairs read back what the first write kept
from the old tag. -/
theorem old_items_again (tuple : Tuple) (list : List ValuePair)
    (hl : ∀ p ∈ list, (0 : Byte) ∉ p.value) :
    old_items ((known_items tuple ++ old_items list).map RawItem.decoded)
      = old_items list := by
  rw [List.map_append, old_items_append, old_items_read list hl]
  have h1 : old_items ((known_items tuple).map RawItem.decoded) = [] := by
    unfold old_items
    rw [List.map_eq_nil_iff, List.filter_eq_nil_iff]
    intro p hp
    obtain ⟨i, hi, rfl⟩ := List.mem_map.mp hp
    simp [RawItem.decoded, known_items_known tuple i hi]
  rw [h1, List.nil_append]
  unfold old_items
  rw [List.filter_filter]
  simp only [Bool.and_self]

/-- Cutting a file at the end of `pre` gives back `pre`. -/
theorem truncated_append (pre rest : List Byte) :
    truncated (pre ++ rest) pre.length = pre := by
  unfold truncated
  rw [List.append_assoc, List.take_left]


/-- A second write of the same record reproduces the file the first write
left, when the rewritten tag is found through its footer. -/
theorem rewrite_again (tuple : Tuple) (h : VFSFile) (found : Found)
    (hf : h.faults = []) (hfound : (ape_find_header h).1 = some found)
    (hend : found.start + found.length = (h.bytes.length : Int)) (h0 : 0 ≤ found.start)
    (hz : record_at (ape_write_tag tuple h).2.bytes 0 = none)
    (hsize : (ape_write_tag tuple h).2.bytes.length < 2147483648) :
    (ape_write_tag tuple (ape_write_tag tuple h).2).2.bytes
      = (ape_write_tag tuple h).2.bytes := by
  have hl := (located_for_write_nofault h hf).trans hfound
  have hb := (ape_write_tag_nofault tuple h found hf hl hend h0).2
  have hf1 := ape_write_tag_nofaults tuple h hf
  obtain ⟨hfind, hread⟩ := rewritten_read tuple h found hf hfound hend h0 hz hsize
  have hex : ∃ found2 : Found, (ape_find_header (ape_write_tag tuple h).2).1 = some found2
      ∧ found2.start = found.start
      ∧ found2.length = ((items_data
          (known_items tuple ++ old_items (ape_read_tag h).1)).length : Int) + 64 :=
    ⟨_, hfind, rfl, rfl⟩
  obtain ⟨found2, hfind2, hs2, hl2⟩ := hex
  clear hfind
  have hlen : (ape_write_tag tuple h).2.bytes.length
      = found.start.toNat + 32
        + (items_data (known_items tuple ++ old_items (ape_read_tag h).1)).length + 32 := by
    rw [hb]
    unfold rewritten
    rw [written_length, truncated_length]
  have hend2 : found2.start + found2.length
      = ((ape_write_tag tuple h).2.bytes.length : Int) := by
    rw [hs2, hl2, hlen]
    push_cast
    rw [Int.toNat_of_nonneg h0]
    omega
  have hl1 := (located_for_write_nofault _ hf1).trans hfind2
  have hb2 := (ape_write_tag_nofault tuple (ape_write_tag tuple h).2 found2 hf1 hl1 hend2
    (by rw [hs2]; exact h0)).2
  rw [hb2, hread, hs2]
  unfold rewritten
  rw [old_items_again tuple _ (fun p hp => (ape_read_tag_cstr h p hp).2)]
  have ht : truncated (ape_write_tag tuple h).2.bytes found.start.toNat
      = truncated h.bytes found.start.toNat := by
    rw [hb]
    unfold rewritten
    rw [List.append_assoc, List.append_assoc]
    have := truncated_append (truncated h.bytes found.start.toNat)
      (header_bytes 0 0 true ++ (items_data (known_items tuple ++ old_items (ape_read_tag h).1)
        ++ header_bytes
          ((items_data (known_items tuple ++ old_items (ape_read_tag h).1)).length : Int)
          ((known_items tuple ++ old_items (ape_read_tag h).1).length : Int) false))
    rw [truncated_length] at this
    exact this
  rw [ht]
  conv_rhs => rw [hb]
  rfl

/-- Only the first four bytes count in `le32`. -/
theorem le32_take4 (l : List Byte) : le32 (l.take 4) = le32 l := by
  rcases l with _ | ⟨a, _ | ⟨b, _ | ⟨c, _ | ⟨d, r⟩⟩⟩⟩ <;> rfl

/-- Whether 32 bytes are a valid record is decided by the first 16 of them:
the magic and the length field. -/
theorem parse_header_none_congr (a b : List Byte) (h16 : a.take 16 = b.take 16)
    (hn : parse_header a = none) : parse_header b = none := by
  have h8 : a.take 8 = b.take 8 := by
    have := congrArg (List.take 8) h16
    rwa [List.take_take, List.take_take] at this
  have h12 : le32 (a.drop 12) = le32 (b.drop 12) := by
    have := congrArg (fun l => le32 (l.drop 12)) h16
    simp only [List.drop_take] at this
    rwa [le32_take4, le32_take4] at this
  unfold parse_header at hn ⊢
  rw [← h8]
  by_cases hm : a.take 8 ≠ magic
  · rw [if_pos hm]
  · rw [if_neg hm] at hn ⊢
    dsimp only at hn ⊢
    rw [← h12]
    split_ifs at hn ⊢
    rfl

/-- The first `n` bytes of a file that is cut at `n` bytes or later and then
appended to are what they were. -/
theorem take_truncated_le (bytes rest : List Byte) (s n : Nat) (hl : n ≤ bytes.length)
    (hs : n ≤ s) : (truncated bytes s ++ rest).take n = bytes.take n := by
  have h1 : n ≤ (truncated bytes s).length := by
    rw [truncated_length]
    exact hs
  rw [List.take_append_of_le_length h1]
  unfold truncated
  rw [List.take_take, Nat.min_eq_left hs, List.take_append_of_le_length hl]

/-- No valid record starts the rewritten file when none started the file and
the tag began at offset 16 or later. -/
theorem record_at_zero_truncated16 (bytes rest : List Byte) (s : Nat)
    (h0 : record_at bytes 0 = none) (hl : 32 ≤ bytes.length) (hs : 16 ≤ s) :
    record_at (truncated bytes s ++ rest) 0 = none := by
  rw [record_at_zero] at h0 ⊢
  rw [if_pos hl] at h0
  split_ifs
  · apply parse_header_none_congr _ _ _ h0
    rw [List.take_take, List.take_take]
    show List.take 16 bytes = List.take 16 (truncated bytes s ++ rest)
    rw [take_truncated_le bytes rest s 16 (by omega) hs]
  · rfl

/-- The flags of a parsed record are its bytes 20 to 23. -/
theorem parse_header_flags (buf : List Byte) (hdr : APEHeader)
    (hp : parse_header buf = some hdr) : hdr.flags = le32 (buf.drop 20) := by
  unfold parse_header at hp
  split_ifs at hp
  dsimp only at hp
  split_ifs at hp
  simp only [Option.some.injEq] at hp
  rw [← hp]

/-- No four bytes that begin at offsets 5 to 19 of the placeholder header have
both HAS_HEADER and IS_HEADER set when read as a flags field. -/
theorem placeholder_flags :
    ∀ k : Fin 20, 5 ≤ k.val →
      (hasFlag (le32 (((header_bytes 0 0 true).drop k.val).take 4)) APE_FLAG_HAS_HEADER
        && hasFlag (le32 (((header_bytes 0 0 true).drop k.val).take 4)) APE_FLAG_IS_HEADER)
        = false := by
  decide

/-- A record read at offset 0 of a file in which the placeholder header begins
at offsets 1 to 15 does not have both HAS_HEADER and IS_HEADER set. -/
theorem flags_over_placeholder (pre rest : List Byte) (hdr : APEHeader)
    (h1 : 1 ≤ pre.length) (h15 : pre.length ≤ 15)
    (hz : record_at (pre ++ header_bytes 0 0 true ++ rest) 0 = some hdr) :
    (hasFlag hdr.flags APE_FLAG_HAS_HEADER && hasFlag hdr.flags APE_FLAG_IS_HEADER)
      = false := by
  rw [record_at_zero] at hz
  split_ifs at hz
  rw [parse_header_flags _ hdr hz, ← le32_take4, List.drop_take, List.take_take,
    List.append_assoc, List.drop_append_eq_append_drop,
    List.drop_of_length_le (by omega : pre.length ≤ 20), List.nil_append,
    List.drop_append_of_le_length (by rw [header_bytes_length]; omega),
    List.take_append_of_le_length (by rw [List.length_drop, header_bytes_length]; omega)]
  have := placeholder_flags ⟨20 - pre.length, by omega⟩ (by simp only; omega)
  simpa using this


/-- A record at offset 0 that lacks HAS_HEADER or IS_HEADER ends the search:
no tag is found. -/
theorem locate_bad_header_flags (bytes : List Byte) (hdr : APEHeader)
    (h0 : record_at bytes 0 = some hdr)
    (hbad : (hasFlag hdr.flags APE_FLAG_HAS_HEADER && hasFlag hdr.flags APE_FLAG_IS_HEADER)
      = false) : locate bytes = none := by
  unfold locate
  rw [h0]
  dsimp only
  have hc : (!hasFlag hdr.flags APE_FLAG_HAS_HEADER || !hasFlag hdr.flags APE_FLAG_IS_HEADER)
      = true := by
    revert hbad
    cases hasFlag hdr.flags APE_FLAG_HAS_HEADER <;>
      cases hasFlag hdr.flags APE_FLAG_IS_HEADER <;> simp
  rw [if_pos hc]

/-- When a valid record starts the file a write has left, the tag found in it,
if any, does not end at the end of the file. -/
theorem no_tag_at_end (bytes rest : List Byte) (s : Nat) (hdr : APEHeader)
    (horig : s ≠ 0 → record_at bytes 0 = none ∧ 32 ≤ bytes.length)
    (hz : record_at (truncated bytes s ++ header_bytes 0 0 true ++ rest) 0 = some hdr)
    (found2 : Found)
    (hl : locate (truncated bytes s ++ header_bytes 0 0 true ++ rest) = some found2) :
    found2.start + found2.length
      ≠ ((truncated bytes s ++ header_bytes 0 0 true ++ rest).length : Int) := by
  by_cases h16 : 16 ≤ s
  · obtain ⟨h0, h32⟩ := horig (by omega)
    rw [List.append_assoc, record_at_zero_truncated16 bytes _ s h0 h32 h16] at hz
    exact absurd hz (by simp)
  by_cases hs0 : s = 0
  · subst hs0
    have hp : record_at (truncated bytes 0 ++ header_bytes 0 0 true ++ rest) 0
        = some { version := 2000, length := 32, items := 0,
                 flags := APE_FLAG_HAS_HEADER + APE_FLAG_IS_HEADER } := by
      have := record_at_mid (truncated bytes 0) (header_bytes 0 0 true) rest
        (header_bytes_length _ _ _)
      rw [truncated_length] at this
      rw [this, parse_header_placeholder]
    generalize truncated bytes 0 ++ header_bytes 0 0 true ++ rest = x at hp hl ⊢
    rcases locate_some x found2 hl with ⟨h0, hst, _, _, hc⟩ | ⟨h0, _⟩
    · rw [hp] at h0
      simp only [Option.some.injEq] at h0
      rw [← h0] at hc
      rcases hc with ⟨_, hr, hlen⟩ | ⟨hnf, _⟩
      · obtain ⟨f, hf⟩ := Option.isSome_iff_exists.mp hr
        have hin := (record_at_length x (32 + 32) f hf).2.2
        have e : toGint (toGint ((32 : Nat) : Int) + 32) = 64 := by decide
        rw [hst, hlen, e]
        clear hlen e hf hr hl hp h0
        omega
      · exact absurd hnf (by decide)
    · rw [hp] at h0
      exact absurd h0 (by simp)
  · have hbad := flags_over_placeholder (truncated bytes s) rest hdr
      (by rw [truncated_length]; omega) (by rw [truncated_length]; omega) hz
    rw [locate_bad_header_flags _ hdr hz hbad] at hl
    exact absurd hl (by simp)

/-- C13 (idempotence of write): for every file and every record, when no I/O
call fails and the first write leaves a file shorter than 2^31 bytes, writing
the record and then writing the same record again leaves the file, and so the
tag region, byte for byte as the first write left it.  This holds whether or
not the old tag has passthrough items: the second write reads back the items
of the first, drops the known ones and emits the same items again (or, when
the first write was refused or a valid record starts the file it left, is
refused and changes nothing). -/
theorem write_twice_same_file (tuple : Tuple) (h : VFSFile) (hf : h.faults = [])
    (hsize : (ape_write_tag tuple h).2.bytes.length < 2147483648) :
    (ape_write_tag tuple (ape_write_tag tuple h).2).2.bytes
      = (ape_write_tag tuple h).2.bytes := by
  have hf1 := ape_write_tag_nofaults tuple h hf
  have hlw := located_for_write_nofault h hf
  have hlw1 := located_for_write_nofault (ape_write_tag tuple h).2 hf1
  by_cases hc : ∀ found, located_for_write h = some found →
      found.start + found.length ≠ (h.bytes.length : Int) ∨ found.start < 0
  · have hb1 := ape_write_tag_bytes_unchanged tuple h hc
    apply ape_write_tag_bytes_unchanged
    intro found2 h2
    rw [hlw1, ape_find_header_congr _ h hf1 hf hb1, ← hlw] at h2
    rw [hb1]
    exact hc found2 h2
  · push_neg at hc
    obtain ⟨found, hfound, hend, h0⟩ := hc
    rw [hlw] at hfound
    cases hz : record_at (ape_write_tag tuple h).2.bytes 0 with
    | none => exact rewrite_again tuple h found hf hfound hend h0 hz hsize
    | some hdr =>
      apply ape_write_tag_bytes_unchanged
      intro found2 h2
      left
      rw [hlw1, ape_find_header_nofault _ hf1] at h2
      have hb := (ape_write_tag_nofault tuple h found hf (hlw.trans hfound) hend h0).2
      unfold rewritten at hb
      rw [hb] at hz h2 ⊢
      rw [List.append_assoc _ (items_data _)] at hz h2 ⊢
      have hloc : locate h.bytes = some found := by
        rw [← ape_find_header_nofault h hf]
        exact hfound
      have horig : found.start.toNat ≠ 0 →
          record_at h.bytes 0 = none ∧ 32 ≤ h.bytes.length := by
        intro hne
        exact locate_footer_first h.bytes found hloc (by omega)
      exact no_tag_at_end h.bytes _ found.start.toNat hdr horig hz found2 h2

set_option maxRecDepth 100000 in
/-- C13 at `sample_tuple` written twice into `content_tag_file`, whose tag holds
a passthrough item: the first write changes the file, the second leaves it as
it is. -/
theorem write_twice_same_file_witness :
    (content_tag_file.faults = []
        ∧ (ape_write_tag sample_tuple content_tag_file).2.bytes.length < 2147483648
        ∧ (ape_write_tag sample_tuple content_tag_file).2.bytes ≠ content_tag_file.bytes)
      ∧ (ape_write_tag sample_tuple (ape_write_tag sample_tuple content_tag_file).2).2.bytes
        = (ape_write_tag sample_tuple content_tag_file).2.bytes :=
  ⟨by decide, write_twice_same_file sample_tuple content_tag_file rfl (by decide)⟩

end Ape
